import Mathlib

/-!
Mesh flattening pass of `loadobj.cpp`

A shallow embedding of `calc_normal`, `load_obj` and `load_tex` and the
properties of the flattened buffers they produce.

Conventions of the embedding.

* `real_t` (a C `float`) is an arbitrary linear ordered field `F`: exact
  arithmetic stands in for floating point.  `sqrtf` is a parameter.
* A `std::vector` is a `List`; `size_t` values are `Nat`, `int` values are `Int`.
* A read or write outside a vector (undefined behaviour in C++) makes the
  embedded function return `none`.
* Reference parameters that the functions modify are passed in and returned
  explicitly.
-/

set_option maxRecDepth 8000
set_option linter.unusedVariables false
set_option linter.unusedSectionVars false

namespace LoadObj

/-! ## Data model (declared by `tiny_obj_loader.h`) -/

/-- The `tinyobj::index_t` record: one face corner, three `int` indices into the shared pools. -/
structure index_t where
  vertex_index : Int
  normal_index : Int
  texcoord_index : Int
  deriving DecidableEq, Repr

/-- The `tinyobj::mesh_t` record, restricted to the members the code reads. -/
structure mesh_t where
  indices : List index_t
  num_face_vertices : List Nat
  material_ids : List Int
  deriving DecidableEq, Repr

/-- The `tinyobj::shape_t` record. -/
structure shape_t where
  name : String
  mesh : mesh_t
  deriving DecidableEq, Repr

/-- The `tinyobj::attrib_t` record: the shared pools. -/
structure attrib_t (F : Type) where
  vertices : List F
  normals : List F
  texcoords : List F

/-- The `tinyobj::material_t` record, restricted to the member the code reads. -/
structure material_t where
  diffuse_texname : String
  deriving DecidableEq, Repr

/-- Three consecutive `real_t`, as in `float v[3]`. -/
structure Vec3 (F : Type) where
  c0 : F
  c1 : F
  c2 : F
  deriving DecidableEq, Repr

/-- The three components in memory order. -/
def Vec3.toList {F : Type} (v : Vec3 F) : List F := [v.c0, v.c1, v.c2]

/-- Conversion of an `int` to `size_t` (64 bit), as in `size_t current_id = material_ids[0]`. -/
def to_size_t (m : Int) : Nat := (m % 2 ^ 64).toNat

/-- The effect of `std::vector::resize(n)`: truncate, or pad with value-initialised elements. -/
def resize {α : Type} (l : List α) (n : Nat) (d : α) : List α :=
  l.take n ++ List.replicate (n - l.length) d

/-- Reading three `real_t` at `src + index * 3` (the source of a `memcpy` of
`sizeof(real_t) * 3` bytes); `none` when the range leaves the pool. -/
def fetch3 {F : Type} (pool : List F) (index : Int) : Option (Vec3 F) :=
  if 0 ≤ index * 3 then do
    let a ← pool[(index * 3).toNat]?
    let b ← pool[(index * 3).toNat + 1]?
    let c ← pool[(index * 3).toNat + 2]?
    some ⟨a, b, c⟩
  else none

/-- Writing `vals` at `dst` (a `memcpy` whose destination is the cursor
`pos` inside `buf`); `none` when the range leaves the buffer. -/
def store {F : Type} (buf : List F) (pos : Nat) (vals : List F) : Option (List F) :=
  if pos + vals.length ≤ buf.length then
    some (buf.take pos ++ vals ++ buf.drop (pos + vals.length))
  else none

section Field

variable {F : Type} [LinearOrderedField F]

/-! ## `calc_normal` -/

/-- The function `calc_normal`: `N` is returned instead of written through a pointer. -/
def calc_normal (sqrtf : F → F) (v0 v1 v2 : Vec3 F) : Vec3 F :=
  let v10 : Vec3 F := ⟨v1.c0 - v0.c0, v1.c1 - v0.c1, v1.c2 - v0.c2⟩
  let v20 : Vec3 F := ⟨v2.c0 - v0.c0, v2.c1 - v0.c1, v2.c2 - v0.c2⟩
  let N : Vec3 F :=
    ⟨v10.c1 * v20.c2 - v10.c2 * v20.c1,
     v10.c2 * v20.c0 - v10.c0 * v20.c2,
     v10.c0 * v20.c1 - v10.c1 * v20.c0⟩
  let len2 := N.c0 * N.c0 + N.c1 * N.c1 + N.c2 * N.c2
  if len2 > 0 then
    let len := sqrtf len2
    ⟨N.c0 / len, N.c1 / len, N.c2 / len⟩
  else N

/-! ## `load_obj`: segment discovery (lines 66-96) -/

/-- Locals of the face loop of the segment discovery. -/
structure SegState where
  vm : List Nat
  mm : List Nat
  current_id : Nat
  num_of_out_vertices : Nat
  deriving DecidableEq, Repr

/-- One iteration of `for (size_t f = 0; f < faces.size(); ++f)` (lines 82-91). -/
def segment_face (mash : mesh_t) (st : SegState) (f : Nat) : Option SegState := do
  let material_id := to_size_t (← mash.material_ids[f]?)
  let st1 : SegState :=
    if st.current_id ≠ material_id then
      { vm := st.vm ++ [st.num_of_out_vertices]
        mm := st.mm ++ [st.current_id]
        current_id := material_id
        num_of_out_vertices := st.num_of_out_vertices }
    else st
  let n ← mash.num_face_vertices[f]?
  some { st1 with num_of_out_vertices := st1.num_of_out_vertices + n }

/-- The body of the shape loop (lines 71-93): the new `vertex_map[s]`,
`material_map[s]` and `num_of_out_vertices`. -/
def segment_shape (mash : mesh_t) (num_of_out_vertices : Nat) :
    Option (List Nat × List Nat × Nat) :=
  if mash.num_face_vertices.length > 0 then do
    let current_id := to_size_t (← mash.material_ids[0]?)
    let st ← (List.range mash.num_face_vertices.length).foldlM (segment_face mash)
      { vm := [num_of_out_vertices], mm := [current_id], current_id := current_id,
        num_of_out_vertices := num_of_out_vertices }
    some (st.vm ++ [st.num_of_out_vertices], st.mm, st.num_of_out_vertices)
  else some ([], [], num_of_out_vertices)

/-- State of the shape loop of the segment discovery. -/
structure MapState where
  vertex_map : List (List Nat)
  material_map : List (List Nat)
  num_of_out_vertices : Nat
  deriving DecidableEq, Repr

/-- One iteration of `for (size_t s = 0; s < num_of_shapes; ++s)` (lines 70-94). -/
def segment_step (shapes : List shape_t) (st : MapState) (s : Nat) : Option MapState := do
  let sh ← shapes[s]?
  let r ← segment_shape sh.mesh st.num_of_out_vertices
  some { vertex_map := st.vertex_map.set s r.1
         material_map := st.material_map.set s r.2.1
         num_of_out_vertices := r.2.2 }

/-- Lines 66-94: both maps are resized to the number of shapes and every entry is rebuilt. -/
def compute_maps (shapes : List shape_t) (vertex_map material_map : List (List Nat)) :
    Option MapState :=
  (List.range shapes.length).foldlM (segment_step shapes)
    { vertex_map := resize vertex_map shapes.length []
      material_map := resize material_map shapes.length []
      num_of_out_vertices := 0 }

/-! ## `load_obj`: bounding box and scale (lines 98-112) -/

/-- One iteration of `for (size_t j = 0; j < num_of_input_vertices; ++j)`.
`vmin` and `vmax` hold `±INFINITY` exactly until the first vertex has been
scanned (`INFINITY > val` and `-INFINITY < val` hold for every `val`), which
is the state `none`; afterwards all six entries are finite.  The reads
`vertices[j * 3 + i]` are below `3 * (size / 3)`, so the default is never used. -/
def bbox_step (vertices : List F) (acc : Option (Vec3 F × Vec3 F)) (j : Nat) :
    Option (Vec3 F × Vec3 F) :=
  let val0 := vertices.getD (j * 3 + 0) 0
  let val1 := vertices.getD (j * 3 + 1) 0
  let val2 := vertices.getD (j * 3 + 2) 0
  match acc with
  | none => some (⟨val0, val1, val2⟩, ⟨val0, val1, val2⟩)
  | some (vmin, vmax) =>
    some (⟨if vmin.c0 > val0 then val0 else vmin.c0,
           if vmin.c1 > val1 then val1 else vmin.c1,
           if vmin.c2 > val2 then val2 else vmin.c2⟩,
          ⟨if vmax.c0 < val0 then val0 else vmax.c0,
           if vmax.c1 < val1 then val1 else vmax.c1,
           if vmax.c2 < val2 then val2 else vmax.c2⟩)

/-- The scan of lines 99-108: `none` when there is no input vertex. -/
def bbox (vertices : List F) : Option (Vec3 F × Vec3 F) :=
  (List.range (vertices.length / 3)).foldl (bbox_step vertices) none

/-- Lines 109-111. -/
def max_len (vmin vmax : Vec3 F) : F :=
  let max_len := vmax.c0 - vmin.c0
  let max_len := if max_len < vmax.c1 - vmin.c1 then vmax.c1 - vmin.c1 else max_len
  let max_len := if max_len < vmax.c2 - vmin.c2 then vmax.c2 - vmin.c2 else max_len
  max_len

/-- Line 112, `final_scale = scale / max_len`.  Without input vertices
`max_len` is `-INFINITY` and the quotient is a zero.  With a degenerate box
(`max_len = 0`) the C++ quotient is infinite or NaN, which exact arithmetic
does not represent: the embedding is meaningful for `max_len ≠ 0` only. -/
def final_scale (vertices : List F) (scale : F) : F :=
  match bbox vertices with
  | none => 0
  | some (vmin, vmax) => scale / max_len vmin vmax

/-! ## `load_obj`: unshare and emit (lines 114-161) -/

/-- The output buffers with the two write cursors (`vertex_dst_ptr`,
`normal_dst_ptr`, as offsets from `data()`). -/
structure EmitState (F : Type) where
  vertices_out : List F
  normals_out : List F
  vertex_dst : Nat
  normal_dst : Nat

/-- Lines 137-142 for one `k`: fetch a position and scale it. -/
def scaled_vertex (vertices : List F) (fs : F) (i : index_t) : Option (Vec3 F) := do
  let v ← fetch3 vertices i.vertex_index
  some ⟨v.c0 * fs, v.c1 * fs, v.c2 * fs⟩

/-- Lines 144-154: the three corner normals of a face. -/
def face_normals (sqrtf : F → F) (normals : List F) (i0 i1 i2 : index_t) (v0 v1 v2 : Vec3 F) :
    Option (Vec3 F × Vec3 F × Vec3 F) :=
  if normals.length = 0 then
    let n0 := calc_normal sqrtf v0 v1 v2
    some (n0, n0, n0)
  else do
    let n0 ← fetch3 normals i0.normal_index
    let n1 ← fetch3 normals i1.normal_index
    let n2 ← fetch3 normals i2.normal_index
    some (n0, n1, n2)

/-- One iteration of `for (size_t f = 0; f < num_of_faces; ++f)` (lines 127-160). -/
def emit_face (sqrtf : F → F) (attrib : attrib_t F) (fs : F) (mesh : mesh_t)
    (st : EmitState F) (f : Nat) : Option (EmitState F) := do
  let i0 ← mesh.indices[3 * f + 0]?
  let i1 ← mesh.indices[3 * f + 1]?
  let i2 ← mesh.indices[3 * f + 2]?
  let v0 ← scaled_vertex attrib.vertices fs i0
  let v1 ← scaled_vertex attrib.vertices fs i1
  let v2 ← scaled_vertex attrib.vertices fs i2
  let n ← face_normals sqrtf attrib.normals i0 i1 i2 v0 v1 v2
  let vout ← store st.vertices_out st.vertex_dst (v0.toList ++ v1.toList ++ v2.toList)
  let nout ← store st.normals_out st.normal_dst (n.1.toList ++ n.2.1.toList ++ n.2.2.toList)
  some { vertices_out := vout, normals_out := nout,
         vertex_dst := st.vertex_dst + 9, normal_dst := st.normal_dst + 9 }

/-- The face loop of one shape (lines 125-160). -/
def emit_shape (sqrtf : F → F) (attrib : attrib_t F) (fs : F) (st : EmitState F)
    (sh : shape_t) : Option (EmitState F) :=
  (List.range sh.mesh.num_face_vertices.length).foldlM (emit_face sqrtf attrib fs sh.mesh) st

/-- One iteration of `for (size_t s = 0; s < num_of_shapes; ++s)` (lines 123-161). -/
def emit_step (sqrtf : F → F) (attrib : attrib_t F) (fs : F) (shapes : List shape_t)
    (st : EmitState F) (s : Nat) : Option (EmitState F) := do
  let sh ← shapes[s]?
  emit_shape sqrtf attrib fs st sh

/-! ## `load_obj` -/

/-- What the external parser `LoadObj` leaves behind: its return value and
the contents of `attrib` and `shapes` (`materials` is not read by `load_obj`). -/
structure Parsed (F : Type) where
  ret : Bool
  attrib : attrib_t F
  shapes : List shape_t

/-- The four output containers of `load_obj`. -/
structure Outputs (F : Type) where
  vertices_out : List F
  normals_out : List F
  vertex_map : List (List Nat)
  material_map : List (List Nat)
  deriving DecidableEq

/-- The function `load_obj`, after the call of the parser.  The result is the
returned `bool` with the contents of the output containers. -/
def load_obj (sqrtf : F → F) (p : Parsed F) (scale : F) (out : Outputs F) :
    Option (Bool × Outputs F) :=
  if !p.ret then some (false, out)
  else do
    let m ← compute_maps p.shapes out.vertex_map out.material_map
    let vertices_out := resize out.vertices_out (m.num_of_out_vertices * 3) 0
    let normals_out := resize out.normals_out (m.num_of_out_vertices * 3) 0
    let fs := final_scale p.attrib.vertices scale
    let e ← (List.range p.shapes.length).foldlM (emit_step sqrtf p.attrib fs p.shapes)
      { vertices_out := vertices_out, normals_out := normals_out,
        vertex_dst := 0, normal_dst := 0 }
    some (true, { vertices_out := e.vertices_out, normals_out := e.normals_out,
                  vertex_map := m.vertex_map, material_map := m.material_map })

/-! ## `load_tex` and `generate_tex` -/

/-- Outcome of a loop body that may execute `return false`: either the loop
goes on with the state `st`, or the function has returned with the state `st`. -/
inductive Flow (σ : Type) where
  | running (st : σ)
  | returned (st : σ)

/-- A loop body lifted to `Flow`: after a `return` nothing more is executed. -/
def Flow.step {σ ι : Type} (body : σ → ι → Option (Flow σ)) (fl : Flow σ) (i : ι) :
    Option (Flow σ) :=
  match fl with
  | Flow.running st => body st i
  | Flow.returned st => some (Flow.returned st)

/-- The state carried by a `Flow`. -/
def Flow.state {σ : Type} : Flow σ → σ
  | Flow.running st => st
  | Flow.returned st => st

/-- Whether the function has executed `return false`. -/
def Flow.isReturned {σ : Type} : Flow σ → Bool
  | Flow.running _ => false
  | Flow.returned _ => true

/-- Reading two `real_t` at `src + index * 2` (the source of a `memcpy` of
`sizeof(real_t) * 2` bytes); `none` when the range leaves the pool. -/
def fetch2 {F : Type} (pool : List F) (index : Int) : Option (F × F) :=
  if 0 ≤ index * 2 then do
    let a ← pool[(index * 2).toNat]?
    let b ← pool[(index * 2).toNat + 1]?
    some (a, b)
  else none

/-- The buffer `texcoords_out` with its write cursor `texcoords_dst_ptr`. -/
structure TexState (F : Type) where
  texcoords_out : List F
  texcoords_dst : Nat

/-- Lines 220-223 for one `i`: copy a texture coordinate and flip `t`. -/
def flipped_texcoord (texcoords : List F) (idx : Int) : Option (F × F) := do
  let tc ← fetch2 texcoords idx
  some (tc.1, 1 - tc.2)

/-- One iteration of `for (size_t f = 0; f < num_of_faces; ++f)` (lines 205-231). -/
def tex_face (texcoords : List F) (mesh : mesh_t) (st : TexState F) (f : Nat) :
    Option (Flow (TexState F)) := do
  let idx0 := (← mesh.indices[3 * f + 0]?).texcoord_index
  let idx1 := (← mesh.indices[3 * f + 1]?).texcoord_index
  let idx2 := (← mesh.indices[3 * f + 2]?).texcoord_index
  if texcoords.length > 0 then
    if idx0 < 0 ∨ idx1 < 0 ∨ idx2 < 0 then
      some (Flow.returned st)
    else do
      let tc0 ← flipped_texcoord texcoords idx0
      let tc1 ← flipped_texcoord texcoords idx1
      let tc2 ← flipped_texcoord texcoords idx2
      let out ← store st.texcoords_out st.texcoords_dst [tc0.1, tc0.2, tc1.1, tc1.2, tc2.1, tc2.2]
      some (Flow.running { texcoords_out := out, texcoords_dst := st.texcoords_dst + 6 })
  else do
    let out ← store st.texcoords_out st.texcoords_dst [0, 0, 0, 0, 0, 0]
    some (Flow.running { texcoords_out := out, texcoords_dst := st.texcoords_dst + 6 })

/-- The face loop of one shape (lines 202-231). -/
def tex_shape (texcoords : List F) (shapes : List shape_t) (st : TexState F) (s : Nat) :
    Option (Flow (TexState F)) := do
  let sh ← shapes[s]?
  (List.range (sh.mesh.indices.length / 3)).foldlM (Flow.step (tex_face texcoords sh.mesh))
    (Flow.running st)

/-- Part 1 of `load_tex` (lines 189-232). -/
def texcoord_pass (texcoords_out texcoords : List F) (shapes : List shape_t) :
    Option (Flow (TexState F)) :=
  let total_num_of_vectices := (shapes.map (fun sh => sh.mesh.indices.length)).sum
  (List.range shapes.length).foldlM (Flow.step (tex_shape texcoords shapes))
    (Flow.running { texcoords_out := resize texcoords_out (total_num_of_vectices * 2) 0
                    texcoords_dst := 0 })

/-- The collaborators of the texture pass: the file system seen by `fopen`,
the image decoder `stbi_load` (only the channel count of a decoded image is
inspected) and the names handed out by successive `glGenTextures` calls. -/
structure TexWorld where
  file_exists : String → Bool
  stbi_load : String → Option Int
  gen_name : Nat → Nat

/-- The part of the graphics state the code changes: the live texture
objects, the number of `glGenTextures` calls and the paths decoded so far. -/
structure GLState where
  textures : List Nat
  generated : Nat
  decoded : List String
  deriving DecidableEq, Repr

/-- The function `has_file`. -/
def has_file (w : TexWorld) (filepath : String) : Bool :=
  if w.file_exists filepath then true else false

/-- Modelled from the spec: the macro `MAP_FIND` of `loadobj.h`, which is not
part of the sources, taken as key membership in the map. -/
def MAP_FIND (m : List (String × Nat)) (key : String) : Bool :=
  (m.lookup key).isSome

/-- The assignment `texmap_out[texname] = texture_id` on a `std::map`. -/
def map_assign (m : List (String × Nat)) (key : String) (val : Nat) : List (String × Nat) :=
  if MAP_FIND m key then m.map (fun kv => if kv.1 = key then (key, val) else kv)
  else m ++ [(key, val)]

/-- The function `generate_tex`: the returned `GLuint` and the graphics
state.  Binding, parameter, upload and mipmap calls do not change `GLState`. -/
def generate_tex (w : TexWorld) (tex_file_path : String) (min_filter mag_filter : Int)
    (gl : GLState) : Nat × GLState :=
  let gl := { gl with decoded := gl.decoded ++ [tex_file_path] }
  match w.stbi_load tex_file_path with
  | none => (0, gl)
  | some num_of_components =>
    let texture_id := w.gen_name gl.generated
    let gl := { gl with textures := gl.textures ++ [texture_id], generated := gl.generated + 1 }
    let is_supported := if num_of_components = 3 then true
      else if num_of_components = 4 then true else false
    if !is_supported then
      ((-1 : Int) % 2 ^ 32 |>.toNat, { gl with textures := gl.textures.erase texture_id })
    else (texture_id, gl)

/-- The containers `load_tex` writes, with the graphics state. -/
structure TexOutputs (F : Type) where
  texcoords_out : List F
  texmap_out : List (String × Nat)
  gl : GLState
  deriving DecidableEq

/-- State of the material loop. -/
structure RegState where
  texmap_out : List (String × Nat)
  gl : GLState
  deriving DecidableEq, Repr

/-- Lines 256-262: generate a texture object and register it. -/
def register_tex (w : TexWorld) (min_filter mag_filter : Int) (texname full_texpath : String)
    (st : RegState) : Flow RegState :=
  let r := generate_tex w full_texpath min_filter mag_filter st.gl
  let texture_id := r.1
  if texture_id < 0 then Flow.returned { st with gl := r.2 }
  else Flow.running { texmap_out := map_assign st.texmap_out texname texture_id, gl := r.2 }

/-- One iteration of `for (size_t m = 0; m < num_of_materials; ++m)` (lines 238-263). -/
def tex_material (w : TexWorld) (basedir : String) (min_filter mag_filter : Int)
    (materials : List material_t) (st : RegState) (m : Nat) : Option (Flow RegState) := do
  let mat ← materials[m]?
  let texname := mat.diffuse_texname
  if texname.isEmpty then some (Flow.running st)
  else if MAP_FIND st.texmap_out texname then some (Flow.running st)
  else
    let full_texpath := texname
    if !has_file w full_texpath then
      let full_texpath := basedir ++ texname
      if !has_file w full_texpath then some (Flow.returned st)
      else some (register_tex w min_filter mag_filter texname full_texpath st)
    else some (register_tex w min_filter mag_filter texname full_texpath st)

/-- The function `load_tex`: the returned `bool` with the contents of the
output containers and the graphics state. -/
def load_tex (w : TexWorld) (basedir : String) (out : TexOutputs F) (texcoords : List F)
    (shapes : List shape_t) (materials : List material_t) (min_filter mag_filter : Int) :
    Option (Bool × TexOutputs F) := do
  match ← texcoord_pass out.texcoords_out texcoords shapes with
  | Flow.returned t =>
    some (false, { out with texcoords_out := t.texcoords_out })
  | Flow.running t =>
    let r ← (List.range materials.length).foldlM
      (Flow.step (tex_material w basedir min_filter mag_filter materials))
      (Flow.running { texmap_out := out.texmap_out, gl := out.gl })
    some (!r.isReturned,
      { texcoords_out := t.texcoords_out, texmap_out := r.state.texmap_out, gl := r.state.gl })


/-- The three floats at `index * 3` lie inside the pool. -/
def InRange3 {F : Type} (pool : List F) (index : Int) : Prop :=
  0 ≤ index ∧ 3 * index + 3 ≤ pool.length

/-- The precondition of `load_obj` on the parsed mesh: triangles only, one
material id per face, three corners per face, and every index the emit pass
uses inside its pool. -/
def WellFormed {F : Type} (attrib : attrib_t F) (shapes : List shape_t) : Prop :=
  ∀ sh ∈ shapes,
    sh.mesh.material_ids.length = sh.mesh.num_face_vertices.length ∧
    sh.mesh.indices.length = 3 * sh.mesh.num_face_vertices.length ∧
    (∀ n ∈ sh.mesh.num_face_vertices, n = 3) ∧
    ∀ i ∈ sh.mesh.indices, InRange3 attrib.vertices i.vertex_index ∧
      (attrib.normals.length ≠ 0 → InRange3 attrib.normals i.normal_index)

/-- Every position of the input pool is referenced by a corner of some face. -/
def AllReferenced {F : Type} (attrib : attrib_t F) (shapes : List shape_t) : Prop :=
  ∀ j : Nat, j < attrib.vertices.length / 3 →
    ∃ (s : Nat) (sh : shape_t) (f k : Nat) (c : index_t),
      shapes[s]? = some sh ∧ f < sh.mesh.num_face_vertices.length ∧ k < 3 ∧
      sh.mesh.indices[3 * f + k]? = some c ∧ c.vertex_index = (j : Int)

/-- Some corner of face `f` carries a negative `texcoord_index`. -/
def NegFace (mesh : mesh_t) (f : Nat) : Prop :=
  ∃ (k : Nat) (c : index_t), k < 3 ∧ mesh.indices[3 * f + k]? = some c ∧ c.texcoord_index < 0

/-- Number of faces `load_tex` visits in the shapes before shape `s`. -/
def tex_faces_before (shapes : List shape_t) (s : Nat) : Nat :=
  ((shapes.take s).map (fun sh => sh.mesh.indices.length / 3)).sum

/-- Total number of corners, as `load_tex` counts them. -/
def total_corners (shapes : List shape_t) : Nat :=
  (shapes.map (fun sh => sh.mesh.indices.length)).sum

/-- The state `b` extends the state `a` of the texcoord pass. -/
def TexState.Extends {F : Type} (a b : TexState F) : Prop :=
  a.texcoords_dst ≤ b.texcoords_dst ∧
  b.texcoords_out.length = a.texcoords_out.length ∧
  (∀ i, i < a.texcoords_dst → b.texcoords_out[i]? = a.texcoords_out[i]?)

/-- The two floats at `index * 2` lie inside the pool, for every index that is not negative. -/
def TexInRange {F : Type} (texcoords : List F) (shapes : List shape_t) : Prop :=
  ∀ sh ∈ shapes, ∀ c ∈ sh.mesh.indices,
    0 ≤ c.texcoord_index → 2 * c.texcoord_index + 2 ≤ texcoords.length

/-! ## Vocabulary of the statements -/

/-- The pure content of one iteration of the face loop of the segment
discovery, on the pair (material id as `size_t`, vertex count) of the face. -/
def seg_push (st : SegState) (x : Nat × Nat) : SegState :=
  { vm := if st.current_id ≠ x.1 then st.vm ++ [st.num_of_out_vertices] else st.vm
    mm := if st.current_id ≠ x.1 then st.mm ++ [st.current_id] else st.mm
    current_id := x.1
    num_of_out_vertices := st.num_of_out_vertices + x.2 }

/-- The faces of a mesh as the segment discovery reads them. -/
def seg_input (mash : mesh_t) : List (Nat × Nat) :=
  ((mash.material_ids.map to_size_t).zip mash.num_face_vertices).take
    mash.num_face_vertices.length

/-- The material ids of the faces of a mesh, one per face, as the code compares them. -/
def face_material_ids (mash : mesh_t) : List Nat :=
  (mash.material_ids.take mash.num_face_vertices.length).map to_size_t

/-- Number of faces of the shapes before shape `s`. -/
def faces_before (shapes : List shape_t) (s : Nat) : Nat :=
  ((shapes.take s).map (fun sh => sh.mesh.num_face_vertices.length)).sum

/-- Number of face vertices of the shapes before shape `s`. -/
def verts_before (shapes : List shape_t) (s : Nat) : Nat :=
  ((shapes.take s).map (fun sh => sh.mesh.num_face_vertices.sum)).sum

/-- Total number of faces over all shapes. -/
def total_faces (shapes : List shape_t) : Nat :=
  (shapes.map (fun sh => sh.mesh.num_face_vertices.length)).sum

/-- Every face of every shape has exactly three vertices. -/
def Triangles (shapes : List shape_t) : Prop :=
  ∀ sh ∈ shapes, ∀ n ∈ sh.mesh.num_face_vertices, n = 3

/-- The values one iteration of the face loop of the emit pass reads and
computes: the nine scaled positions and the nine normals of face `f`. -/
def face_values (sqrtf : F → F) (attrib : attrib_t F) (fs : F) (mesh : mesh_t) (f : Nat) :
    Option (List F × List F) := do
  let i0 ← mesh.indices[3 * f + 0]?
  let i1 ← mesh.indices[3 * f + 1]?
  let i2 ← mesh.indices[3 * f + 2]?
  let v0 ← scaled_vertex attrib.vertices fs i0
  let v1 ← scaled_vertex attrib.vertices fs i1
  let v2 ← scaled_vertex attrib.vertices fs i2
  let n ← face_normals sqrtf attrib.normals i0 i1 i2 v0 v1 v2
  some (v0.toList ++ v1.toList ++ v2.toList, n.1.toList ++ n.2.1.toList ++ n.2.2.toList)

/-- The state `b` extends the state `a` of the emit pass: the buffers keep their
sizes, the cursors do not move back and everything below the cursors of `a`
is unchanged. -/
def EmitState.Extends (a b : EmitState F) : Prop :=
  a.vertex_dst ≤ b.vertex_dst ∧ a.normal_dst ≤ b.normal_dst ∧
  b.vertices_out.length = a.vertices_out.length ∧
  b.normals_out.length = a.normals_out.length ∧
  (∀ i, i < a.vertex_dst → b.vertices_out[i]? = a.vertices_out[i]?) ∧
  (∀ i, i < a.normal_dst → b.normals_out[i]? = a.normals_out[i]?)

/-- The `i`-th coordinates of the positions of a buffer of packed triples. -/
def axis_values (vertices : List F) (i : Nat) : List F :=
  (List.range (vertices.length / 3)).map (fun j => vertices.getD (j * 3 + i) 0)

/-- The number `m` is the least element of the list. -/
def IsMinOf (l : List F) (m : F) : Prop := m ∈ l ∧ ∀ x ∈ l, m ≤ x

/-- The number `m` is the greatest element of the list. -/
def IsMaxOf (l : List F) (m : F) : Prop := m ∈ l ∧ ∀ x ∈ l, x ≤ m

/-- The corners `lo`, `hi` are the per-axis minima and maxima over all positions of the buffer. -/
def IsBox (vertices : List F) (lo hi : Vec3 F) : Prop :=
  IsMinOf (axis_values vertices 0) lo.c0 ∧ IsMaxOf (axis_values vertices 0) hi.c0 ∧
  IsMinOf (axis_values vertices 1) lo.c1 ∧ IsMaxOf (axis_values vertices 1) hi.c1 ∧
  IsMinOf (axis_values vertices 2) lo.c2 ∧ IsMaxOf (axis_values vertices 2) hi.c2

/-- The largest per-axis extent of a box. -/
def extent (lo hi : Vec3 F) : F :=
  max (max (hi.c0 - lo.c0) (hi.c1 - lo.c1)) (hi.c2 - lo.c2)

/-- The cross product `(v1 - v0) × (v2 - v0)` of a triangle. -/
def cross (v0 v1 v2 : Vec3 F) : Vec3 F :=
  ⟨(v1.c1 - v0.c1) * (v2.c2 - v0.c2) - (v1.c2 - v0.c2) * (v2.c1 - v0.c1),
   (v1.c2 - v0.c2) * (v2.c0 - v0.c0) - (v1.c0 - v0.c0) * (v2.c2 - v0.c2),
   (v1.c0 - v0.c0) * (v2.c1 - v0.c1) - (v1.c1 - v0.c1) * (v2.c0 - v0.c0)⟩

/-- The running minimum of the scan of one axis, `none` standing for `INFINITY`. -/
def run_min (acc : Option F) (val : F) : Option F :=
  match acc with
  | none => some val
  | some m => some (if m > val then val else m)

/-- The running maximum of the scan of one axis, `none` standing for `-INFINITY`. -/
def run_max (acc : Option F) (val : F) : Option F :=
  match acc with
  | none => some val
  | some m => some (if m < val then val else m)

end Field

instance (shapes : List shape_t) : Decidable (Triangles shapes) := by
  unfold Triangles; infer_instance

instance {F : Type} (pool : List F) (index : Int) : Decidable (InRange3 pool index) := by
  unfold InRange3; infer_instance

instance {F : Type} (attrib : attrib_t F) (shapes : List shape_t) :
    Decidable (WellFormed attrib shapes) := by
  unfold WellFormed; infer_instance

/-! ## Sample inputs -/

/-- A face whose three corners use the same index into every pool. -/
def ex_face (a b c : Int) : List index_t := [⟨a, a, a⟩, ⟨b, b, b⟩, ⟨c, c, c⟩]

/-- Three positions and no normals. -/
def ex_attrib (F : Type) [LinearOrderedField F] : attrib_t F :=
  ⟨[0, 0, 0, 2, 0, 0, 0, 1, 0], [], []⟩

/-- Four positions, the last one far away, and three normals that are not unit vectors. -/
def ex_attrib_n (F : Type) [LinearOrderedField F] : attrib_t F :=
  ⟨[0, 0, 0, 2, 0, 0, 0, 1, 0, 10, 0, 0], [0, 0, 1, 0, 3, 4, 1, 0, 0], []⟩

/-- One triangle. -/
def ex_shape1 : shape_t := ⟨"one", ⟨ex_face 0 1 2, [3], [5]⟩⟩

/-- Six triangles whose material ids are `[0,0,1,1,1,0]`. -/
def ex_shape6 : shape_t :=
  ⟨"six", ⟨ex_face 0 1 2 ++ ex_face 0 2 1 ++ ex_face 1 2 0 ++ ex_face 0 1 2 ++ ex_face 2 1 0
      ++ ex_face 1 0 2, [3, 3, 3, 3, 3, 3], [0, 0, 1, 1, 1, 0]⟩⟩

/-- A successful parse with two shapes. -/
def ex_parsed (F : Type) [LinearOrderedField F] : Parsed F :=
  ⟨true, ex_attrib F, [ex_shape6, ex_shape1]⟩

/-- A successful parse of one triangle, with normals and an unreferenced position. -/
def ex_parsed_n (F : Type) [LinearOrderedField F] : Parsed F :=
  ⟨true, ex_attrib_n F, [ex_shape1]⟩

/-- Output containers that were in use before the call. -/
def ex_out (F : Type) [LinearOrderedField F] : Outputs F :=
  ⟨[7, 7], [], [[1, 2], [], [4]], [[9]]⟩

instance {F : Type} [LinearOrderedField F] (l : List F) (m : F) : Decidable (IsMinOf l m) := by
  unfold IsMinOf; infer_instance

instance {F : Type} [LinearOrderedField F] (l : List F) (m : F) : Decidable (IsMaxOf l m) := by
  unfold IsMaxOf; infer_instance

instance {F : Type} [LinearOrderedField F] (vertices : List F) (lo hi : Vec3 F) :
    Decidable (IsBox vertices lo hi) := by
  unfold IsBox; infer_instance

instance {F : Type} (texcoords : List F) (shapes : List shape_t) :
    Decidable (TexInRange texcoords shapes) := by
  unfold TexInRange; infer_instance

/-- A triangle whose corners use the texture coordinates 1, 0, 1. -/
def ex_shape_tex : shape_t := ⟨"tex", ⟨[⟨0, 0, 1⟩, ⟨1, 1, 0⟩, ⟨2, 2, 1⟩], [3], [0]⟩⟩

/-- A triangle whose second corner has no texture coordinate (index `-1`). -/
def ex_shape_neg : shape_t := ⟨"neg", ⟨[⟨0, 0, 0⟩, ⟨1, 1, -1⟩, ⟨2, 2, 0⟩], [3], [0]⟩⟩

/-- A triangle whose first corner refers to a texture coordinate beyond a pool of two. -/
def ex_shape_far : shape_t := ⟨"far", ⟨[⟨0, 0, 5⟩, ⟨1, 1, 0⟩, ⟨2, 2, 0⟩], [3], [0]⟩⟩

/-- Two texture coordinates. -/
def ex_texcoords (F : Type) [LinearOrderedField F] : List F := [1 / 4, 1 / 3, 1 / 5, 1 / 7]

/-- A world without files. -/
def ex_world : TexWorld := ⟨fun _ => false, fun _ => none, fun n => n + 1⟩

/-- A graphics state without textures. -/
def ex_gl : GLState := ⟨[], 0, []⟩

/-- A world with three files: `a.png` (3 channels), `dir/b.png` (2 channels) and
`bad.png`, which the decoder cannot read. -/
def ex_world_files : TexWorld :=
  ⟨fun p => p == "a.png" || p == "dir/b.png" || p == "bad.png",
   fun p => if p == "a.png" then some 3 else if p == "dir/b.png" then some 2 else none,
   fun n => n + 1⟩

/-- Five materials: `a.png` twice, one without texture, `b.png` and `bad.png`. -/
def ex_materials : List material_t := [⟨"a.png"⟩, ⟨""⟩, ⟨"a.png"⟩, ⟨"b.png"⟩, ⟨"bad.png"⟩]

/-! ## Vocabulary of the normals -/

/-- The squared Euclidean length of a vector. -/
def sq_len {F : Type} [LinearOrderedField F] (v : Vec3 F) : F :=
  v.c0 * v.c0 + v.c1 * v.c1 + v.c2 * v.c2

/-- The point `c * v`. -/
def Vec3.scale {F : Type} [LinearOrderedField F] (c : F) (v : Vec3 F) : Vec3 F :=
  ⟨c * v.c0, c * v.c1, c * v.c2⟩

/-! ## Vocabulary of the emit pass -/

/-- The state of the emit pass when its loops reach face `f` of shape `s`. -/
def emit_before {F : Type} [LinearOrderedField F] (sqrtf : F → F) (attrib : attrib_t F) (fs : F)
    (shapes : List shape_t) (init : EmitState F) (s f : Nat) : Option (EmitState F) := do
  let st ← (List.range s).foldlM (emit_step sqrtf attrib fs shapes) init
  let sh ← shapes[s]?
  (List.range f).foldlM (emit_face sqrtf attrib fs sh.mesh) st

/-! ## Vocabulary of the segments -/

/-- Face `f` starts a new run: it is not the first face and its material id differs from
the material id of the face before it. -/
def is_boundary (ids : List Nat) (f : Nat) : Bool :=
  decide (0 < f ∧ ids.getD f 0 ≠ ids.getD (f - 1) 0)

/-- The output-vertex offset of face `f`: `base` plus the vertex counts of the faces before it. -/
def face_offset (counts : List Nat) (base f : Nat) : Nat :=
  base + (counts.take f).sum

/-- The faces of a mesh at which a new run starts. -/
def boundaries (mash : mesh_t) : List Nat :=
  (List.range mash.num_face_vertices.length).filter (is_boundary (face_material_ids mash))

/-- The maximal runs of consecutive faces with equal material id, each face as the pair
of its material id and its vertex count. -/
def face_runs (mash : mesh_t) : List (List (Nat × Nat)) :=
  (seg_input mash).splitBy (fun x y => x.1 == y.1)

/-- The summed vertex counts of a run. -/
def run_size (r : List (Nat × Nat)) : Nat := (r.map Prod.snd).sum

/-- The start offsets of consecutive runs from `base` on, followed by the end of the last. -/
def offsets_from (base : Nat) : List (List (Nat × Nat)) → List Nat
  | [] => [base]
  | r :: rs => base :: offsets_from (base + run_size r) rs

/-! ## Vocabulary of the material loop -/

/-- The state of the material loop of `load_tex` when it reaches material `m`
(lines 238-263, started with the containers `init`). -/
def reg_before (w : TexWorld) (basedir : String) (min_filter mag_filter : Int)
    (materials : List material_t) (init : RegState) (m : Nat) : Option (Flow RegState) :=
  (List.range m).foldlM (Flow.step (tex_material w basedir min_filter mag_filter materials))
    (Flow.running init)

/-- The path under which `load_tex` finds the texture `texname`: the bare name
is tried first, then `basedir + texname` (lines 246-254). -/
def FoundAt (w : TexWorld) (basedir texname path : String) : Prop :=
  (has_file w texname = true ∧ path = texname) ∨
  (has_file w texname = false ∧ has_file w (basedir ++ texname) = true ∧
    path = basedir ++ texname)

/-- Iteration `m` of the material loop reaches line 257 in the state `st` and calls
`generate_tex` with `path` for the texture name `texname`. -/
def GeneratesAt (w : TexWorld) (basedir : String) (min_filter mag_filter : Int)
    (materials : List material_t) (init : RegState) (m : Nat) (texname path : String)
    (st : RegState) : Prop :=
  reg_before w basedir min_filter mag_filter materials init m = some (Flow.running st) ∧
  (∃ mat, materials[m]? = some mat ∧ mat.diffuse_texname = texname) ∧
  texname.isEmpty = false ∧ MAP_FIND st.texmap_out texname = false ∧
  FoundAt w basedir texname path

/-- Iteration `m` of the material loop reaches the `return false` of line 252: the
material's texture name is not empty, not yet registered, and its file exists
neither under the bare name nor under `basedir + texname`. -/
def MissingAt (w : TexWorld) (basedir : String) (min_filter mag_filter : Int)
    (materials : List material_t) (init : RegState) (m : Nat) : Prop :=
  ∃ st mat,
    reg_before w basedir min_filter mag_filter materials init m = some (Flow.running st) ∧
    materials[m]? = some mat ∧ mat.diffuse_texname.isEmpty = false ∧
    MAP_FIND st.texmap_out mat.diffuse_texname = false ∧
    has_file w mat.diffuse_texname = false ∧
    has_file w (basedir ++ mat.diffuse_texname) = false

/-- Number of entries of the map stored under `key`. -/
def key_count (m : List (String × Nat)) (key : String) : Nat :=
  (m.map Prod.fst).count key

/-- The containers `b` keep what `a` holds: every entry of `a` is found in `b` with the
same handle, and a key of `a` has as many entries in `b` as in `a`. -/
def RegState.Keeps (a b : RegState) : Prop :=
  (∀ k h, a.texmap_out.lookup k = some h → b.texmap_out.lookup k = some h) ∧
  (∀ k, MAP_FIND a.texmap_out k = true → key_count b.texmap_out k = key_count a.texmap_out k)

/-! ## Loops over `List.range` -/

theorem range_split {k n : Nat} (h : k < n) :
    ∃ l2, List.range n = List.range k ++ k :: l2 := by
  induction n with
  | zero => omega
  | succ n ih =>
    rcases Nat.lt_succ_iff_lt_or_eq.mp h with h1 | h1
    · obtain ⟨l2, hl⟩ := ih h1
      exact ⟨l2 ++ [n], by rw [List.range_succ, hl]; simp⟩
    · subst h1
      exact ⟨[], List.range_succ k⟩

theorem foldlM_range_succ {σ : Type} (step : σ → Nat → Option σ) (n : Nat) (a : σ) :
    (List.range (n + 1)).foldlM step a = (List.range n).foldlM step a >>= fun b => step b n := by
  rw [List.range_succ, List.foldlM_append]
  congr 1
  funext b
  simp [List.foldlM_cons]

theorem foldlM_split {σ ι : Type} (step : σ → ι → Option σ) (l1 l2 : List ι) (x : ι) (a b : σ)
    (h : (l1 ++ x :: l2).foldlM step a = some b) :
    ∃ a1 a2, l1.foldlM step a = some a1 ∧ step a1 x = some a2 ∧ l2.foldlM step a2 = some b := by
  simp only [List.foldlM_append, List.foldlM_cons, Option.bind_eq_bind, Option.bind_eq_some] at h
  obtain ⟨a1, h1, a2, h2, h3⟩ := h
  exact ⟨a1, a2, h1, h2, h3⟩

theorem foldlM_rel {σ ι : Type} (R : σ → σ → Prop) (hrefl : ∀ a, R a a)
    (htrans : ∀ a b c, R a b → R b c → R a c) (step : σ → ι → Option σ)
    (hstep : ∀ a i b, step a i = some b → R a b) :
    ∀ (l : List ι) (a b : σ), l.foldlM step a = some b → R a b := by
  intro l
  induction l with
  | nil => intro a b h; simp at h; subst h; exact hrefl a
  | cons x l ih =>
    intro a b h
    rw [List.foldlM_cons] at h
    cases h1 : step a x with
    | none => rw [h1] at h; simp at h
    | some a1 =>
      rw [h1] at h
      exact htrans _ _ _ (hstep _ _ _ h1) (ih _ _ (by simpa using h))

theorem foldlM_range_map {α σ : Type} (l : List α) (g : σ → α → σ) (n : Nat) (b : σ) :
    (List.range n).foldlM (fun st i => (l[i]?).map (g st)) b
      = if n ≤ l.length then some ((l.take n).foldl g b) else none := by
  induction n with
  | zero => simp
  | succ n ih =>
    rw [foldlM_range_succ, ih]
    by_cases h : n + 1 ≤ l.length
    · have h1 : n ≤ l.length := by omega
      have h2 : n < l.length := by omega
      rw [if_pos h, if_pos h1, List.getElem?_eq_getElem h2]
      have h3 : l.take (n + 1) = l.take n ++ [l[n]] := by
        rw [List.take_succ, List.getElem?_eq_getElem h2]; rfl
      rw [h3, List.foldl_append]
      rfl
    · rw [if_neg h]
      by_cases h1 : n ≤ l.length
      · have h2 : l.length ≤ n := by omega
        rw [if_pos h1, List.getElem?_eq_none h2]
        rfl
      · rw [if_neg h1]
        rfl

/-! ## Segment discovery -/

theorem segment_face_eq (mash : mesh_t) (st : SegState) (f : Nat) :
    segment_face mash st f
      = (((mash.material_ids.map to_size_t).zip mash.num_face_vertices)[f]?).map (seg_push st) := by
  unfold segment_face
  rw [List.zip_eq_zipWith, List.getElem?_zipWith, List.getElem?_map]
  cases h1 : mash.material_ids[f]? with
  | none => rfl
  | some m =>
    cases h2 : mash.num_face_vertices[f]? with
    | none => rfl
    | some n =>
      simp only [Option.map_some', Option.pure_def, Option.bind_eq_bind, Option.some_bind,
        seg_push]
      by_cases hc : st.current_id = to_size_t m <;> simp [hc]

theorem seg_input_length (mash : mesh_t)
    (h : mash.num_face_vertices.length ≤ mash.material_ids.length) :
    (seg_input mash).length = mash.num_face_vertices.length := by
  simp [seg_input]; omega

theorem seg_input_snd (mash : mesh_t)
    (h : mash.num_face_vertices.length ≤ mash.material_ids.length) :
    (seg_input mash).map Prod.snd = mash.num_face_vertices := by
  unfold seg_input
  rw [List.zip_eq_zipWith, List.take_zipWith, ← List.zip_eq_zipWith, List.map_snd_zip]
  · simp
  · simp; omega

theorem seg_input_fst (mash : mesh_t) :
    (seg_input mash).map Prod.fst = face_material_ids mash := by
  unfold seg_input face_material_ids
  rw [List.zip_eq_zipWith, List.take_zipWith, ← List.zip_eq_zipWith, List.map_fst_zip]
  · simp
  · simp

theorem seg_fold_num (L : List (Nat × Nat)) (st : SegState) :
    (L.foldl seg_push st).num_of_out_vertices
      = st.num_of_out_vertices + (L.map Prod.snd).sum := by
  induction L generalizing st with
  | nil => simp
  | cons x L ih =>
    rw [List.foldl_cons, ih]
    simp [seg_push]; omega

theorem seg_fold_vm (L : List (Nat × Nat)) (st : SegState) :
    ∃ t, (L.foldl seg_push st).vm = st.vm ++ t ∧ t.Pairwise (· ≤ ·) ∧
      ∀ x ∈ t, st.num_of_out_vertices ≤ x ∧
        x ≤ st.num_of_out_vertices + (L.map Prod.snd).sum := by
  induction L generalizing st with
  | nil => exact ⟨[], by simp⟩
  | cons x L ih =>
    obtain ⟨t, h1, h2, h3⟩ := ih (seg_push st x)
    rw [List.foldl_cons, h1]
    by_cases hc : st.current_id = x.1
    · refine ⟨t, by simp [seg_push, hc], h2, ?_⟩
      intro y hy
      have := h3 y hy
      simp [seg_push] at this ⊢
      omega
    · refine ⟨st.num_of_out_vertices :: t, by simp [seg_push, hc], ?_, ?_⟩
      · rw [List.pairwise_cons]
        refine ⟨?_, h2⟩
        intro y hy
        have := h3 y hy
        simp [seg_push] at this
        omega
      · intro y hy
        rcases List.mem_cons.mp hy with hy | hy
        · subst hy; omega
        · have := h3 y hy
          simp [seg_push] at this ⊢
          omega

theorem seg_fold_vm_length (L : List (Nat × Nat)) (st : SegState) :
    (L.foldl seg_push st).vm.length + 1
      = st.vm.length + (List.destutter' (· ≠ ·) st.current_id (L.map Prod.fst)).length := by
  induction L generalizing st with
  | nil => simp
  | cons x L ih =>
    rw [List.foldl_cons, ih]
    by_cases hc : st.current_id = x.1
    · simp [seg_push, hc, List.destutter'_cons_neg]
    · rw [List.map_cons, List.destutter'_cons_pos _ hc]
      simp [seg_push, hc]; omega

theorem seg_fold_mm_length (L : List (Nat × Nat)) (st : SegState) :
    (L.foldl seg_push st).mm.length + 1
      = st.mm.length + (List.destutter' (· ≠ ·) st.current_id (L.map Prod.fst)).length := by
  induction L generalizing st with
  | nil => simp
  | cons x L ih =>
    rw [List.foldl_cons, ih]
    by_cases hc : st.current_id = x.1
    · simp [seg_push, hc, List.destutter'_cons_neg]
    · rw [List.map_cons, List.destutter'_cons_pos _ hc]
      simp [seg_push, hc]; omega

theorem segment_shape_eq (mash : mesh_t) (num : Nat) :
    segment_shape mash num =
      if 0 < mash.num_face_vertices.length then
        if mash.num_face_vertices.length ≤ mash.material_ids.length then
          (mash.material_ids[0]?).map (fun m =>
            let st := (seg_input mash).foldl seg_push
              { vm := [num], mm := [to_size_t m], current_id := to_size_t m,
                num_of_out_vertices := num }
            (st.vm ++ [st.num_of_out_vertices], st.mm, st.num_of_out_vertices))
        else none
      else some ([], [], num) := by
  unfold segment_shape
  by_cases h0 : 0 < mash.num_face_vertices.length
  · rw [if_pos h0, if_pos h0]
    have hstep : segment_face mash = fun st f =>
        (((mash.material_ids.map to_size_t).zip mash.num_face_vertices)[f]?).map (seg_push st) := by
      funext st f; exact segment_face_eq mash st f
    rw [hstep]
    cases hm : mash.material_ids[0]? with
    | none =>
      have : mash.material_ids.length = 0 := by
        have := List.getElem?_eq_none_iff.mp hm; omega
      simp
    | some m =>
      simp only [Option.bind_eq_bind, Option.some_bind, Option.pure_def, Option.map_some']
      rw [foldlM_range_map]
      by_cases hl : mash.num_face_vertices.length ≤ mash.material_ids.length
      · have : mash.num_face_vertices.length ≤
            ((mash.material_ids.map to_size_t).zip mash.num_face_vertices).length := by
          simp; omega
        rw [if_pos this, if_pos hl]
        rfl
      · have : ¬ mash.num_face_vertices.length ≤
            ((mash.material_ids.map to_size_t).zip mash.num_face_vertices).length := by
          simp; omega
        rw [if_neg this, if_neg hl]
        rfl
  · rw [if_neg h0, if_neg h0]

theorem face_material_ids_head (mash : mesh_t) (m : Int) (h0 : 0 < mash.num_face_vertices.length)
    (hm : mash.material_ids[0]? = some m) :
    ∃ rest, face_material_ids mash = to_size_t m :: rest := by
  unfold face_material_ids
  cases hids : mash.material_ids with
  | nil => rw [hids] at hm; simp at hm
  | cons a l =>
    rw [hids] at hm
    simp at hm
    subst hm
    obtain ⟨n, hn⟩ : ∃ n, mash.num_face_vertices.length = n + 1 := ⟨_, (Nat.succ_pred_eq_of_pos h0).symm⟩
    rw [hn]
    exact ⟨(l.take n).map to_size_t, by simp⟩

theorem segment_shape_num (mash : mesh_t) (num : Nat) (r : List Nat × List Nat × Nat)
    (h : segment_shape mash num = some r) :
    r.2.2 = num + mash.num_face_vertices.sum := by
  rw [segment_shape_eq] at h
  by_cases h0 : 0 < mash.num_face_vertices.length
  · rw [if_pos h0] at h
    by_cases hl : mash.num_face_vertices.length ≤ mash.material_ids.length
    · rw [if_pos hl] at h
      obtain ⟨m, -, hr⟩ := Option.map_eq_some'.mp h
      subst hr
      simp only [seg_fold_num, seg_input_snd mash hl]
    · rw [if_neg hl] at h; simp at h
  · rw [if_neg h0] at h
    have : mash.num_face_vertices = [] := List.length_eq_zero.mp (by omega)
    simp at h; subst h; simp [this]

theorem segment_shape_empty (mash : mesh_t) (num : Nat) (r : List Nat × List Nat × Nat)
    (h : segment_shape mash num = some r) (h0 : mash.num_face_vertices.length = 0) :
    r.1 = [] ∧ r.2.1 = [] := by
  rw [segment_shape_eq, if_neg (by omega)] at h
  simp at h; subst h; simp

theorem segment_shape_vm (mash : mesh_t) (num : Nat) (r : List Nat × List Nat × Nat)
    (h : segment_shape mash num = some r) (h0 : 0 < mash.num_face_vertices.length) :
    r.1.Pairwise (· ≤ ·) ∧ r.1.head? = some num ∧
      r.1.getLast? = some (num + mash.num_face_vertices.sum) ∧
      r.1.length = ((face_material_ids mash).destutter (· ≠ ·)).length + 1 ∧
      r.2.1.length = ((face_material_ids mash).destutter (· ≠ ·)).length := by
  rw [segment_shape_eq, if_pos h0] at h
  by_cases hl : mash.num_face_vertices.length ≤ mash.material_ids.length
  · rw [if_pos hl] at h
    obtain ⟨m, hm, hr⟩ := Option.map_eq_some'.mp h
    obtain ⟨rest, hrest⟩ := face_material_ids_head mash m h0 hm
    have hd : List.destutter' (· ≠ ·) (to_size_t m) ((seg_input mash).map Prod.fst)
        = (face_material_ids mash).destutter (· ≠ ·) := by
      rw [seg_input_fst, hrest, List.destutter'_cons_neg _ (by simp)]
      rfl
    obtain ⟨t, ht1, ht2, ht3⟩ := seg_fold_vm (seg_input mash)
      { vm := [num], mm := [to_size_t m], current_id := to_size_t m, num_of_out_vertices := num }
    have hlen1 := seg_fold_vm_length (seg_input mash)
      { vm := [num], mm := [to_size_t m], current_id := to_size_t m, num_of_out_vertices := num }
    have hlen2 := seg_fold_mm_length (seg_input mash)
      { vm := [num], mm := [to_size_t m], current_id := to_size_t m, num_of_out_vertices := num }
    rw [hd] at hlen1 hlen2
    simp only [seg_input_snd mash hl] at ht3
    subst hr
    simp only [seg_fold_num, seg_input_snd mash hl]
    simp only [List.length_singleton] at hlen1 hlen2
    refine ⟨?_, ?_, ?_, ?_, ?_⟩
    · rw [ht1, List.pairwise_append]
      refine ⟨?_, by simp, ?_⟩
      · rw [List.singleton_append, List.pairwise_cons]
        exact ⟨fun y hy => (ht3 y hy).1, ht2⟩
      · intro a ha b hb
        simp only [List.mem_singleton] at hb
        subst hb
        rcases List.mem_append.mp ha with ha | ha
        · simp only [List.mem_singleton] at ha; omega
        · exact (ht3 a ha).2
    · rw [ht1]; simp
    · simp
    · simp only [List.length_append, List.length_singleton]; omega
    · omega
  · rw [if_neg hl] at h; simp at h

theorem segment_shape_defined (mash : mesh_t) (num : Nat)
    (hl : mash.num_face_vertices.length ≤ mash.material_ids.length) :
    ∃ r, segment_shape mash num = some r := by
  rw [segment_shape_eq]
  by_cases h0 : 0 < mash.num_face_vertices.length
  · rw [if_pos h0, if_pos hl]
    have h1 : 0 < mash.material_ids.length := by omega
    rw [List.getElem?_eq_getElem h1]
    exact ⟨_, rfl⟩
  · rw [if_neg h0]; exact ⟨_, rfl⟩

theorem resize_length {α : Type} (l : List α) (n : Nat) (d : α) : (resize l n d).length = n := by
  simp [resize]; omega

theorem verts_before_succ (shapes : List shape_t) (k : Nat) (sh : shape_t)
    (h : shapes[k]? = some sh) :
    verts_before shapes (k + 1) = verts_before shapes k + sh.mesh.num_face_vertices.sum := by
  simp [verts_before, List.take_succ, h]

theorem faces_before_succ (shapes : List shape_t) (k : Nat) (sh : shape_t)
    (h : shapes[k]? = some sh) :
    faces_before shapes (k + 1) = faces_before shapes k + sh.mesh.num_face_vertices.length := by
  simp [faces_before, List.take_succ, h]

theorem segment_step_some (shapes : List shape_t) (st st1 : MapState) (k : Nat)
    (h : segment_step shapes st k = some st1) :
    ∃ sh r, shapes[k]? = some sh ∧ segment_shape sh.mesh st.num_of_out_vertices = some r ∧
      st1 = { vertex_map := st.vertex_map.set k r.1
              material_map := st.material_map.set k r.2.1
              num_of_out_vertices := r.2.2 } := by
  unfold segment_step at h
  simp only [Option.bind_eq_bind, Option.bind_eq_some, Option.pure_def] at h
  obtain ⟨sh, h1, r, h2, h3⟩ := h
  exact ⟨sh, r, h1, h2, (Option.some.inj h3).symm⟩

theorem compute_maps_inv (shapes : List shape_t) (init : MapState)
    (hv : init.vertex_map.length = shapes.length)
    (hm : init.material_map.length = shapes.length)
    (hn : init.num_of_out_vertices = 0) :
    ∀ k st, (List.range k).foldlM (segment_step shapes) init = some st →
      st.num_of_out_vertices = verts_before shapes k ∧
      st.vertex_map.length = shapes.length ∧ st.material_map.length = shapes.length ∧
      ∀ s sh, s < k → shapes[s]? = some sh →
        ∃ r, segment_shape sh.mesh (verts_before shapes s) = some r ∧
          st.vertex_map[s]? = some r.1 ∧ st.material_map[s]? = some r.2.1 := by
  intro k
  induction k with
  | zero =>
    intro st h
    simp at h
    subst h
    exact ⟨by simp [verts_before, hn], hv, hm, fun s sh hs => by omega⟩
  | succ k ih =>
    intro st h
    rw [foldlM_range_succ] at h
    simp only [Option.bind_eq_bind, Option.bind_eq_some] at h
    obtain ⟨st0, h0, h1⟩ := h
    obtain ⟨i1, i2, i3, i4⟩ := ih st0 h0
    obtain ⟨sh, r, hsh, hr, hst⟩ := segment_step_some shapes st0 st k h1
    have hk : k < shapes.length := (List.getElem?_eq_some.mp hsh).1
    subst hst
    refine ⟨?_, by simpa using i2, by simpa using i3, ?_⟩
    · rw [verts_before_succ shapes k sh hsh, ← i1]
      exact segment_shape_num _ _ _ hr
    · intro s sh' hs hsh'
      rcases Nat.lt_succ_iff_lt_or_eq.mp hs with hlt | heq
      · obtain ⟨r', hr1, hr2, hr3⟩ := i4 s sh' hlt hsh'
        refine ⟨r', hr1, ?_, ?_⟩
        · simp only []
          rw [List.getElem?_set_ne (by omega)]; exact hr2
        · simp only []
          rw [List.getElem?_set_ne (by omega)]; exact hr3
      · subst heq
        rw [hsh] at hsh'
        cases hsh'
        rw [i1] at hr
        refine ⟨r, hr, ?_, ?_⟩
        · simp only []
          rw [List.getElem?_set_self (by omega)]
        · simp only []
          rw [List.getElem?_set_self (by omega)]

theorem compute_maps_spec (shapes : List shape_t) (vm mm : List (List Nat)) (m : MapState)
    (h : compute_maps shapes vm mm = some m) :
    m.num_of_out_vertices = verts_before shapes shapes.length ∧
      m.vertex_map.length = shapes.length ∧ m.material_map.length = shapes.length ∧
      ∀ s sh, shapes[s]? = some sh →
        ∃ r, segment_shape sh.mesh (verts_before shapes s) = some r ∧
          m.vertex_map[s]? = some r.1 ∧ m.material_map[s]? = some r.2.1 := by
  obtain ⟨h1, h2, h3, h4⟩ := compute_maps_inv shapes _ (resize_length _ _ _)
    (resize_length _ _ _) rfl shapes.length m h
  exact ⟨h1, h2, h3, fun s sh hs => h4 s sh (List.getElem?_eq_some.mp hs).1 hs⟩

theorem compute_maps_defined (shapes : List shape_t) (vm mm : List (List Nat))
    (hl : ∀ sh ∈ shapes, sh.mesh.num_face_vertices.length ≤ sh.mesh.material_ids.length) :
    ∃ m, compute_maps shapes vm mm = some m := by
  unfold compute_maps
  generalize (⟨resize vm shapes.length [], resize mm shapes.length [], 0⟩ : MapState) = init
  have key : ∀ k, k ≤ shapes.length →
      ∃ st, (List.range k).foldlM (segment_step shapes) init = some st := by
    intro k
    induction k with
    | zero => intro _; exact ⟨init, by simp⟩
    | succ k ih =>
      intro hk
      obtain ⟨st, hst⟩ := ih (by omega)
      have hk' : k < shapes.length := by omega
      obtain ⟨r, hr⟩ := segment_shape_defined shapes[k].mesh st.num_of_out_vertices
        (hl _ (List.getElem_mem hk'))
      rw [foldlM_range_succ, hst]
      simp only [Option.bind_eq_bind, Option.some_bind, segment_step,
        List.getElem?_eq_getElem hk', hr]
      exact ⟨_, rfl⟩
  exact key _ (le_refl _)

theorem verts_before_triangles (shapes : List shape_t) (ht : Triangles shapes) (k : Nat) :
    verts_before shapes k = 3 * faces_before shapes k := by
  induction k with
  | zero => simp [verts_before, faces_before]
  | succ k ih =>
    by_cases hk : k < shapes.length
    · have hsh : shapes[k]? = some shapes[k] := List.getElem?_eq_getElem hk
      rw [verts_before_succ shapes k _ hsh, faces_before_succ shapes k _ hsh, ih]
      have : shapes[k].mesh.num_face_vertices.sum = 3 * shapes[k].mesh.num_face_vertices.length := by
        have h3 := ht _ (List.getElem_mem hk)
        rw [List.eq_replicate_of_mem h3]
        simp [Nat.mul_comm]
      omega
    · have h1 : shapes.take (k + 1) = shapes.take k := by
        rw [List.take_of_length_le (by omega), List.take_of_length_le (by omega)]
      simp only [verts_before, faces_before, h1] at ih ⊢
      exact ih

theorem faces_before_length (shapes : List shape_t) :
    faces_before shapes shapes.length = total_faces shapes := by
  simp [faces_before, total_faces]

/-! ## Unshare and emit -/

section Emit

variable {F : Type}

theorem store_some {buf : List F} {pos : Nat} {vals out : List F}
    (h : store buf pos vals = some out) :
    pos + vals.length ≤ buf.length ∧ out = buf.take pos ++ vals ++ buf.drop (pos + vals.length) := by
  unfold store at h
  by_cases hc : pos + vals.length ≤ buf.length
  · rw [if_pos hc] at h
    exact ⟨hc, (Option.some.inj h).symm⟩
  · rw [if_neg hc] at h; simp at h

theorem store_length {buf : List F} {pos : Nat} {vals out : List F}
    (h : store buf pos vals = some out) : out.length = buf.length := by
  obtain ⟨h1, h2⟩ := store_some h
  subst h2
  simp; omega

theorem store_before {buf : List F} {pos : Nat} {vals out : List F}
    (h : store buf pos vals = some out) (i : Nat) (hi : i < pos) : out[i]? = buf[i]? := by
  obtain ⟨h1, h2⟩ := store_some h
  subst h2
  rw [List.append_assoc, List.getElem?_append_left (by simp; omega)]
  exact List.getElem?_take_of_lt hi

theorem store_at {buf : List F} {pos : Nat} {vals out : List F}
    (h : store buf pos vals = some out) (j : Nat) (hj : j < vals.length) :
    out[pos + j]? = vals[j]? := by
  obtain ⟨h1, h2⟩ := store_some h
  subst h2
  have hl : (buf.take pos).length = pos := by simp; omega
  rw [List.append_assoc, List.getElem?_append_right (by omega), hl,
    List.getElem?_append_left (by omega)]
  congr 1
  omega

end Emit

section EmitLoop

variable {F : Type} [LinearOrderedField F]

theorem emit_face_some {sqrtf : F → F} {attrib : attrib_t F} {fs : F} {mesh : mesh_t}
    {st st1 : EmitState F} {f : Nat} (h : emit_face sqrtf attrib fs mesh st f = some st1) :
    ∃ d, face_values sqrtf attrib fs mesh f = some d ∧
      store st.vertices_out st.vertex_dst d.1 = some st1.vertices_out ∧
      store st.normals_out st.normal_dst d.2 = some st1.normals_out ∧
      st1.vertex_dst = st.vertex_dst + 9 ∧ st1.normal_dst = st.normal_dst + 9 := by
  unfold emit_face at h
  simp only [Option.bind_eq_bind, Option.bind_eq_some, Option.pure_def] at h
  obtain ⟨i0, h0, i1, h1, i2, h2, v0, hv0, v1, hv1, v2, hv2, n, hn, vout, hvo, nout, hno, hst⟩ := h
  have hst' := Option.some.inj hst
  subst hst'
  refine ⟨(v0.toList ++ v1.toList ++ v2.toList, n.1.toList ++ n.2.1.toList ++ n.2.2.toList),
    ?_, hvo, hno, rfl, rfl⟩
  unfold face_values
  simp only [Option.bind_eq_bind, h0, h1, h2, hv0, hv1, hv2, hn, Option.some_bind]

theorem face_values_length {sqrtf : F → F} {attrib : attrib_t F} {fs : F} {mesh : mesh_t}
    {f : Nat} {d : List F × List F} (h : face_values sqrtf attrib fs mesh f = some d) :
    d.1.length = 9 ∧ d.2.length = 9 := by
  unfold face_values at h
  simp only [Option.bind_eq_bind, Option.bind_eq_some, Option.pure_def] at h
  obtain ⟨i0, -, i1, -, i2, -, v0, -, v1, -, v2, -, n, -, hd⟩ := h
  have hd' := Option.some.inj hd
  subst hd'
  simp [Vec3.toList]

theorem extends_refl (a : EmitState F) : a.Extends a :=
  ⟨le_refl _, le_refl _, rfl, rfl, fun _ _ => rfl, fun _ _ => rfl⟩

theorem extends_trans (a b c : EmitState F) (h1 : a.Extends b) (h2 : b.Extends c) :
    a.Extends c := by
  obtain ⟨a1, a2, a3, a4, a5, a6⟩ := h1
  obtain ⟨b1, b2, b3, b4, b5, b6⟩ := h2
  refine ⟨le_trans a1 b1, le_trans a2 b2, by rw [b3, a3], by rw [b4, a4], ?_, ?_⟩
  · intro i hi; rw [b5 i (by omega), a5 i hi]
  · intro i hi; rw [b6 i (by omega), a6 i hi]

theorem emit_face_extends (sqrtf : F → F) (attrib : attrib_t F) (fs : F) (mesh : mesh_t)
    (st : EmitState F) (f : Nat) (st1 : EmitState F)
    (h : emit_face sqrtf attrib fs mesh st f = some st1) : st.Extends st1 := by
  obtain ⟨d, -, hv, hn, hc1, hc2⟩ := emit_face_some h
  exact ⟨by omega, by omega, store_length hv, store_length hn,
    fun i hi => store_before hv i hi, fun i hi => store_before hn i hi⟩

theorem emit_shape_extends (sqrtf : F → F) (attrib : attrib_t F) (fs : F)
    (st : EmitState F) (sh : shape_t) (st1 : EmitState F)
    (h : emit_shape sqrtf attrib fs st sh = some st1) : st.Extends st1 :=
  foldlM_rel EmitState.Extends extends_refl extends_trans _
    (emit_face_extends sqrtf attrib fs sh.mesh) _ _ _ h

theorem emit_step_some {sqrtf : F → F} {attrib : attrib_t F} {fs : F} {shapes : List shape_t}
    {st st1 : EmitState F} {s : Nat} (h : emit_step sqrtf attrib fs shapes st s = some st1) :
    ∃ sh, shapes[s]? = some sh ∧ emit_shape sqrtf attrib fs st sh = some st1 := by
  unfold emit_step at h
  simp only [Option.bind_eq_bind, Option.bind_eq_some] at h
  exact h

theorem emit_step_extends (sqrtf : F → F) (attrib : attrib_t F) (fs : F) (shapes : List shape_t)
    (st : EmitState F) (s : Nat) (st1 : EmitState F)
    (h : emit_step sqrtf attrib fs shapes st s = some st1) : st.Extends st1 := by
  obtain ⟨sh, -, h1⟩ := emit_step_some h
  exact emit_shape_extends sqrtf attrib fs st sh st1 h1

theorem emit_faces_cursor (sqrtf : F → F) (attrib : attrib_t F) (fs : F) (mesh : mesh_t)
    (st : EmitState F) :
    ∀ k st1, (List.range k).foldlM (emit_face sqrtf attrib fs mesh) st = some st1 →
      st1.vertex_dst = st.vertex_dst + 9 * k ∧ st1.normal_dst = st.normal_dst + 9 * k := by
  intro k
  induction k with
  | zero => intro st1 h; simp at h; subst h; simp
  | succ k ih =>
    intro st1 h
    rw [foldlM_range_succ] at h
    simp only [Option.bind_eq_bind, Option.bind_eq_some] at h
    obtain ⟨st0, h0, h1⟩ := h
    obtain ⟨d, -, -, -, hc1, hc2⟩ := emit_face_some h1
    obtain ⟨i1, i2⟩ := ih st0 h0
    omega

theorem emit_shapes_cursor (sqrtf : F → F) (attrib : attrib_t F) (fs : F) (shapes : List shape_t)
    (st : EmitState F) :
    ∀ k st1, (List.range k).foldlM (emit_step sqrtf attrib fs shapes) st = some st1 →
      st1.vertex_dst = st.vertex_dst + 9 * faces_before shapes k ∧
      st1.normal_dst = st.normal_dst + 9 * faces_before shapes k := by
  intro k
  induction k with
  | zero => intro st1 h; simp at h; subst h; simp [faces_before]
  | succ k ih =>
    intro st1 h
    rw [foldlM_range_succ] at h
    simp only [Option.bind_eq_bind, Option.bind_eq_some] at h
    obtain ⟨st0, h0, h1⟩ := h
    obtain ⟨sh, hsh, h2⟩ := emit_step_some h1
    obtain ⟨c1, c2⟩ := emit_faces_cursor sqrtf attrib fs sh.mesh st0 _ st1 h2
    obtain ⟨i1, i2⟩ := ih st0 h0
    rw [faces_before_succ shapes k sh hsh]
    omega

theorem emit_spec (sqrtf : F → F) (attrib : attrib_t F) (fs : F) (shapes : List shape_t)
    (init e : EmitState F) (h0 : init.vertex_dst = 0) (h1 : init.normal_dst = 0)
    (h : (List.range shapes.length).foldlM (emit_step sqrtf attrib fs shapes) init = some e) :
    e.vertices_out.length = init.vertices_out.length ∧
    e.normals_out.length = init.normals_out.length ∧
    ∀ s sh f, shapes[s]? = some sh → f < sh.mesh.num_face_vertices.length →
      ∃ d, face_values sqrtf attrib fs sh.mesh f = some d ∧
        9 * (faces_before shapes s + f) + 9 ≤ e.vertices_out.length ∧
        9 * (faces_before shapes s + f) + 9 ≤ e.normals_out.length ∧
        ∀ j, j < 9 →
          e.vertices_out[9 * (faces_before shapes s + f) + j]? = d.1[j]? ∧
          e.normals_out[9 * (faces_before shapes s + f) + j]? = d.2[j]? := by
  have hext := foldlM_rel EmitState.Extends extends_refl extends_trans _
    (emit_step_extends sqrtf attrib fs shapes) _ _ _ h
  refine ⟨hext.2.2.1, hext.2.2.2.1, ?_⟩
  intro s sh f hsh hf
  have hs : s < shapes.length := (List.getElem?_eq_some.mp hsh).1
  obtain ⟨l2, hl2⟩ := range_split hs
  rw [hl2] at h
  obtain ⟨a1, a2, ha1, hstep, ha2⟩ := foldlM_split _ _ _ _ _ _ h
  obtain ⟨sh', hsh', hshape⟩ := emit_step_some hstep
  rw [hsh] at hsh'
  cases hsh'
  obtain ⟨c1, c2⟩ := emit_shapes_cursor sqrtf attrib fs shapes init s a1 ha1
  have hrest := foldlM_rel EmitState.Extends extends_refl extends_trans _
    (emit_step_extends sqrtf attrib fs shapes) _ _ _ ha2
  unfold emit_shape at hshape
  obtain ⟨m2, hm2⟩ := range_split hf
  rw [hm2] at hshape
  obtain ⟨b1, b2, hb1, hface, hb2⟩ := foldlM_split _ _ _ _ _ _ hshape
  obtain ⟨d1, d2⟩ := emit_faces_cursor sqrtf attrib fs sh.mesh a1 f b1 hb1
  have hrest2 := foldlM_rel EmitState.Extends extends_refl extends_trans _
    (emit_face_extends sqrtf attrib fs sh.mesh) _ _ _ hb2
  obtain ⟨d, hd, hv, hn, e1, e2⟩ := emit_face_some hface
  obtain ⟨dl1, dl2⟩ := face_values_length hd
  have hfin := extends_trans _ _ _ hrest2 hrest
  obtain ⟨-, -, f3, f4, f5, f6⟩ := hfin
  have hb1v : b1.vertex_dst = 9 * (faces_before shapes s + f) := by omega
  have hb1n : b1.normal_dst = 9 * (faces_before shapes s + f) := by omega
  have hv1 := (store_some hv).1
  have hn1 := (store_some hn).1
  have lv := store_length hv
  have ln := store_length hn
  refine ⟨d, hd, by omega, by omega, ?_⟩
  intro j hj
  constructor
  · rw [f5 _ (by omega), ← hb1v]
    exact store_at hv j (by omega)
  · rw [f6 _ (by omega), ← hb1n]
    exact store_at hn j (by omega)

end EmitLoop

/-! ## `load_obj` as a whole -/

section LoadObjLemmas

variable {F : Type} [LinearOrderedField F]

theorem load_obj_some {sqrtf : F → F} {p : Parsed F} {scale : F} {out out1 : Outputs F}
    {b : Bool} (hret : p.ret = true) (h : load_obj sqrtf p scale out = some (b, out1)) :
    ∃ m e, compute_maps p.shapes out.vertex_map out.material_map = some m ∧
      (List.range p.shapes.length).foldlM
        (emit_step sqrtf p.attrib (final_scale p.attrib.vertices scale) p.shapes)
        { vertices_out := resize out.vertices_out (m.num_of_out_vertices * 3) 0
          normals_out := resize out.normals_out (m.num_of_out_vertices * 3) 0
          vertex_dst := 0, normal_dst := 0 } = some e ∧
      b = true ∧
      out1 = { vertices_out := e.vertices_out, normals_out := e.normals_out,
               vertex_map := m.vertex_map, material_map := m.material_map } := by
  unfold load_obj at h
  rw [hret] at h
  simp only [Bool.not_true, Bool.false_eq_true, if_false, Option.bind_eq_bind,
    Option.bind_eq_some, Option.pure_def] at h
  obtain ⟨m, hm, e, he, hr⟩ := h
  have hr' := Option.some.inj hr
  refine ⟨m, e, hm, he, ?_, ?_⟩
  · exact (congrArg Prod.fst hr').symm
  · exact (congrArg Prod.snd hr').symm

theorem load_obj_of_parts {sqrtf : F → F} {p : Parsed F} {scale : F} {out : Outputs F}
    {m : MapState} {e : EmitState F} (hret : p.ret = true)
    (hm : compute_maps p.shapes out.vertex_map out.material_map = some m)
    (he : (List.range p.shapes.length).foldlM
        (emit_step sqrtf p.attrib (final_scale p.attrib.vertices scale) p.shapes)
        { vertices_out := resize out.vertices_out (m.num_of_out_vertices * 3) 0
          normals_out := resize out.normals_out (m.num_of_out_vertices * 3) 0
          vertex_dst := 0, normal_dst := 0 } = some e) :
    load_obj sqrtf p scale out = some (true,
      { vertices_out := e.vertices_out, normals_out := e.normals_out,
        vertex_map := m.vertex_map, material_map := m.material_map }) := by
  unfold load_obj
  rw [hret]
  simp only [Bool.not_true, Bool.false_eq_true, if_false, Option.bind_eq_bind, hm,
    Option.some_bind, he]

theorem load_obj_parse_failure (sqrtf : F → F) (p : Parsed F) (scale : F) (out : Outputs F)
    (hret : p.ret = false) : load_obj sqrtf p scale out = some (false, out) := by
  unfold load_obj
  rw [hret]
  rfl

theorem faces_before_le (shapes : List shape_t) (k : Nat) :
    faces_before shapes k ≤ total_faces shapes := by
  unfold faces_before total_faces
  conv_rhs => rw [← List.take_append_drop k shapes]
  rw [List.map_append, List.sum_append]
  omega

theorem faces_before_add_lt (shapes : List shape_t) (s : Nat) (sh : shape_t)
    (hsh : shapes[s]? = some sh) :
    faces_before shapes s + sh.mesh.num_face_vertices.length ≤ total_faces shapes := by
  rw [← faces_before_succ shapes s sh hsh]
  exact faces_before_le shapes (s + 1)

theorem fetch3_defined {pool : List F} {index : Int} (h : InRange3 pool index) :
    ∃ v, fetch3 pool index = some v := by
  obtain ⟨h1, h2⟩ := h
  unfold fetch3
  have hnn : 0 ≤ index * 3 := by omega
  have hlt : (index * 3).toNat + 2 < pool.length := by omega
  rw [if_pos hnn, List.getElem?_eq_getElem (by omega : (index * 3).toNat < pool.length),
    List.getElem?_eq_getElem (by omega : (index * 3).toNat + 1 < pool.length),
    List.getElem?_eq_getElem hlt]
  exact ⟨_, rfl⟩

theorem face_values_defined (sqrtf : F → F) (attrib : attrib_t F) (fs : F) (mesh : mesh_t)
    (f : Nat) (hf : 3 * f + 2 < mesh.indices.length)
    (hi : ∀ i ∈ mesh.indices, InRange3 attrib.vertices i.vertex_index ∧
      (attrib.normals.length ≠ 0 → InRange3 attrib.normals i.normal_index)) :
    ∃ d, face_values sqrtf attrib fs mesh f = some d := by
  unfold face_values
  have g0 : 3 * f + 0 < mesh.indices.length := by omega
  have g1 : 3 * f + 1 < mesh.indices.length := by omega
  rw [List.getElem?_eq_getElem g0, List.getElem?_eq_getElem g1, List.getElem?_eq_getElem hf]
  obtain ⟨v0, hv0⟩ := fetch3_defined (hi _ (List.getElem_mem g0)).1
  obtain ⟨v1, hv1⟩ := fetch3_defined (hi _ (List.getElem_mem g1)).1
  obtain ⟨v2, hv2⟩ := fetch3_defined (hi _ (List.getElem_mem hf)).1
  simp only [Option.bind_eq_bind, Option.some_bind, scaled_vertex, hv0, hv1, hv2,
    Option.pure_def, face_normals]
  by_cases hn : attrib.normals.length = 0
  · rw [if_pos hn]
    exact ⟨_, rfl⟩
  · rw [if_neg hn]
    obtain ⟨n0, hn0⟩ := fetch3_defined ((hi _ (List.getElem_mem g0)).2 hn)
    obtain ⟨n1, hn1⟩ := fetch3_defined ((hi _ (List.getElem_mem g1)).2 hn)
    obtain ⟨n2, hn2⟩ := fetch3_defined ((hi _ (List.getElem_mem hf)).2 hn)
    simp only [Option.bind_eq_bind, Option.some_bind, hn0, hn1, hn2]
    exact ⟨_, rfl⟩

theorem emit_face_defined {sqrtf : F → F} {attrib : attrib_t F} {fs : F} {mesh : mesh_t}
    (st : EmitState F) {f : Nat} {d : List F × List F}
    (hd : face_values sqrtf attrib fs mesh f = some d)
    (hv : st.vertex_dst + 9 ≤ st.vertices_out.length)
    (hn : st.normal_dst + 9 ≤ st.normals_out.length) :
    ∃ st1, emit_face sqrtf attrib fs mesh st f = some st1 := by
  obtain ⟨l1, l2⟩ := face_values_length hd
  unfold face_values at hd
  simp only [Option.bind_eq_bind, Option.bind_eq_some, Option.pure_def] at hd
  obtain ⟨i0, h0, i1, h1, i2, h2, v0, hv0, v1, hv1, v2, hv2, n, hn', hd'⟩ := hd
  have hd'' := Option.some.inj hd'
  subst hd''
  unfold emit_face
  simp only [Option.bind_eq_bind, h0, h1, h2, hv0, hv1, hv2, hn', Option.some_bind, store]
  rw [if_pos (by rw [l1]; exact hv), if_pos (by rw [l2]; exact hn)]
  exact ⟨_, rfl⟩

theorem emit_faces_defined (sqrtf : F → F) (attrib : attrib_t F) (fs : F) (mesh : mesh_t)
    (st : EmitState F) (nf : Nat)
    (hd : ∀ f, f < nf → ∃ d, face_values sqrtf attrib fs mesh f = some d)
    (hv : st.vertex_dst + 9 * nf ≤ st.vertices_out.length)
    (hn : st.normal_dst + 9 * nf ≤ st.normals_out.length) :
    ∀ k, k ≤ nf → ∃ st1, (List.range k).foldlM (emit_face sqrtf attrib fs mesh) st = some st1 := by
  intro k
  induction k with
  | zero => intro _; exact ⟨st, by simp⟩
  | succ k ih =>
    intro hk
    obtain ⟨st0, h0⟩ := ih (by omega)
    obtain ⟨c1, c2⟩ := emit_faces_cursor sqrtf attrib fs mesh st k st0 h0
    obtain ⟨-, -, e3, e4, -, -⟩ := foldlM_rel EmitState.Extends extends_refl extends_trans _
      (emit_face_extends sqrtf attrib fs mesh) _ _ _ h0
    obtain ⟨d, hd'⟩ := hd k (by omega)
    obtain ⟨st1, h1⟩ := emit_face_defined st0 hd' (by omega) (by omega)
    rw [foldlM_range_succ, h0]
    exact ⟨st1, by simpa using h1⟩

theorem emit_shapes_defined (sqrtf : F → F) (attrib : attrib_t F) (fs : F)
    (shapes : List shape_t) (hwf : WellFormed attrib shapes) (st : EmitState F)
    (hv : st.vertex_dst + 9 * total_faces shapes ≤ st.vertices_out.length)
    (hn : st.normal_dst + 9 * total_faces shapes ≤ st.normals_out.length) :
    ∀ k, k ≤ shapes.length →
      ∃ st1, (List.range k).foldlM (emit_step sqrtf attrib fs shapes) st = some st1 := by
  intro k
  induction k with
  | zero => intro _; exact ⟨st, by simp⟩
  | succ k ih =>
    intro hk
    obtain ⟨st0, h0⟩ := ih (by omega)
    obtain ⟨c1, c2⟩ := emit_shapes_cursor sqrtf attrib fs shapes st k st0 h0
    obtain ⟨-, -, e3, e4, -, -⟩ := foldlM_rel EmitState.Extends extends_refl extends_trans _
      (emit_step_extends sqrtf attrib fs shapes) _ _ _ h0
    have hk' : k < shapes.length := by omega
    have hsh : shapes[k]? = some shapes[k] := List.getElem?_eq_getElem hk'
    obtain ⟨w1, w2, w3, w4⟩ := hwf _ (List.getElem_mem hk')
    have hle := faces_before_add_lt shapes k _ hsh
    obtain ⟨st1, h1⟩ := emit_faces_defined sqrtf attrib fs shapes[k].mesh st0
      shapes[k].mesh.num_face_vertices.length
      (fun f hf => face_values_defined sqrtf attrib fs _ f (by omega) w4)
      (by omega) (by omega) _ (le_refl _)
    rw [foldlM_range_succ, h0]
    refine ⟨st1, ?_⟩
    simp only [Option.bind_eq_bind, Option.some_bind, emit_step, hsh]
    exact h1

theorem triangles_of_wellFormed {attrib : attrib_t F} {shapes : List shape_t}
    (hwf : WellFormed attrib shapes) : Triangles shapes :=
  fun sh hsh => (hwf sh hsh).2.2.1

theorem load_obj_defined (sqrtf : F → F) (p : Parsed F) (scale : F) (out : Outputs F)
    (hret : p.ret = true) (hwf : WellFormed p.attrib p.shapes) :
    ∃ out1, load_obj sqrtf p scale out = some (true, out1) := by
  obtain ⟨m, hm⟩ := compute_maps_defined p.shapes out.vertex_map out.material_map
    (fun sh hsh => by have := (hwf sh hsh).1; omega)
  have hnum := (compute_maps_spec _ _ _ _ hm).1
  rw [verts_before_triangles _ (triangles_of_wellFormed hwf), faces_before_length] at hnum
  obtain ⟨e, he⟩ := emit_shapes_defined sqrtf p.attrib (final_scale p.attrib.vertices scale)
    p.shapes hwf
    { vertices_out := resize out.vertices_out (m.num_of_out_vertices * 3) 0
      normals_out := resize out.normals_out (m.num_of_out_vertices * 3) 0
      vertex_dst := 0, normal_dst := 0 }
    (by simp only [resize_length]; omega) (by simp only [resize_length]; omega)
    _ (le_refl _)
  exact ⟨_, load_obj_of_parts hret hm he⟩

theorem load_obj_sizes {sqrtf : F → F} {p : Parsed F} {scale : F} {out out1 : Outputs F}
    {b : Bool} (hret : p.ret = true) (ht : Triangles p.shapes)
    (h : load_obj sqrtf p scale out = some (b, out1)) :
    out1.vertices_out.length = 9 * total_faces p.shapes ∧
      out1.normals_out.length = 9 * total_faces p.shapes := by
  obtain ⟨m, e, hm, he, -, hout⟩ := load_obj_some hret h
  have hnum := (compute_maps_spec _ _ _ _ hm).1
  rw [verts_before_triangles _ ht, faces_before_length] at hnum
  obtain ⟨l1, l2, -⟩ := emit_spec sqrtf p.attrib _ p.shapes _ e rfl rfl he
  subst hout
  simp only [resize_length] at l1 l2
  constructor <;> simp only [] <;> omega

end LoadObjLemmas

/-! ## Output sizes and segment offsets -/

section Sizes

variable {F : Type} [LinearOrderedField F]

theorem load_obj_ret_of_true {sqrtf : F → F} {p : Parsed F} {scale : F} {out out1 : Outputs F}
    (h : load_obj sqrtf p scale out = some (true, out1)) : p.ret = true := by
  cases hret : p.ret with
  | true => rfl
  | false =>
    rw [load_obj_parse_failure sqrtf p scale out hret] at h
    simp at h

/-- C1: after a successful parse of a mesh whose faces all have three vertices,
`load_obj` leaves `vertices_out` and `normals_out` with exactly `9 * N` elements each,
`N` the total number of faces, whatever the pools and the previous contents of the
output containers are; on a well-formed mesh it does return `true`. -/
theorem load_obj_output_size (sqrtf : F → F) (p : Parsed F) (scale : F) (out : Outputs F)
    (hret : p.ret = true) (ht : Triangles p.shapes) :
    (WellFormed p.attrib p.shapes → ∃ out1, load_obj sqrtf p scale out = some (true, out1)) ∧
    ∀ b out1, load_obj sqrtf p scale out = some (b, out1) →
      b = true ∧ out1.vertices_out.length = 9 * total_faces p.shapes ∧
        out1.normals_out.length = 9 * total_faces p.shapes := by
  refine ⟨fun hwf => load_obj_defined sqrtf p scale out hret hwf, ?_⟩
  intro b out1 h
  obtain ⟨-, -, -, -, hb, -⟩ := load_obj_some hret h
  exact ⟨hb, load_obj_sizes hret ht h⟩

/-- C2 (amended): for every shape `s` with at least one face of a successfully loaded
triangle mesh, `vertex_map[s]` is non-decreasing, its first entry is the number of
output vertices of all earlier shapes (`3 *` their number of faces), its last entry is
that number plus the shape's own `3 *` number of faces, and it holds one entry per
material-id run followed by the final sentinel. -/
theorem vertex_map_offsets (sqrtf : F → F) (p : Parsed F) (scale : F) (out out1 : Outputs F)
    (ht : Triangles p.shapes) (h : load_obj sqrtf p scale out = some (true, out1))
    (s : Nat) (sh : shape_t) (hs : p.shapes[s]? = some sh)
    (hpos : 0 < sh.mesh.num_face_vertices.length) :
    ∃ vm, out1.vertex_map[s]? = some vm ∧ vm.Pairwise (· ≤ ·) ∧
      vm.head? = some (3 * faces_before p.shapes s) ∧
      vm.getLast? = some (3 * faces_before p.shapes s + 3 * sh.mesh.num_face_vertices.length) ∧
      vm.length = ((face_material_ids sh.mesh).destutter (· ≠ ·)).length + 1 := by
  obtain ⟨m, e, hm, -, -, hout⟩ := load_obj_some (load_obj_ret_of_true h) h
  obtain ⟨-, -, -, hmap⟩ := compute_maps_spec _ _ _ _ hm
  obtain ⟨r, hr, hv, -⟩ := hmap s sh hs
  obtain ⟨q1, q2, q3, q4, -⟩ := segment_shape_vm _ _ _ hr hpos
  have hsum : sh.mesh.num_face_vertices.sum = 3 * sh.mesh.num_face_vertices.length := by
    have hmem : sh ∈ p.shapes := List.getElem?_mem hs
    rw [List.eq_replicate_of_mem (ht sh hmem)]
    simp [Nat.mul_comm]
  rw [verts_before_triangles _ ht, hsum] at q3
  rw [verts_before_triangles _ ht] at q2
  subst hout
  exact ⟨r.1, hv, q1, q2, q3, q4⟩

/-- C10: `load_obj` returns `false` exactly when the parser reports failure, and then
the four output containers are returned unchanged. -/
theorem load_obj_false_iff_parse_failure (sqrtf : F → F) (p : Parsed F) (scale : F)
    (out : Outputs F) :
    (p.ret = false → load_obj sqrtf p scale out = some (false, out)) ∧
    ∀ b out1, load_obj sqrtf p scale out = some (b, out1) →
      ((b = false ↔ p.ret = false) ∧ (b = false → out1 = out)) := by
  refine ⟨load_obj_parse_failure sqrtf p scale out, ?_⟩
  intro b out1 h
  cases hret : p.ret with
  | true =>
    obtain ⟨-, -, -, -, hb, -⟩ := load_obj_some hret h
    subst hb
    simp
  | false =>
    rw [load_obj_parse_failure sqrtf p scale out hret] at h
    simp only [Option.some.injEq, Prod.mk.injEq] at h
    obtain ⟨h1, h2⟩ := h
    subst h1 h2
    simp

end Sizes

/-- C1, at a concrete input: two shapes, seven triangles, output containers in use before. -/
theorem load_obj_output_size_witness :
    ∃ out1, load_obj (fun x => x) (ex_parsed ℚ) (1 : ℚ) (ex_out ℚ) = some (true, out1) ∧
      out1.vertices_out.length = 63 ∧ out1.normals_out.length = 63 := by
  have h := load_obj_output_size (fun x => x) (ex_parsed ℚ) (1 : ℚ) (ex_out ℚ) rfl (by decide)
  obtain ⟨out1, h1⟩ := h.1 (by decide)
  exact ⟨out1, h1, (h.2 _ _ h1).2⟩

/-- C2 as stated fails: the second of two one-triangle shapes gets the offsets `[3, 6]`,
whose first entry is not `0` and whose last entry is not the shape's own vertex count `3`. -/
theorem vertex_map_offsets_are_global :
    ∃ out1, load_obj (fun x => x) ⟨true, ex_attrib ℚ, [ex_shape1, ex_shape1]⟩ (1 : ℚ) (ex_out ℚ)
        = some (true, out1) ∧
      out1.vertex_map[1]? = some [3, 6] ∧ ([3, 6] : List Nat).head? ≠ some 0 ∧
      ([3, 6] : List Nat).getLast? ≠ some (3 * ex_shape1.mesh.num_face_vertices.length) := by
  have hv : (load_obj (fun x => x) ⟨true, ex_attrib ℚ, [ex_shape1, ex_shape1]⟩ (1 : ℚ) (ex_out ℚ)).map
      (fun r => (r.1, r.2.vertex_map)) = some (true, [[0, 3], [3, 6]]) := by decide
  cases hl : load_obj (fun x => x) ⟨true, ex_attrib ℚ, [ex_shape1, ex_shape1]⟩ (1 : ℚ) (ex_out ℚ) with
  | none => rw [hl] at hv; simp at hv
  | some r =>
    obtain ⟨b, o⟩ := r
    rw [hl] at hv
    simp only [Option.map_some', Option.some.injEq, Prod.mk.injEq] at hv
    obtain ⟨hb, hvm⟩ := hv
    subst hb
    exact ⟨o, rfl, by rw [hvm]; rfl, by decide, by decide⟩

/-- C2 (amended), at a concrete input: faces with material ids `[0,0,1,1,1,0]` in the
first shape yield `[0, 6, 15, 18]`, and the one-triangle shape after it `[18, 21]`. -/
theorem vertex_map_offsets_witness :
    (load_obj (fun x => x) (ex_parsed ℚ) (1 : ℚ) (ex_out ℚ)).map (fun r => r.2.vertex_map)
        = some [[0, 6, 15, 18], [18, 21]] ∧
    ∃ out1, load_obj (fun x => x) (ex_parsed ℚ) (1 : ℚ) (ex_out ℚ) = some (true, out1) ∧
      ∃ vm, out1.vertex_map[1]? = some vm ∧ vm.Pairwise (· ≤ ·) ∧
        vm.head? = some (3 * faces_before (ex_parsed ℚ).shapes 1) ∧
        vm.getLast? = some (3 * faces_before (ex_parsed ℚ).shapes 1
          + 3 * ex_shape1.mesh.num_face_vertices.length) ∧
        vm.length = ((face_material_ids ex_shape1.mesh).destutter (· ≠ ·)).length + 1 := by
  refine ⟨by decide, ?_⟩
  obtain ⟨out1, h1⟩ := load_obj_defined (fun x => x) (ex_parsed ℚ) (1 : ℚ) (ex_out ℚ) rfl (by decide)
  exact ⟨out1, h1, vertex_map_offsets (fun x => x) (ex_parsed ℚ) 1 (ex_out ℚ) out1 (by decide) h1 1
    ex_shape1 rfl (by decide)⟩

/-- C3 fails on the code: for faces with material ids `[0,0,1,1,1,0]` the code stores
the materials `[0, 0, 1]`, the id of the run that ends at each boundary, where the
runs are `[0, 1, 0]`. -/
theorem material_map_holds_previous_id :
    (load_obj (fun x => x) ⟨true, ex_attrib ℚ, [ex_shape6]⟩ (1 : ℚ) (ex_out ℚ)).map
        (fun r => (r.1, r.2.vertex_map, r.2.material_map))
      = some (true, [[0, 6, 15, 18]], [[0, 0, 1]]) ∧
    (face_material_ids ex_shape6.mesh).destutter (· ≠ ·) = [0, 1, 0] := by
  constructor
  · decide
  · decide

/-! ## Bounding box and scale -/

section BBox

variable {F : Type} [LinearOrderedField F]

theorem run_min_fold_some (l : List F) (a : F) :
    ∃ m, l.foldl run_min (some a) = some m ∧ IsMinOf (a :: l) m := by
  induction l generalizing a with
  | nil => exact ⟨a, rfl, by simp [IsMinOf]⟩
  | cons x l ih =>
    obtain ⟨m, hm, hmem, hle⟩ := ih (if a > x then x else a)
    refine ⟨m, by simpa [run_min] using hm, ?_, ?_⟩
    · rcases List.mem_cons.mp hmem with h | h
      · by_cases hc : a > x
        · rw [if_pos hc] at h; subst h; simp
        · rw [if_neg hc] at h; subst h; simp
      · simp [h]
    · intro y hy
      have h1 : m ≤ (if a > x then x else a) := hle _ (List.mem_cons_self _ _)
      have h2 : (if a > x then x else a) ≤ a ∧ (if a > x then x else a) ≤ x := by
        by_cases hc : a > x
        · rw [if_pos hc]; exact ⟨le_of_lt hc, le_refl _⟩
        · rw [if_neg hc]; exact ⟨le_refl _, not_lt.mp hc⟩
      rcases List.mem_cons.mp hy with h | h
      · subst h; exact le_trans h1 h2.1
      · rcases List.mem_cons.mp h with h | h
        · subst h; exact le_trans h1 h2.2
        · exact hle _ (List.mem_cons_of_mem _ h)

theorem run_max_fold_some (l : List F) (a : F) :
    ∃ m, l.foldl run_max (some a) = some m ∧ IsMaxOf (a :: l) m := by
  induction l generalizing a with
  | nil => exact ⟨a, rfl, by simp [IsMaxOf]⟩
  | cons x l ih =>
    obtain ⟨m, hm, hmem, hle⟩ := ih (if a < x then x else a)
    refine ⟨m, by simpa [run_max] using hm, ?_, ?_⟩
    · rcases List.mem_cons.mp hmem with h | h
      · by_cases hc : a < x
        · rw [if_pos hc] at h; subst h; simp
        · rw [if_neg hc] at h; subst h; simp
      · simp [h]
    · intro y hy
      have h1 : (if a < x then x else a) ≤ m := hle _ (List.mem_cons_self _ _)
      have h2 : a ≤ (if a < x then x else a) ∧ x ≤ (if a < x then x else a) := by
        by_cases hc : a < x
        · rw [if_pos hc]; exact ⟨le_of_lt hc, le_refl _⟩
        · rw [if_neg hc]; exact ⟨le_refl _, not_lt.mp hc⟩
      rcases List.mem_cons.mp hy with h | h
      · subst h; exact le_trans h2.1 h1
      · rcases List.mem_cons.mp h with h | h
        · subst h; exact le_trans h2.2 h1
        · exact hle _ (List.mem_cons_of_mem _ h)

theorem run_min_fold (l : List F) (m : F) (h : l.foldl run_min none = some m) : IsMinOf l m := by
  cases l with
  | nil => simp at h
  | cons a l =>
    obtain ⟨m', h1, h2⟩ := run_min_fold_some l a
    rw [List.foldl_cons] at h
    change l.foldl run_min (some a) = some m at h
    rw [h1] at h
    cases h
    exact h2

theorem run_max_fold (l : List F) (m : F) (h : l.foldl run_max none = some m) : IsMaxOf l m := by
  cases l with
  | nil => simp at h
  | cons a l =>
    obtain ⟨m', h1, h2⟩ := run_max_fold_some l a
    rw [List.foldl_cons] at h
    change l.foldl run_max (some a) = some m at h
    rw [h1] at h
    cases h
    exact h2

theorem isMinOf_unique {l : List F} {a b : F} (ha : IsMinOf l a) (hb : IsMinOf l b) : a = b :=
  le_antisymm (ha.2 _ hb.1) (hb.2 _ ha.1)

theorem isMaxOf_unique {l : List F} {a b : F} (ha : IsMaxOf l a) (hb : IsMaxOf l b) : a = b :=
  le_antisymm (hb.2 _ ha.1) (ha.2 _ hb.1)

theorem bbox_fold_axes (vertices : List F) (k : Nat) :
    ((List.range k).foldl (bbox_step vertices) none).map (fun b => b.1.c0)
        = ((List.range k).map (fun j => vertices.getD (j * 3 + 0) 0)).foldl run_min none ∧
    ((List.range k).foldl (bbox_step vertices) none).map (fun b => b.1.c1)
        = ((List.range k).map (fun j => vertices.getD (j * 3 + 1) 0)).foldl run_min none ∧
    ((List.range k).foldl (bbox_step vertices) none).map (fun b => b.1.c2)
        = ((List.range k).map (fun j => vertices.getD (j * 3 + 2) 0)).foldl run_min none ∧
    ((List.range k).foldl (bbox_step vertices) none).map (fun b => b.2.c0)
        = ((List.range k).map (fun j => vertices.getD (j * 3 + 0) 0)).foldl run_max none ∧
    ((List.range k).foldl (bbox_step vertices) none).map (fun b => b.2.c1)
        = ((List.range k).map (fun j => vertices.getD (j * 3 + 1) 0)).foldl run_max none ∧
    ((List.range k).foldl (bbox_step vertices) none).map (fun b => b.2.c2)
        = ((List.range k).map (fun j => vertices.getD (j * 3 + 2) 0)).foldl run_max none := by
  induction k with
  | zero => simp
  | succ k ih =>
    simp only [List.range_succ, List.foldl_append, List.map_append, List.foldl_cons,
      List.foldl_nil, List.map_cons, List.map_nil]
    obtain ⟨h1, h2, h3, h4, h5, h6⟩ := ih
    rw [← h1, ← h2, ← h3, ← h4, ← h5, ← h6]
    cases (List.range k).foldl (bbox_step vertices) none with
    | none => simp [bbox_step, run_min, run_max]
    | some b =>
      obtain ⟨vmin, vmax⟩ := b
      simp [bbox_step, run_min, run_max]

theorem bbox_isBox (vertices : List F) (vmin vmax : Vec3 F)
    (h : bbox vertices = some (vmin, vmax)) : IsBox vertices vmin vmax := by
  obtain ⟨h1, h2, h3, h4, h5, h6⟩ := bbox_fold_axes vertices (vertices.length / 3)
  unfold bbox at h
  rw [h] at h1 h2 h3 h4 h5 h6
  exact ⟨run_min_fold _ _ h1.symm, run_max_fold _ _ h4.symm, run_min_fold _ _ h2.symm,
    run_max_fold _ _ h5.symm, run_min_fold _ _ h3.symm, run_max_fold _ _ h6.symm⟩

theorem bbox_defined (vertices : List F) (h : 0 < vertices.length / 3) :
    ∃ vmin vmax, bbox vertices = some (vmin, vmax) := by
  unfold bbox
  obtain ⟨n, hn⟩ : ∃ n, vertices.length / 3 = n + 1 := ⟨_, (Nat.succ_pred_eq_of_pos h).symm⟩
  rw [hn, List.range_succ, List.foldl_append]
  cases (List.range n).foldl (bbox_step vertices) none with
  | none => exact ⟨_, _, rfl⟩
  | some b => exact ⟨_, _, rfl⟩

theorem max_len_eq_extent (vmin vmax : Vec3 F) : max_len vmin vmax = extent vmin vmax := by
  unfold max_len extent
  simp only [max_def]
  split_ifs <;> first | rfl | (exfalso; linarith) | linarith

theorem isBox_unique {vertices : List F} {lo hi lo1 hi1 : Vec3 F}
    (h : IsBox vertices lo hi) (h1 : IsBox vertices lo1 hi1) : lo = lo1 ∧ hi = hi1 := by
  obtain ⟨a1, a2, a3, a4, a5, a6⟩ := h
  obtain ⟨b1, b2, b3, b4, b5, b6⟩ := h1
  cases lo; cases hi; cases lo1; cases hi1
  simp only [Vec3.mk.injEq]
  exact ⟨⟨isMinOf_unique a1 b1, isMinOf_unique a3 b3, isMinOf_unique a5 b5⟩,
    ⟨isMaxOf_unique a2 b2, isMaxOf_unique a4 b4, isMaxOf_unique a6 b6⟩⟩

theorem axis_values_length_pos {vertices : List F} {i : Nat} {m : F}
    (h : m ∈ axis_values vertices i) : 0 < vertices.length / 3 := by
  unfold axis_values at h
  obtain ⟨j, hj, -⟩ := List.mem_map.mp h
  have := List.mem_range.mp hj
  omega

theorem final_scale_eq (vertices : List F) (scale : F) (lo hi : Vec3 F)
    (h : IsBox vertices lo hi) : final_scale vertices scale = scale / extent lo hi := by
  obtain ⟨vmin, vmax, hb⟩ := bbox_defined vertices (axis_values_length_pos h.1.1)
  obtain ⟨e1, e2⟩ := isBox_unique (bbox_isBox vertices vmin vmax hb) h
  unfold final_scale
  rw [hb]
  simp only []
  rw [max_len_eq_extent, e1, e2]

end BBox

/-! ## Emitted positions and normals -/

section Values

variable {F : Type} [LinearOrderedField F]

theorem fetch3_some {pool : List F} {index : Int} {v : Vec3 F}
    (h : fetch3 pool index = some v) :
    0 ≤ index ∧ pool[3 * index.toNat]? = some v.c0 ∧ pool[3 * index.toNat + 1]? = some v.c1 ∧
      pool[3 * index.toNat + 2]? = some v.c2 := by
  unfold fetch3 at h
  by_cases hc : 0 ≤ index * 3
  · rw [if_pos hc] at h
    simp only [Option.bind_eq_bind, Option.bind_eq_some, Option.pure_def] at h
    obtain ⟨a, ha, b, hb, c, hc', hv⟩ := h
    have hv' := Option.some.inj hv
    subst hv'
    have e : (index * 3).toNat = 3 * index.toNat := by omega
    rw [e] at ha hb hc'
    exact ⟨by omega, ha, hb, hc'⟩
  · rw [if_neg hc] at h; simp at h

theorem vec3_toList_getElem? (v : Vec3 F) (i : Nat) (hi : i < 3) :
    ∃ x, v.toList[i]? = some x := by
  interval_cases i <;> exact ⟨_, rfl⟩

theorem face_values_some {sqrtf : F → F} {attrib : attrib_t F} {fs : F} {mesh : mesh_t}
    {f : Nat} {d : List F × List F} (h : face_values sqrtf attrib fs mesh f = some d) :
    ∃ i0 i1 i2 u0 u1 u2 n,
      mesh.indices[3 * f + 0]? = some i0 ∧ mesh.indices[3 * f + 1]? = some i1 ∧
      mesh.indices[3 * f + 2]? = some i2 ∧
      fetch3 attrib.vertices i0.vertex_index = some u0 ∧
      fetch3 attrib.vertices i1.vertex_index = some u1 ∧
      fetch3 attrib.vertices i2.vertex_index = some u2 ∧
      face_normals sqrtf attrib.normals i0 i1 i2
        ⟨u0.c0 * fs, u0.c1 * fs, u0.c2 * fs⟩ ⟨u1.c0 * fs, u1.c1 * fs, u1.c2 * fs⟩
        ⟨u2.c0 * fs, u2.c1 * fs, u2.c2 * fs⟩ = some n ∧
      d.1 = [u0.c0 * fs, u0.c1 * fs, u0.c2 * fs, u1.c0 * fs, u1.c1 * fs, u1.c2 * fs,
        u2.c0 * fs, u2.c1 * fs, u2.c2 * fs] ∧
      d.2 = n.1.toList ++ n.2.1.toList ++ n.2.2.toList := by
  unfold face_values at h
  simp only [Option.bind_eq_bind, Option.bind_eq_some, Option.pure_def, scaled_vertex] at h
  obtain ⟨i0, h0, i1, h1, i2, h2, v0, ⟨u0, hu0, hv0⟩, v1, ⟨u1, hu1, hv1⟩, v2, ⟨u2, hu2, hv2⟩,
    n, hn, hd⟩ := h
  have e0 := Option.some.inj hv0
  have e1 := Option.some.inj hv1
  have e2 := Option.some.inj hv2
  have ed := Option.some.inj hd
  subst e0 e1 e2 ed
  exact ⟨i0, i1, i2, u0, u1, u2, n, h0, h1, h2, hu0, hu1, hu2, hn, rfl, rfl⟩

theorem face_values_vertex {sqrtf : F → F} {attrib : attrib_t F} {fs : F} {mesh : mesh_t}
    {f : Nat} {d : List F × List F} (h : face_values sqrtf attrib fs mesh f = some d)
    (k : Nat) (hk : k < 3) :
    ∃ c, mesh.indices[3 * f + k]? = some c ∧ 0 ≤ c.vertex_index ∧
      ∀ i, i < 3 → ∃ x, attrib.vertices[3 * c.vertex_index.toNat + i]? = some x ∧
        d.1[3 * k + i]? = some (x * fs) := by
  obtain ⟨i0, i1, i2, u0, u1, u2, n, h0, h1, h2, hu0, hu1, hu2, -, hd, -⟩ := face_values_some h
  obtain ⟨p0, a0, b0, c0⟩ := fetch3_some hu0
  obtain ⟨p1, a1, b1, c1⟩ := fetch3_some hu1
  obtain ⟨p2, a2, b2, c2⟩ := fetch3_some hu2
  rw [hd]
  interval_cases k
  · refine ⟨i0, h0, p0, ?_⟩
    intro i hi
    interval_cases i
    · exact ⟨_, a0, rfl⟩
    · exact ⟨_, b0, rfl⟩
    · exact ⟨_, c0, rfl⟩
  · refine ⟨i1, h1, p1, ?_⟩
    intro i hi
    interval_cases i
    · exact ⟨_, a1, rfl⟩
    · exact ⟨_, b1, rfl⟩
    · exact ⟨_, c1, rfl⟩
  · refine ⟨i2, h2, p2, ?_⟩
    intro i hi
    interval_cases i
    · exact ⟨_, a2, rfl⟩
    · exact ⟨_, b2, rfl⟩
    · exact ⟨_, c2, rfl⟩

theorem face_values_normal {sqrtf : F → F} {attrib : attrib_t F} {fs : F} {mesh : mesh_t}
    {f : Nat} {d : List F × List F} (h : face_values sqrtf attrib fs mesh f = some d)
    (hn : attrib.normals.length ≠ 0) (k : Nat) (hk : k < 3) :
    ∃ c, mesh.indices[3 * f + k]? = some c ∧ 0 ≤ c.normal_index ∧
      ∀ i, i < 3 → ∃ y, attrib.normals[3 * c.normal_index.toNat + i]? = some y ∧
        d.2[3 * k + i]? = some y := by
  obtain ⟨i0, i1, i2, u0, u1, u2, n, h0, h1, h2, -, -, -, hfn, -, hd⟩ := face_values_some h
  unfold face_normals at hfn
  rw [if_neg hn] at hfn
  simp only [Option.bind_eq_bind, Option.bind_eq_some, Option.pure_def] at hfn
  obtain ⟨n0, hn0, n1, hn1, n2, hn2, hnn⟩ := hfn
  have en := Option.some.inj hnn
  subst en
  obtain ⟨p0, a0, b0, c0⟩ := fetch3_some hn0
  obtain ⟨p1, a1, b1, c1⟩ := fetch3_some hn1
  obtain ⟨p2, a2, b2, c2⟩ := fetch3_some hn2
  rw [hd]
  interval_cases k
  · refine ⟨i0, h0, p0, ?_⟩
    intro i hi
    interval_cases i
    · exact ⟨_, a0, rfl⟩
    · exact ⟨_, b0, rfl⟩
    · exact ⟨_, c0, rfl⟩
  · refine ⟨i1, h1, p1, ?_⟩
    intro i hi
    interval_cases i
    · exact ⟨_, a1, rfl⟩
    · exact ⟨_, b1, rfl⟩
    · exact ⟨_, c1, rfl⟩
  · refine ⟨i2, h2, p2, ?_⟩
    intro i hi
    interval_cases i
    · exact ⟨_, a2, rfl⟩
    · exact ⟨_, b2, rfl⟩
    · exact ⟨_, c2, rfl⟩

theorem face_values_flat {sqrtf : F → F} {attrib : attrib_t F} {fs : F} {mesh : mesh_t}
    {f : Nat} {d : List F × List F} (h : face_values sqrtf attrib fs mesh f = some d)
    (hn : attrib.normals.length = 0) :
    ∃ v0 v1 v2 : Vec3 F, d.1 = v0.toList ++ v1.toList ++ v2.toList ∧
      d.2 = (calc_normal sqrtf v0 v1 v2).toList ++ (calc_normal sqrtf v0 v1 v2).toList
        ++ (calc_normal sqrtf v0 v1 v2).toList := by
  obtain ⟨i0, i1, i2, u0, u1, u2, n, -, -, -, -, -, -, hfn, hd1, hd2⟩ := face_values_some h
  unfold face_normals at hfn
  rw [if_pos hn] at hfn
  have en := Option.some.inj hfn
  subst en
  exact ⟨⟨u0.c0 * fs, u0.c1 * fs, u0.c2 * fs⟩, ⟨u1.c0 * fs, u1.c1 * fs, u1.c2 * fs⟩,
    ⟨u2.c0 * fs, u2.c1 * fs, u2.c2 * fs⟩, hd1, hd2⟩

theorem load_obj_face {sqrtf : F → F} {p : Parsed F} {scale : F} {out out1 : Outputs F}
    (h : load_obj sqrtf p scale out = some (true, out1)) (s : Nat) (sh : shape_t) (f : Nat)
    (hs : p.shapes[s]? = some sh) (hf : f < sh.mesh.num_face_vertices.length) :
    ∃ d, face_values sqrtf p.attrib (final_scale p.attrib.vertices scale) sh.mesh f = some d ∧
      ∀ j, j < 9 →
        out1.vertices_out[9 * (faces_before p.shapes s + f) + j]? = d.1[j]? ∧
        out1.normals_out[9 * (faces_before p.shapes s + f) + j]? = d.2[j]? := by
  obtain ⟨m, e, -, he, -, hout⟩ := load_obj_some (load_obj_ret_of_true h) h
  obtain ⟨-, -, hfaces⟩ := emit_spec sqrtf p.attrib _ p.shapes _ e rfl rfl he
  obtain ⟨d, hd, -, -, hj⟩ := hfaces s sh f hs hf
  subst hout
  exact ⟨d, hd, hj⟩

end Values

section Copied

variable {F : Type} [LinearOrderedField F]

/-- C4: in a successfully loaded mesh whose input pool has the bounding box `lo`, `hi`
with a positive largest extent, corner `k` of the `g`-th face overall (`g` = faces of the
earlier shapes plus `f`) refers to an in-range position and
`vertices_out[9 g + 3 k + i] = attrib.vertices[3 * vertex_index + i] * (scale / extent)`
for `i = 0, 1, 2`, with one factor for every output position. -/
theorem vertices_out_scaled (sqrtf : F → F) (p : Parsed F) (scale : F) (out out1 : Outputs F)
    (h : load_obj sqrtf p scale out = some (true, out1))
    (lo hi : Vec3 F) (hbox : IsBox p.attrib.vertices lo hi) (_hpos : 0 < extent lo hi)
    (s : Nat) (sh : shape_t) (f : Nat) (hs : p.shapes[s]? = some sh)
    (hf : f < sh.mesh.num_face_vertices.length) (k : Nat) (hk : k < 3) :
    ∃ c, sh.mesh.indices[3 * f + k]? = some c ∧ 0 ≤ c.vertex_index ∧
      ∀ i, i < 3 → ∃ x, p.attrib.vertices[3 * c.vertex_index.toNat + i]? = some x ∧
        out1.vertices_out[9 * (faces_before p.shapes s + f) + 3 * k + i]?
          = some (x * (scale / extent lo hi)) := by
  obtain ⟨d, hd, hj⟩ := load_obj_face h s sh f hs hf
  obtain ⟨c, hc, hnn, hx⟩ := face_values_vertex hd k hk
  refine ⟨c, hc, hnn, ?_⟩
  intro i hi3
  obtain ⟨x, hx1, hx2⟩ := hx i hi3
  refine ⟨x, hx1, ?_⟩
  rw [Nat.add_assoc, (hj (3 * k + i) (by omega)).1, hx2, final_scale_eq _ _ lo hi hbox]

/-- C6: when the input normal pool is not empty, `load_obj` returns `true` on every
well-formed parsed mesh, and in every run that returns `true` corner `k` of the `g`-th face
overall refers to an in-range normal and
`normals_out[9 g + 3 k + i] = attrib.normals[3 * normal_index + i]` for `i = 0, 1, 2`:
the pool entry itself, neither scaled nor renormalised. -/
theorem normals_out_copied (sqrtf : F → F) (p : Parsed F) (scale : F) (out : Outputs F)
    (hret : p.ret = true) (hn : p.attrib.normals.length ≠ 0) :
    (WellFormed p.attrib p.shapes → ∃ out1, load_obj sqrtf p scale out = some (true, out1)) ∧
    ∀ out1, load_obj sqrtf p scale out = some (true, out1) →
      ∀ s sh f, p.shapes[s]? = some sh → f < sh.mesh.num_face_vertices.length →
        ∀ k, k < 3 →
          ∃ c, sh.mesh.indices[3 * f + k]? = some c ∧ 0 ≤ c.normal_index ∧
            ∀ i, i < 3 → ∃ y, p.attrib.normals[3 * c.normal_index.toNat + i]? = some y ∧
              out1.normals_out[9 * (faces_before p.shapes s + f) + 3 * k + i]? = some y := by
  refine ⟨fun hwf => load_obj_defined sqrtf p scale out hret hwf, ?_⟩
  intro out1 h s sh f hs hf k hk
  obtain ⟨d, hd, hj⟩ := load_obj_face h s sh f hs hf
  obtain ⟨c, hc, hnn, hy⟩ := face_values_normal hd hn k hk
  refine ⟨c, hc, hnn, ?_⟩
  intro i hi
  obtain ⟨y, hy1, hy2⟩ := hy i hi
  refine ⟨y, hy1, ?_⟩
  rw [Nat.add_assoc, (hj (3 * k + i) (by omega)).2, hy2]

end Copied

theorem calc_normal_unit (v0 v1 v2 : Vec3 ℝ) (hc : cross v0 v1 v2 ≠ ⟨0, 0, 0⟩) :
    Real.sqrt ((calc_normal Real.sqrt v0 v1 v2).c0 ^ 2 + (calc_normal Real.sqrt v0 v1 v2).c1 ^ 2
      + (calc_normal Real.sqrt v0 v1 v2).c2 ^ 2) = 1 := by
  have hN : ∃ a b c : ℝ, cross v0 v1 v2 = ⟨a, b, c⟩ := ⟨_, _, _, rfl⟩
  obtain ⟨a, b, c, habc⟩ := hN
  have hcalc : calc_normal Real.sqrt v0 v1 v2
      = if a * a + b * b + c * c > 0 then
          ⟨a / Real.sqrt (a * a + b * b + c * c), b / Real.sqrt (a * a + b * b + c * c),
            c / Real.sqrt (a * a + b * b + c * c)⟩
        else ⟨a, b, c⟩ := by
    unfold cross at habc
    simp only [Vec3.mk.injEq] at habc
    obtain ⟨ha, hb, hc'⟩ := habc
    unfold calc_normal
    simp only [ha, hb, hc']
  have hne : ¬ (a = 0 ∧ b = 0 ∧ c = 0) := by
    rintro ⟨ha, hb, hc'⟩
    apply hc
    rw [habc, ha, hb, hc']
  have hpos : 0 < a * a + b * b + c * c := by
    have h1 := mul_self_nonneg a
    have h2 := mul_self_nonneg b
    have h3 := mul_self_nonneg c
    rcases lt_or_eq_of_le (add_nonneg (add_nonneg h1 h2) h3) with h | h
    · exact h
    · exfalso
      apply hne
      have ea : a * a = 0 := by linarith
      have eb : b * b = 0 := by linarith
      have ec : c * c = 0 := by linarith
      exact ⟨mul_self_eq_zero.mp ea, mul_self_eq_zero.mp eb, mul_self_eq_zero.mp ec⟩
  rw [hcalc, if_pos hpos]
  simp only []
  have hs : Real.sqrt (a * a + b * b + c * c) ^ 2 = a * a + b * b + c * c :=
    Real.sq_sqrt (le_of_lt hpos)
  have hs0 : Real.sqrt (a * a + b * b + c * c) ≠ 0 := by
    intro h0
    rw [h0] at hs
    simp at hs
    linarith
  have : (a / Real.sqrt (a * a + b * b + c * c)) ^ 2 + (b / Real.sqrt (a * a + b * b + c * c)) ^ 2
      + (c / Real.sqrt (a * a + b * b + c * c)) ^ 2 = 1 := by
    rw [div_pow, div_pow, div_pow, hs]
    field_simp
    ring
  rw [this, Real.sqrt_one]

/-- C7: when the input normal pool is empty, `load_obj` returns `true` on every
well-formed parsed mesh, and in every run that returns `true` the three corner normals
written for a face are one and the same vector `n`, and unless the triangle it emitted is
degenerate (the cross product of its positions is the zero vector) the Euclidean length
of `n` is `1` (real arithmetic). -/
theorem flat_normals_unit (p : Parsed ℝ) (scale : ℝ) (out : Outputs ℝ)
    (hret : p.ret = true) (hn : p.attrib.normals.length = 0) :
    (WellFormed p.attrib p.shapes →
      ∃ out1, load_obj Real.sqrt p scale out = some (true, out1)) ∧
    ∀ out1, load_obj Real.sqrt p scale out = some (true, out1) →
      ∀ s sh f, p.shapes[s]? = some sh → f < sh.mesh.num_face_vertices.length →
        ∃ v0 v1 v2 n : Vec3 ℝ,
          (∀ j, j < 9 → out1.vertices_out[9 * (faces_before p.shapes s + f) + j]?
            = (v0.toList ++ v1.toList ++ v2.toList)[j]?) ∧
          (∀ j, j < 9 → out1.normals_out[9 * (faces_before p.shapes s + f) + j]?
            = (n.toList ++ n.toList ++ n.toList)[j]?) ∧
          (cross v0 v1 v2 ≠ ⟨0, 0, 0⟩ → Real.sqrt (n.c0 ^ 2 + n.c1 ^ 2 + n.c2 ^ 2) = 1) := by
  refine ⟨fun hwf => load_obj_defined Real.sqrt p scale out hret hwf, ?_⟩
  intro out1 h s sh f hs hf
  obtain ⟨d, hd, hj⟩ := load_obj_face h s sh f hs hf
  obtain ⟨v0, v1, v2, hd1, hd2⟩ := face_values_flat hd hn
  refine ⟨v0, v1, v2, calc_normal Real.sqrt v0 v1 v2, ?_, ?_, calc_normal_unit v0 v1 v2⟩
  · intro j hj1
    rw [(hj j hj1).1, hd1]
  · intro j hj1
    rw [(hj j hj1).2, hd2]

/-- C4, at a concrete input: the pool has the box `(0,0,0)`-`(2,1,0)`, the scale is `3`, and
the second corner of the triangle of the second shape (face 6 overall) is `(2,0,0) * (3/2)`. -/
theorem vertices_out_scaled_witness :
    (load_obj (fun x => x) (ex_parsed ℚ) 3 (ex_out ℚ)).map
        (fun r => (r.2.vertices_out[57]?, r.2.vertices_out[58]?, r.2.vertices_out[59]?))
      = some (some 3, some 0, some 0) ∧
    ∃ out1, load_obj (fun x => x) (ex_parsed ℚ) 3 (ex_out ℚ) = some (true, out1) ∧
      ∃ c, ex_shape1.mesh.indices[3 * 0 + 1]? = some c ∧ 0 ≤ c.vertex_index ∧
        ∀ i, i < 3 → ∃ x, (ex_parsed ℚ).attrib.vertices[3 * c.vertex_index.toNat + i]? = some x ∧
          out1.vertices_out[9 * (faces_before (ex_parsed ℚ).shapes 1 + 0) + 3 * 1 + i]?
            = some (x * (3 / extent ⟨0, 0, 0⟩ ⟨2, 1, 0⟩)) := by
  refine ⟨by decide!, ?_⟩
  obtain ⟨out1, h1⟩ := load_obj_defined (fun x => x) (ex_parsed ℚ) 3 (ex_out ℚ) rfl (by decide)
  exact ⟨out1, h1, vertices_out_scaled (fun x => x) (ex_parsed ℚ) 3 (ex_out ℚ) out1 h1
    ⟨0, 0, 0⟩ ⟨2, 1, 0⟩ (by decide!) (by norm_num [extent]) 1 ex_shape1 0 rfl (by decide) 1
    (by decide)⟩

/-- C6, at a concrete input: the second corner of the triangle refers to the normal
`(0,3,4)`, which is written as it is. -/
theorem normals_out_copied_witness :
    load_obj (fun x => x) (ex_parsed_n ℚ) 1 (ex_out ℚ)
      = some (true, ⟨[0, 0, 0, 1 / 5, 0, 0, 0, 1 / 10, 0], [0, 0, 1, 0, 3, 4, 1, 0, 0],
          [[0, 3]], [[5]]⟩) ∧
    ∃ c, ex_shape1.mesh.indices[3 * 0 + 1]? = some c ∧ 0 ≤ c.normal_index ∧
      ∀ i, i < 3 → ∃ y, (ex_parsed_n ℚ).attrib.normals[3 * c.normal_index.toNat + i]? = some y ∧
        ([0, 0, 1, 0, 3, 4, 1, 0, 0] : List ℚ)[9 * (faces_before (ex_parsed_n ℚ).shapes 0 + 0)
          + 3 * 1 + i]? = some y := by
  have h : load_obj (fun x => x) (ex_parsed_n ℚ) 1 (ex_out ℚ)
      = some (true, ⟨[0, 0, 0, 1 / 5, 0, 0, 0, 1 / 10, 0], [0, 0, 1, 0, 3, 4, 1, 0, 0],
          [[0, 3]], [[5]]⟩) := by decide!
  exact ⟨h, (normals_out_copied (fun x => x) (ex_parsed_n ℚ) 1 (ex_out ℚ) rfl (by decide)).2 _ h
    0 ex_shape1 0 rfl (by decide) 1 (by decide)⟩

/-- C7, at a concrete input over the reals: the first triangle of the sample mesh. -/
theorem flat_normals_unit_witness :
    ∃ out1, load_obj Real.sqrt (ex_parsed ℝ) 1 (ex_out ℝ) = some (true, out1) ∧
      ∃ v0 v1 v2 n : Vec3 ℝ,
        (∀ j, j < 9 → out1.vertices_out[9 * (faces_before (ex_parsed ℝ).shapes 0 + 0) + j]?
          = (v0.toList ++ v1.toList ++ v2.toList)[j]?) ∧
        (∀ j, j < 9 → out1.normals_out[9 * (faces_before (ex_parsed ℝ).shapes 0 + 0) + j]?
          = (n.toList ++ n.toList ++ n.toList)[j]?) ∧
        (cross v0 v1 v2 ≠ ⟨0, 0, 0⟩ → Real.sqrt (n.c0 ^ 2 + n.c1 ^ 2 + n.c2 ^ 2) = 1) := by
  have key := flat_normals_unit (ex_parsed ℝ) 1 (ex_out ℝ) rfl rfl
  obtain ⟨out1, h1⟩ := key.1 (by decide)
  exact ⟨out1, h1, key.2 out1 h1 0 ex_shape6 0 rfl (by decide)⟩

/-! ## Extent of the output -/

section Extent

variable {F : Type} [LinearOrderedField F]

theorem face_decompose (shapes : List shape_t) (g : Nat) (hg : g < total_faces shapes) :
    ∃ s sh f, shapes[s]? = some sh ∧ f < sh.mesh.num_face_vertices.length ∧
      g = faces_before shapes s + f := by
  have key : ∀ k, g < faces_before shapes k →
      ∃ s sh f, shapes[s]? = some sh ∧ f < sh.mesh.num_face_vertices.length ∧
        g = faces_before shapes s + f := by
    intro k
    induction k with
    | zero => intro h; simp [faces_before] at h
    | succ k ih =>
      intro h
      by_cases hk : k < shapes.length
      · have hsh : shapes[k]? = some shapes[k] := List.getElem?_eq_getElem hk
        rw [faces_before_succ shapes k _ hsh] at h
        by_cases hlt : g < faces_before shapes k
        · exact ih hlt
        · exact ⟨k, shapes[k], g - faces_before shapes k, hsh, by omega, by omega⟩
      · have h1 : shapes.take (k + 1) = shapes.take k := by
          rw [List.take_of_length_le (by omega), List.take_of_length_le (by omega)]
        apply ih
        simp only [faces_before, h1] at h ⊢
        exact h
  exact key shapes.length (by rw [faces_before_length]; exact hg)

theorem isMinOf_scale_nonneg {A B : List F} {c lo : F} (hc : 0 ≤ c)
    (hAB : ∀ y, y ∈ B ↔ ∃ x, x ∈ A ∧ y = x * c) (h : IsMinOf A lo) : IsMinOf B (lo * c) := by
  refine ⟨(hAB _).mpr ⟨lo, h.1, rfl⟩, ?_⟩
  intro y hy
  obtain ⟨x, hx, rfl⟩ := (hAB y).mp hy
  exact mul_le_mul_of_nonneg_right (h.2 x hx) hc

theorem isMaxOf_scale_nonneg {A B : List F} {c hi : F} (hc : 0 ≤ c)
    (hAB : ∀ y, y ∈ B ↔ ∃ x, x ∈ A ∧ y = x * c) (h : IsMaxOf A hi) : IsMaxOf B (hi * c) := by
  refine ⟨(hAB _).mpr ⟨hi, h.1, rfl⟩, ?_⟩
  intro y hy
  obtain ⟨x, hx, rfl⟩ := (hAB y).mp hy
  exact mul_le_mul_of_nonneg_right (h.2 x hx) hc

theorem isMinOf_scale_nonpos {A B : List F} {c hi : F} (hc : c ≤ 0)
    (hAB : ∀ y, y ∈ B ↔ ∃ x, x ∈ A ∧ y = x * c) (h : IsMaxOf A hi) : IsMinOf B (hi * c) := by
  refine ⟨(hAB _).mpr ⟨hi, h.1, rfl⟩, ?_⟩
  intro y hy
  obtain ⟨x, hx, rfl⟩ := (hAB y).mp hy
  exact mul_le_mul_of_nonpos_right (h.2 x hx) hc

theorem isMaxOf_scale_nonpos {A B : List F} {c lo : F} (hc : c ≤ 0)
    (hAB : ∀ y, y ∈ B ↔ ∃ x, x ∈ A ∧ y = x * c) (h : IsMinOf A lo) : IsMaxOf B (lo * c) := by
  refine ⟨(hAB _).mpr ⟨lo, h.1, rfl⟩, ?_⟩
  intro y hy
  obtain ⟨x, hx, rfl⟩ := (hAB y).mp hy
  exact mul_le_mul_of_nonpos_right (h.2 x hx) hc

theorem mem_axis_values {vertices : List F} {i : Nat} {y : F} :
    y ∈ axis_values vertices i ↔
      ∃ j, j < vertices.length / 3 ∧ vertices.getD (j * 3 + i) 0 = y := by
  unfold axis_values
  simp [List.mem_map, List.mem_range]

theorem getD_of_getElem? {l : List F} {i : Nat} {x : F} (h : l[i]? = some x) :
    l.getD i 0 = x := by
  rw [List.getD_eq_getElem?_getD, h]
  rfl

theorem extent_scale_nonneg (lo hi : Vec3 F) (c : F) (hc : 0 ≤ c) :
    extent ⟨lo.c0 * c, lo.c1 * c, lo.c2 * c⟩ ⟨hi.c0 * c, hi.c1 * c, hi.c2 * c⟩
      = extent lo hi * c := by
  unfold extent
  simp only []
  rw [← sub_mul, ← sub_mul, ← sub_mul, max_mul_of_nonneg _ _ hc, max_mul_of_nonneg _ _ hc]

theorem extent_scale_nonpos (lo hi : Vec3 F) (c : F) (hc : c ≤ 0) :
    extent ⟨hi.c0 * c, hi.c1 * c, hi.c2 * c⟩ ⟨lo.c0 * c, lo.c1 * c, lo.c2 * c⟩
      = extent lo hi * (-c) := by
  unfold extent
  simp only []
  have hc' : 0 ≤ -c := by linarith
  rw [max_mul_of_nonneg _ _ hc', max_mul_of_nonneg _ _ hc']
  congr 1
  · congr 1 <;> ring
  · ring

end Extent

section OutputExtent

variable {F : Type} [LinearOrderedField F]

theorem output_axis_values {sqrtf : F → F} {p : Parsed F} {scale : F} {out out1 : Outputs F}
    (h : load_obj sqrtf p scale out = some (true, out1)) (ht : Triangles p.shapes)
    (hall : AllReferenced p.attrib p.shapes) (i : Nat) (hi : i < 3) (y : F) :
    y ∈ axis_values out1.vertices_out i ↔
      ∃ x, x ∈ axis_values p.attrib.vertices i ∧
        y = x * final_scale p.attrib.vertices scale := by
  have hlen := (load_obj_sizes (load_obj_ret_of_true h) ht h).1
  constructor
  · intro hy
    obtain ⟨q, hq, hqy⟩ := mem_axis_values.mp hy
    rw [hlen] at hq
    have hg : q / 3 < total_faces p.shapes := by omega
    obtain ⟨s, sh, f, hs, hf, hgf⟩ := face_decompose p.shapes (q / 3) hg
    obtain ⟨d, hd, hj⟩ := load_obj_face h s sh f hs hf
    obtain ⟨c, hc, hnn, hx⟩ := face_values_vertex hd (q % 3) (Nat.mod_lt _ (by omega))
    obtain ⟨x, hx1, hx2⟩ := hx i hi
    obtain ⟨x2, hx3, -⟩ := hx 2 (by omega)
    have hj1 := (hj (3 * (q % 3) + i) (by omega)).1
    rw [hx2] at hj1
    have hidx : q * 3 + i = 9 * (faces_before p.shapes s + f) + (3 * (q % 3) + i) := by omega
    rw [hidx, getD_of_getElem? hj1] at hqy
    refine ⟨x, mem_axis_values.mpr ⟨c.vertex_index.toNat, ?_, ?_⟩, hqy.symm⟩
    · have := (List.getElem?_eq_some.mp hx3).1
      omega
    · rw [Nat.mul_comm]
      exact getD_of_getElem? hx1
  · rintro ⟨x, hx, rfl⟩
    obtain ⟨j, hj, hjx⟩ := mem_axis_values.mp hx
    obtain ⟨s, sh, f, k, c, hs, hf, hk, hc, hcj⟩ := hall j hj
    obtain ⟨d, hd, hslot⟩ := load_obj_face h s sh f hs hf
    obtain ⟨c1, hc1, -, hx1⟩ := face_values_vertex hd k hk
    rw [hc] at hc1
    cases hc1
    obtain ⟨x1, hx2, hx3⟩ := hx1 i hi
    have htn : c.vertex_index.toNat = j := by omega
    rw [htn] at hx2
    have hxx : x1 = x := by
      rw [← hjx, Nat.mul_comm]
      exact (getD_of_getElem? hx2).symm
    subst hxx
    have hs1 := (hslot (3 * k + i) (by omega)).1
    rw [hx3] at hs1
    have hle := faces_before_add_lt p.shapes s sh hs
    refine mem_axis_values.mpr ⟨3 * (faces_before p.shapes s + f) + k, ?_, ?_⟩
    · rw [hlen]; omega
    · have hidx : (3 * (faces_before p.shapes s + f) + k) * 3 + i
          = 9 * (faces_before p.shapes s + f) + (3 * k + i) := by omega
      rw [hidx]
      exact getD_of_getElem? hs1

/-- C5 (amended): in a successfully loaded triangle mesh whose input pool has a bounding
box with positive largest extent and whose every input position is referenced by some
face corner, the largest per-axis extent of the positions stored in `vertices_out` is
the absolute value of `scale` (so `scale` itself when it is not negative). -/
theorem output_extent (sqrtf : F → F) (p : Parsed F) (scale : F) (out out1 : Outputs F)
    (h : load_obj sqrtf p scale out = some (true, out1)) (ht : Triangles p.shapes)
    (hall : AllReferenced p.attrib p.shapes)
    (lo hi : Vec3 F) (hbox : IsBox p.attrib.vertices lo hi) (hpos : 0 < extent lo hi) :
    ∃ lo1 hi1, IsBox out1.vertices_out lo1 hi1 ∧ extent lo1 hi1 = |scale| := by
  have hfs := final_scale_eq p.attrib.vertices scale lo hi hbox
  have m0 := output_axis_values h ht hall 0 (by omega)
  have m1 := output_axis_values h ht hall 1 (by omega)
  have m2 := output_axis_values h ht hall 2 (by omega)
  obtain ⟨a1, a2, a3, a4, a5, a6⟩ := hbox
  have habs : extent lo hi * |final_scale p.attrib.vertices scale| = |scale| := by
    rw [hfs, abs_div, abs_of_pos hpos]
    field_simp
  by_cases hc : 0 ≤ final_scale p.attrib.vertices scale
  · refine ⟨⟨lo.c0 * _, lo.c1 * _, lo.c2 * _⟩, ⟨hi.c0 * _, hi.c1 * _, hi.c2 * _⟩,
      ⟨isMinOf_scale_nonneg hc m0 a1, isMaxOf_scale_nonneg hc m0 a2,
        isMinOf_scale_nonneg hc m1 a3, isMaxOf_scale_nonneg hc m1 a4,
        isMinOf_scale_nonneg hc m2 a5, isMaxOf_scale_nonneg hc m2 a6⟩, ?_⟩
    rw [extent_scale_nonneg lo hi _ hc, ← habs, abs_of_nonneg hc]
  · have hc' : final_scale p.attrib.vertices scale ≤ 0 := le_of_lt (not_le.mp hc)
    refine ⟨⟨hi.c0 * _, hi.c1 * _, hi.c2 * _⟩, ⟨lo.c0 * _, lo.c1 * _, lo.c2 * _⟩,
      ⟨isMinOf_scale_nonpos hc' m0 a2, isMaxOf_scale_nonpos hc' m0 a1,
        isMinOf_scale_nonpos hc' m1 a4, isMaxOf_scale_nonpos hc' m1 a3,
        isMinOf_scale_nonpos hc' m2 a6, isMaxOf_scale_nonpos hc' m2 a5⟩, ?_⟩
    rw [extent_scale_nonpos lo hi _ hc', ← habs, abs_of_nonpos hc']

end OutputExtent

/-- C5 as stated fails.  With an unreferenced position `(10,0,0)` in the pool the box
of the input has extent `10`, the scale `1` gives the factor `1/10`, and the output of the
one triangle has extent `1/5`, not `1`.  With every position referenced and the scale
`-2` the output has extent `2`, not `-2`. -/
theorem output_extent_differs_from_scale :
    (load_obj (fun x => x) (ex_parsed_n ℚ) 1 (ex_out ℚ)
        = some (true, ⟨[0, 0, 0, 1 / 5, 0, 0, 0, 1 / 10, 0], [0, 0, 1, 0, 3, 4, 1, 0, 0],
            [[0, 3]], [[5]]⟩) ∧
      IsBox (ex_parsed_n ℚ).attrib.vertices ⟨0, 0, 0⟩ ⟨10, 1, 0⟩ ∧
      0 < extent (⟨0, 0, 0⟩ : Vec3 ℚ) ⟨10, 1, 0⟩ ∧
      IsBox ([0, 0, 0, 1 / 5, 0, 0, 0, 1 / 10, 0] : List ℚ) ⟨0, 0, 0⟩ ⟨1 / 5, 1 / 10, 0⟩ ∧
      extent (⟨0, 0, 0⟩ : Vec3 ℚ) ⟨1 / 5, 1 / 10, 0⟩ ≠ 1) ∧
    (load_obj (fun x => x) ⟨true, ex_attrib ℚ, [ex_shape1]⟩ (-2) (ex_out ℚ)
        = some (true, ⟨[0, 0, 0, -2, 0, 0, 0, -1, 0], [0, 0, 1 / 2, 0, 0, 1 / 2, 0, 0, 1 / 2],
            [[0, 3]], [[5]]⟩) ∧
      IsBox (ex_attrib ℚ).vertices ⟨0, 0, 0⟩ ⟨2, 1, 0⟩ ∧
      0 < extent (⟨0, 0, 0⟩ : Vec3 ℚ) ⟨2, 1, 0⟩ ∧
      IsBox ([0, 0, 0, -2, 0, 0, 0, -1, 0] : List ℚ) ⟨-2, -1, 0⟩ ⟨0, 0, 0⟩ ∧
      extent (⟨-2, -1, 0⟩ : Vec3 ℚ) ⟨0, 0, 0⟩ ≠ -2) := by
  refine ⟨⟨by decide!, by decide!, by norm_num [extent], by decide!, by norm_num [extent]⟩,
    ⟨by decide!, by decide!, by norm_num [extent], by decide!, by norm_num [extent]⟩⟩

theorem ex_allReferenced : AllReferenced (ex_attrib ℚ) [ex_shape1] := by
  intro j hj
  have hj3 : j < 3 := hj
  interval_cases j
  · exact ⟨0, ex_shape1, 0, 0, ⟨0, 0, 0⟩, rfl, by decide, by decide, rfl, rfl⟩
  · exact ⟨0, ex_shape1, 0, 1, ⟨1, 1, 1⟩, rfl, by decide, by decide, rfl, rfl⟩
  · exact ⟨0, ex_shape1, 0, 2, ⟨2, 2, 2⟩, rfl, by decide, by decide, rfl, rfl⟩

/-- C5 (amended), at a concrete input: one triangle that uses all three positions of the
pool, scale `-2`. -/
theorem output_extent_witness :
    ∃ lo1 hi1, IsBox ([0, 0, 0, -2, 0, 0, 0, -1, 0] : List ℚ) lo1 hi1 ∧
      extent lo1 hi1 = |(-2 : ℚ)| :=
  output_extent (fun x => x) ⟨true, ex_attrib ℚ, [ex_shape1]⟩ (-2) (ex_out ℚ)
    ⟨[0, 0, 0, -2, 0, 0, 0, -1, 0], [0, 0, 1 / 2, 0, 0, 1 / 2, 0, 0, 1 / 2], [[0, 3]], [[5]]⟩
    (by decide!) (by decide) ex_allReferenced ⟨0, 0, 0⟩ ⟨2, 1, 0⟩ (by decide!)
    (by norm_num [extent])

/-! ## The texcoord pass of `load_tex` -/

section Tex

variable {F : Type} [LinearOrderedField F]

theorem fetch2_some {pool : List F} {index : Int} {a : F × F}
    (h : fetch2 pool index = some a) :
    0 ≤ index ∧ pool[2 * index.toNat]? = some a.1 ∧ pool[2 * index.toNat + 1]? = some a.2 := by
  unfold fetch2 at h
  by_cases hc : 0 ≤ index * 2
  · rw [if_pos hc] at h
    simp only [Option.bind_eq_bind, Option.bind_eq_some, Option.pure_def] at h
    obtain ⟨x, hx, y, hy, hv⟩ := h
    have hv' := Option.some.inj hv
    subst hv'
    have e : (index * 2).toNat = 2 * index.toNat := by omega
    rw [e] at hx hy
    exact ⟨by omega, hx, hy⟩
  · rw [if_neg hc] at h; simp at h

theorem fetch2_defined {pool : List F} {index : Int} (h0 : 0 ≤ index)
    (h1 : 2 * index + 2 ≤ pool.length) : ∃ a, fetch2 pool index = some a := by
  unfold fetch2
  have hnn : 0 ≤ index * 2 := by omega
  rw [if_pos hnn, List.getElem?_eq_getElem (by omega : (index * 2).toNat < pool.length),
    List.getElem?_eq_getElem (by omega : (index * 2).toNat + 1 < pool.length)]
  exact ⟨_, rfl⟩

theorem tex_face_cases {texcoords : List F} {mesh : mesh_t} {st : TexState F} {f : Nat}
    {fl : Flow (TexState F)} (h : tex_face texcoords mesh st f = some fl) :
    ∃ c0 c1 c2, mesh.indices[3 * f + 0]? = some c0 ∧ mesh.indices[3 * f + 1]? = some c1 ∧
      mesh.indices[3 * f + 2]? = some c2 ∧
      ((0 < texcoords.length ∧
          (c0.texcoord_index < 0 ∨ c1.texcoord_index < 0 ∨ c2.texcoord_index < 0) ∧
          fl = Flow.returned st) ∨
       (0 < texcoords.length ∧
          ¬ (c0.texcoord_index < 0 ∨ c1.texcoord_index < 0 ∨ c2.texcoord_index < 0) ∧
          ∃ a0 a1 a2 out1, fetch2 texcoords c0.texcoord_index = some a0 ∧
            fetch2 texcoords c1.texcoord_index = some a1 ∧
            fetch2 texcoords c2.texcoord_index = some a2 ∧
            store st.texcoords_out st.texcoords_dst
              [a0.1, 1 - a0.2, a1.1, 1 - a1.2, a2.1, 1 - a2.2] = some out1 ∧
            fl = Flow.running ⟨out1, st.texcoords_dst + 6⟩) ∨
       (texcoords.length = 0 ∧
          ∃ out1, store st.texcoords_out st.texcoords_dst [0, 0, 0, 0, 0, 0] = some out1 ∧
            fl = Flow.running ⟨out1, st.texcoords_dst + 6⟩)) := by
  unfold tex_face at h
  simp only [Option.bind_eq_bind, Option.bind_eq_some, Option.pure_def] at h
  obtain ⟨c0, h0, c1, h1, c2, h2, hrest⟩ := h
  refine ⟨c0, c1, c2, h0, h1, h2, ?_⟩
  by_cases hne : texcoords.length > 0
  · rw [if_pos hne] at hrest
    by_cases hneg : c0.texcoord_index < 0 ∨ c1.texcoord_index < 0 ∨ c2.texcoord_index < 0
    · rw [if_pos hneg] at hrest
      exact Or.inl ⟨hne, hneg, (Option.some.inj hrest).symm⟩
    · rw [if_neg hneg] at hrest
      simp only [Option.bind_eq_bind, Option.bind_eq_some, flipped_texcoord,
        Option.pure_def] at hrest
      obtain ⟨t0, ⟨a0, ha0, ht0⟩, t1, ⟨a1, ha1, ht1⟩, t2, ⟨a2, ha2, ht2⟩, o, ho, hfl⟩ := hrest
      have e0 := Option.some.inj ht0
      have e1 := Option.some.inj ht1
      have e2 := Option.some.inj ht2
      subst e0 e1 e2
      exact Or.inr (Or.inl ⟨hne, hneg, a0, a1, a2, o, ha0, ha1, ha2, ho,
        (Option.some.inj hfl).symm⟩)
  · rw [if_neg hne] at hrest
    simp only [Option.bind_eq_bind, Option.bind_eq_some] at hrest
    obtain ⟨o, ho, hfl⟩ := hrest
    exact Or.inr (Or.inr ⟨by omega, o, ho, (Option.some.inj hfl).symm⟩)

theorem negFace_iff {mesh : mesh_t} {f : Nat} {c0 c1 c2 : index_t}
    (h0 : mesh.indices[3 * f + 0]? = some c0) (h1 : mesh.indices[3 * f + 1]? = some c1)
    (h2 : mesh.indices[3 * f + 2]? = some c2) :
    NegFace mesh f ↔
      (c0.texcoord_index < 0 ∨ c1.texcoord_index < 0 ∨ c2.texcoord_index < 0) := by
  constructor
  · rintro ⟨k, c, hk, hc, hneg⟩
    interval_cases k
    · rw [h0] at hc; cases hc; exact Or.inl hneg
    · rw [h1] at hc; cases hc; exact Or.inr (Or.inl hneg)
    · rw [h2] at hc; cases hc; exact Or.inr (Or.inr hneg)
  · rintro (h | h | h)
    · exact ⟨0, c0, by omega, h0, h⟩
    · exact ⟨1, c1, by omega, h1, h⟩
    · exact ⟨2, c2, by omega, h2, h⟩

theorem tex_extends_refl (a : Flow (TexState F)) : a.state.Extends a.state :=
  ⟨le_refl _, rfl, fun _ _ => rfl⟩

theorem tex_extends_trans (a b c : Flow (TexState F)) (h1 : a.state.Extends b.state)
    (h2 : b.state.Extends c.state) : a.state.Extends c.state := by
  obtain ⟨a1, a2, a3⟩ := h1
  obtain ⟨b1, b2, b3⟩ := h2
  refine ⟨le_trans a1 b1, by rw [b2, a2], ?_⟩
  intro i hi
  rw [b3 i (by omega), a3 i hi]

theorem tex_face_extends {texcoords : List F} {mesh : mesh_t} {st : TexState F} {f : Nat}
    {fl : Flow (TexState F)} (h : tex_face texcoords mesh st f = some fl) :
    st.Extends fl.state := by
  obtain ⟨c0, c1, c2, -, -, -, hc⟩ := tex_face_cases h
  rcases hc with ⟨-, -, hfl⟩ | ⟨-, -, a0, a1, a2, o, -, -, -, ho, hfl⟩ | ⟨-, o, ho, hfl⟩
  · subst hfl
    exact ⟨le_refl _, rfl, fun _ _ => rfl⟩
  · subst hfl
    exact ⟨Nat.le_add_right _ _, store_length ho, fun i hi => store_before ho i hi⟩
  · subst hfl
    exact ⟨Nat.le_add_right _ _, store_length ho, fun i hi => store_before ho i hi⟩

theorem tex_face_step_extends (texcoords : List F) (mesh : mesh_t) (a : Flow (TexState F))
    (f : Nat) (b : Flow (TexState F))
    (h : Flow.step (tex_face texcoords mesh) a f = some b) : a.state.Extends b.state := by
  cases a with
  | running st => exact tex_face_extends h
  | returned st =>
    simp only [Flow.step, Option.some.injEq] at h
    subst h
    exact ⟨le_refl _, rfl, fun _ _ => rfl⟩

theorem tex_faces_trace (texcoords : List F) (mesh : mesh_t) (st : TexState F) :
    ∀ k fl, (List.range k).foldlM (Flow.step (tex_face texcoords mesh)) (Flow.running st)
        = some fl →
      (fl.isReturned = true ↔ (0 < texcoords.length ∧ ∃ f, f < k ∧ NegFace mesh f)) ∧
      (fl.isReturned = false → fl.state.texcoords_dst = st.texcoords_dst + 6 * k) := by
  intro k
  induction k with
  | zero =>
    intro fl h
    simp at h
    subst h
    simp [Flow.isReturned, Flow.state]
  | succ k ih =>
    intro fl h
    rw [foldlM_range_succ] at h
    simp only [Option.bind_eq_bind, Option.bind_eq_some] at h
    obtain ⟨fl0, h0, h1⟩ := h
    obtain ⟨i1, i2⟩ := ih fl0 h0
    cases fl0 with
    | returned st0 =>
      simp only [Flow.step, Option.some.injEq] at h1
      subst h1
      have hr : (0 < texcoords.length ∧ ∃ f, f < k ∧ NegFace mesh f) := i1.mp rfl
      obtain ⟨hr1, f, hf, hneg⟩ := hr
      exact ⟨⟨fun _ => ⟨hr1, f, by omega, hneg⟩, fun _ => rfl⟩, fun hc => by simp [Flow.isReturned] at hc⟩
    | running st0 =>
      have hnot : ¬ (0 < texcoords.length ∧ ∃ f, f < k ∧ NegFace mesh f) := by
        intro hc
        have := i1.mpr hc
        simp [Flow.isReturned] at this
      have hdst : st0.texcoords_dst = st.texcoords_dst + 6 * k := i2 rfl
      simp only [Flow.step] at h1
      obtain ⟨c0, c1, c2, g0, g1, g2, hc⟩ := tex_face_cases h1
      have hiff := negFace_iff g0 g1 g2
      rcases hc with ⟨hne, hneg, hfl⟩ | ⟨hne, hneg, a0, a1, a2, o, -, -, -, ho, hfl⟩ |
          ⟨hne, o, ho, hfl⟩
      · subst hfl
        exact ⟨⟨fun _ => ⟨hne, k, by omega, hiff.mpr hneg⟩, fun _ => rfl⟩,
          fun hc => by simp [Flow.isReturned] at hc⟩
      · subst hfl
        refine ⟨⟨fun hc => by simp [Flow.isReturned] at hc, ?_⟩, ?_⟩
        · rintro ⟨-, f, hf, hnf⟩
          exfalso
          rcases Nat.lt_succ_iff_lt_or_eq.mp hf with hlt | heq
          · exact hnot ⟨hne, f, hlt, hnf⟩
          · subst heq; exact hneg (hiff.mp hnf)
        · intro _
          simp only [Flow.state]
          omega
      · subst hfl
        refine ⟨⟨fun hc => by simp [Flow.isReturned] at hc, ?_⟩, ?_⟩
        · rintro ⟨hpos, -⟩
          omega
        · intro _
          simp only [Flow.state]
          omega

end Tex

section TexShapes

variable {F : Type} [LinearOrderedField F]

theorem tex_faces_before_succ (shapes : List shape_t) (k : Nat) (sh : shape_t)
    (h : shapes[k]? = some sh) :
    tex_faces_before shapes (k + 1) = tex_faces_before shapes k + sh.mesh.indices.length / 3 := by
  simp [tex_faces_before, List.take_succ, h]

theorem tex_shape_some {texcoords : List F} {shapes : List shape_t} {st : TexState F} {s : Nat}
    {fl : Flow (TexState F)} (h : tex_shape texcoords shapes st s = some fl) :
    ∃ sh, shapes[s]? = some sh ∧
      (List.range (sh.mesh.indices.length / 3)).foldlM
        (Flow.step (tex_face texcoords sh.mesh)) (Flow.running st) = some fl := by
  unfold tex_shape at h
  simp only [Option.bind_eq_bind, Option.bind_eq_some] at h
  exact h

theorem tex_shape_extends {texcoords : List F} {shapes : List shape_t} {st : TexState F}
    {s : Nat} {fl : Flow (TexState F)} (h : tex_shape texcoords shapes st s = some fl) :
    st.Extends fl.state := by
  obtain ⟨sh, -, hf⟩ := tex_shape_some h
  exact foldlM_rel (fun a b : Flow (TexState F) => a.state.Extends b.state) tex_extends_refl
    tex_extends_trans _ (tex_face_step_extends texcoords sh.mesh) _ _ _ hf

theorem tex_shape_step_extends (texcoords : List F) (shapes : List shape_t)
    (a : Flow (TexState F)) (s : Nat) (b : Flow (TexState F))
    (h : Flow.step (tex_shape texcoords shapes) a s = some b) : a.state.Extends b.state := by
  cases a with
  | running st => exact tex_shape_extends h
  | returned st =>
    simp only [Flow.step, Option.some.injEq] at h
    subst h
    exact ⟨le_refl _, rfl, fun _ _ => rfl⟩

theorem tex_shapes_trace (texcoords : List F) (shapes : List shape_t) (st : TexState F) :
    ∀ k fl, (List.range k).foldlM (Flow.step (tex_shape texcoords shapes)) (Flow.running st)
        = some fl →
      (fl.isReturned = true ↔ (0 < texcoords.length ∧ ∃ s sh f, s < k ∧ shapes[s]? = some sh ∧
        f < sh.mesh.indices.length / 3 ∧ NegFace sh.mesh f)) ∧
      (fl.isReturned = false →
        fl.state.texcoords_dst = st.texcoords_dst + 6 * tex_faces_before shapes k) := by
  intro k
  induction k with
  | zero =>
    intro fl h
    simp at h
    subst h
    simp [Flow.isReturned, Flow.state, tex_faces_before]
  | succ k ih =>
    intro fl h
    rw [foldlM_range_succ] at h
    simp only [Option.bind_eq_bind, Option.bind_eq_some] at h
    obtain ⟨fl0, h0, h1⟩ := h
    obtain ⟨i1, i2⟩ := ih fl0 h0
    cases fl0 with
    | returned st0 =>
      simp only [Flow.step, Option.some.injEq] at h1
      subst h1
      obtain ⟨hr1, s, sh, f, hs, hsh, hf, hneg⟩ := i1.mp rfl
      exact ⟨⟨fun _ => ⟨hr1, s, sh, f, by omega, hsh, hf, hneg⟩, fun _ => rfl⟩,
        fun hc => by simp [Flow.isReturned] at hc⟩
    | running st0 =>
      have hnot : ¬ (0 < texcoords.length ∧ ∃ s sh f, s < k ∧ shapes[s]? = some sh ∧
          f < sh.mesh.indices.length / 3 ∧ NegFace sh.mesh f) := by
        intro hc
        have := i1.mpr hc
        simp [Flow.isReturned] at this
      have hdst : st0.texcoords_dst = st.texcoords_dst + 6 * tex_faces_before shapes k := i2 rfl
      simp only [Flow.step] at h1
      obtain ⟨sh, hsh, hfold⟩ := tex_shape_some h1
      obtain ⟨t1, t2⟩ := tex_faces_trace texcoords sh.mesh st0 _ fl hfold
      constructor
      · constructor
        · intro hret
          obtain ⟨hne, f, hf, hneg⟩ := t1.mp hret
          exact ⟨hne, k, sh, f, by omega, hsh, hf, hneg⟩
        · rintro ⟨hne, s, sh1, f, hs, hsh1, hf, hneg⟩
          rcases Nat.lt_succ_iff_lt_or_eq.mp hs with hlt | heq
          · exact absurd ⟨hne, s, sh1, f, hlt, hsh1, hf, hneg⟩ hnot
          · subst heq
            rw [hsh] at hsh1
            cases hsh1
            exact t1.mpr ⟨hne, f, hf, hneg⟩
      · intro hrun
        rw [t2 hrun, hdst, tex_faces_before_succ shapes k sh hsh]
        omega

theorem flow_running_of_not_returned {σ : Type} (fl : Flow σ) (h : fl.isReturned = false) :
    fl = Flow.running fl.state := by
  cases fl with
  | running st => rfl
  | returned st => simp [Flow.isReturned] at h

theorem flow_state_running {σ : Type} (st : σ) : (Flow.running st).state = st := rfl

theorem texcoord_pass_spec (texcoords_out texcoords : List F) (shapes : List shape_t)
    (fl : Flow (TexState F)) (h : texcoord_pass texcoords_out texcoords shapes = some fl) :
    fl.state.texcoords_out.length = 2 * total_corners shapes ∧
    (0 < texcoords.length → ∀ s sh f, shapes[s]? = some sh → f < sh.mesh.indices.length / 3 →
      (∀ s1 sh1 f1, shapes[s1]? = some sh1 → f1 < sh1.mesh.indices.length / 3 →
        (s1 < s ∨ (s1 = s ∧ f1 ≤ f)) → ¬ NegFace sh1.mesh f1) →
      ∃ c0 c1 c2 a0 a1 a2, sh.mesh.indices[3 * f + 0]? = some c0 ∧
        sh.mesh.indices[3 * f + 1]? = some c1 ∧ sh.mesh.indices[3 * f + 2]? = some c2 ∧
        fetch2 texcoords c0.texcoord_index = some a0 ∧
        fetch2 texcoords c1.texcoord_index = some a1 ∧
        fetch2 texcoords c2.texcoord_index = some a2 ∧
        ∀ j, j < 6 → fl.state.texcoords_out[6 * (tex_faces_before shapes s + f) + j]?
          = [a0.1, 1 - a0.2, a1.1, 1 - a1.2, a2.1, 1 - a2.2][j]?) := by
  unfold texcoord_pass at h
  simp only [] at h
  have hext := foldlM_rel (fun a b : Flow (TexState F) => a.state.Extends b.state)
    tex_extends_refl tex_extends_trans _ (tex_shape_step_extends texcoords shapes) _ _ _ h
  constructor
  · rw [hext.2.1]
    simp only [flow_state_running, resize_length, total_corners]
    omega
  · intro hne s sh f hs hf hclean
    have hslt : s < shapes.length := (List.getElem?_eq_some.mp hs).1
    obtain ⟨l2, hl2⟩ := range_split hslt
    rw [hl2] at h
    obtain ⟨a1, a2, ha1, hstep, ha2⟩ := foldlM_split _ _ _ _ _ _ h
    obtain ⟨t1, t2⟩ := tex_shapes_trace texcoords shapes _ s a1 ha1
    have hrun1 : a1.isReturned = false := by
      cases hr : a1.isReturned with
      | false => rfl
      | true =>
        obtain ⟨-, s1, sh1, f1, hs1, hsh1, hf1, hneg⟩ := t1.mp hr
        exact absurd hneg (hclean s1 sh1 f1 hsh1 hf1 (Or.inl hs1))
    have hd1 := t2 hrun1
    rw [flow_running_of_not_returned a1 hrun1] at hstep
    simp only [Flow.step] at hstep
    obtain ⟨sh1, hsh1, hfold⟩ := tex_shape_some hstep
    rw [hs] at hsh1
    cases hsh1
    have hrest := foldlM_rel (fun a b : Flow (TexState F) => a.state.Extends b.state)
      tex_extends_refl tex_extends_trans _ (tex_shape_step_extends texcoords shapes) _ _ _ ha2
    obtain ⟨m2, hm2⟩ := range_split hf
    rw [hm2] at hfold
    obtain ⟨b1, b2, hb1, hface, hb2⟩ := foldlM_split _ _ _ _ _ _ hfold
    obtain ⟨u1, u2⟩ := tex_faces_trace texcoords sh.mesh a1.state f b1 hb1
    have hrun2 : b1.isReturned = false := by
      cases hr : b1.isReturned with
      | false => rfl
      | true =>
        obtain ⟨-, f1, hf1, hneg⟩ := u1.mp hr
        exact absurd hneg (hclean s sh f1 hs (by omega) (Or.inr ⟨rfl, by omega⟩))
    have hd2 := u2 hrun2
    rw [flow_running_of_not_returned b1 hrun2] at hface
    simp only [Flow.step] at hface
    have hrest2 := foldlM_rel (fun a b : Flow (TexState F) => a.state.Extends b.state)
      tex_extends_refl tex_extends_trans _ (tex_face_step_extends texcoords sh.mesh) _ _ _ hb2
    obtain ⟨-, -, hkeep⟩ := tex_extends_trans _ _ _ hrest2 hrest
    obtain ⟨c0, c1, c2, g0, g1, g2, hc⟩ := tex_face_cases hface
    have hnn := hclean s sh f hs hf (Or.inr ⟨rfl, le_refl _⟩)
    rcases hc with ⟨-, hneg, -⟩ | ⟨-, -, a0, a1', a2', o, f0, f1, f2, ho, hfl⟩ | ⟨h0, -⟩
    · exact absurd ((negFace_iff g0 g1 g2).mpr hneg) hnn
    · refine ⟨c0, c1, c2, a0, a1', a2', g0, g1, g2, f0, f1, f2, ?_⟩
      intro j hj
      subst hfl
      simp only [flow_state_running] at hkeep hd1
      have hb1d : b1.state.texcoords_dst = 6 * (tex_faces_before shapes s + f) := by
        rw [hd2, hd1]
        omega
      rw [hkeep _ (by omega), ← hb1d]
      exact store_at ho j (by simpa using hj)
    · omega

end TexShapes

section TexDefined

variable {F : Type} [LinearOrderedField F]

theorem tex_face_defined (texcoords : List F) (mesh : mesh_t) (st : TexState F) (f : Nat)
    (hf : 3 * f + 2 < mesh.indices.length)
    (hin : ∀ c ∈ mesh.indices, 0 ≤ c.texcoord_index →
      2 * c.texcoord_index + 2 ≤ texcoords.length)
    (hdst : st.texcoords_dst + 6 ≤ st.texcoords_out.length) :
    ∃ fl, tex_face texcoords mesh st f = some fl := by
  unfold tex_face
  have g0 : 3 * f + 0 < mesh.indices.length := by omega
  have g1 : 3 * f + 1 < mesh.indices.length := by omega
  rw [List.getElem?_eq_getElem g0, List.getElem?_eq_getElem g1, List.getElem?_eq_getElem hf]
  simp only [Option.bind_eq_bind, Option.some_bind, Option.pure_def]
  by_cases hne : texcoords.length > 0
  · rw [if_pos hne]
    by_cases hneg : mesh.indices[3 * f + 0].texcoord_index < 0 ∨
        mesh.indices[3 * f + 1].texcoord_index < 0 ∨ mesh.indices[3 * f + 2].texcoord_index < 0
    · rw [if_pos hneg]
      exact ⟨_, rfl⟩
    · rw [if_neg hneg]
      have n0 : 0 ≤ mesh.indices[3 * f + 0].texcoord_index := by omega
      have n1 : 0 ≤ mesh.indices[3 * f + 1].texcoord_index := by omega
      have n2 : 0 ≤ mesh.indices[3 * f + 2].texcoord_index := by omega
      obtain ⟨a0, ha0⟩ := fetch2_defined n0 (hin _ (List.getElem_mem g0) n0)
      obtain ⟨a1, ha1⟩ := fetch2_defined n1 (hin _ (List.getElem_mem g1) n1)
      obtain ⟨a2, ha2⟩ := fetch2_defined n2 (hin _ (List.getElem_mem hf) n2)
      simp only [flipped_texcoord, ha0, ha1, ha2, Option.bind_eq_bind, Option.some_bind,
        Option.pure_def, store]
      rw [if_pos (by simpa using hdst)]
      exact ⟨_, rfl⟩
  · rw [if_neg hne]
    simp only [store]
    rw [if_pos (by simpa using hdst)]
    exact ⟨_, rfl⟩

theorem tex_faces_defined (texcoords : List F) (mesh : mesh_t) (st : TexState F) (nf : Nat)
    (hnf : 3 * nf ≤ mesh.indices.length)
    (hin : ∀ c ∈ mesh.indices, 0 ≤ c.texcoord_index →
      2 * c.texcoord_index + 2 ≤ texcoords.length)
    (hdst : st.texcoords_dst + 6 * nf ≤ st.texcoords_out.length) :
    ∀ k, k ≤ nf → ∃ fl, (List.range k).foldlM (Flow.step (tex_face texcoords mesh))
      (Flow.running st) = some fl := by
  intro k
  induction k with
  | zero => intro _; exact ⟨Flow.running st, by simp⟩
  | succ k ih =>
    intro hk
    obtain ⟨fl0, h0⟩ := ih (by omega)
    rw [foldlM_range_succ, h0]
    simp only [Option.bind_eq_bind, Option.some_bind]
    cases hfl : fl0 with
    | returned st0 => exact ⟨_, rfl⟩
    | running st0 =>
      subst hfl
      obtain ⟨-, t2⟩ := tex_faces_trace texcoords mesh st k _ h0
      have hd := t2 rfl
      obtain ⟨-, e2, -⟩ := foldlM_rel (fun a b : Flow (TexState F) => a.state.Extends b.state)
        tex_extends_refl tex_extends_trans _ (tex_face_step_extends texcoords mesh) _ _ _ h0
      simp only [flow_state_running] at hd e2
      exact tex_face_defined texcoords mesh st0 k (by omega) hin (by omega)

theorem tex_faces_before_le (shapes : List shape_t) (k : Nat) :
    3 * tex_faces_before shapes k ≤ total_corners shapes := by
  have h1 : ∀ l : List shape_t,
      3 * (l.map (fun sh => sh.mesh.indices.length / 3)).sum
        ≤ (l.map (fun sh => sh.mesh.indices.length)).sum := by
    intro l
    induction l with
    | nil => simp
    | cons a l ih => simp only [List.map_cons, List.sum_cons]; omega
  have h2 : (shapes.map (fun sh => sh.mesh.indices.length)).sum
      = ((shapes.take k).map (fun sh => sh.mesh.indices.length)).sum
        + ((shapes.drop k).map (fun sh => sh.mesh.indices.length)).sum := by
    rw [← List.sum_append, ← List.map_append, List.take_append_drop]
  unfold tex_faces_before total_corners
  have := h1 (shapes.take k)
  omega

theorem tex_shapes_defined (texcoords : List F) (shapes : List shape_t) (st : TexState F)
    (hin : TexInRange texcoords shapes)
    (hdst : st.texcoords_dst + 2 * total_corners shapes ≤ st.texcoords_out.length) :
    ∀ k, k ≤ shapes.length → ∃ fl, (List.range k).foldlM
      (Flow.step (tex_shape texcoords shapes)) (Flow.running st) = some fl := by
  intro k
  induction k with
  | zero => intro _; exact ⟨Flow.running st, by simp⟩
  | succ k ih =>
    intro hk
    obtain ⟨fl0, h0⟩ := ih (by omega)
    rw [foldlM_range_succ, h0]
    simp only [Option.bind_eq_bind, Option.some_bind]
    cases hfl : fl0 with
    | returned st0 => exact ⟨_, rfl⟩
    | running st0 =>
      subst hfl
      obtain ⟨-, t2⟩ := tex_shapes_trace texcoords shapes st k _ h0
      have hd := t2 rfl
      obtain ⟨-, e2, -⟩ := foldlM_rel (fun a b : Flow (TexState F) => a.state.Extends b.state)
        tex_extends_refl tex_extends_trans _ (tex_shape_step_extends texcoords shapes) _ _ _ h0
      simp only [flow_state_running] at hd e2
      have hk' : k < shapes.length := by omega
      have hsh : shapes[k]? = some shapes[k] := List.getElem?_eq_getElem hk'
      have hle := tex_faces_before_le shapes (k + 1)
      rw [tex_faces_before_succ shapes k _ hsh] at hle
      simp only [Flow.step, tex_shape, hsh, Option.bind_eq_bind, Option.some_bind]
      exact tex_faces_defined texcoords shapes[k].mesh st0 _ (by omega)
        (hin _ (List.getElem_mem hk')) (by omega) _ (le_refl _)

theorem texcoord_pass_defined (texcoords_out texcoords : List F) (shapes : List shape_t)
    (hin : TexInRange texcoords shapes) :
    ∃ fl, texcoord_pass texcoords_out texcoords shapes = some fl := by
  unfold texcoord_pass
  exact tex_shapes_defined texcoords shapes _ hin
    (by simp only [resize_length, total_corners]; omega) _ (le_refl _)

theorem texcoord_pass_returned (texcoords_out texcoords : List F) (shapes : List shape_t)
    (fl : Flow (TexState F)) (h : texcoord_pass texcoords_out texcoords shapes = some fl) :
    fl.isReturned = true ↔ (0 < texcoords.length ∧ ∃ (s : Nat) (sh : shape_t) (f : Nat), shapes[s]? = some sh ∧
      f < sh.mesh.indices.length / 3 ∧ NegFace sh.mesh f) := by
  unfold texcoord_pass at h
  obtain ⟨t1, -⟩ := tex_shapes_trace texcoords shapes _ _ fl h
  rw [t1]
  constructor
  · rintro ⟨hne, s, sh, f, -, hsh, hf, hneg⟩
    exact ⟨hne, s, sh, f, hsh, hf, hneg⟩
  · rintro ⟨hne, s, sh, f, hsh, hf, hneg⟩
    exact ⟨hne, s, sh, f, (List.getElem?_eq_some.mp hsh).1, hsh, hf, hneg⟩

theorem load_tex_of_returned (w : TexWorld) (basedir : String) (out : TexOutputs F)
    (texcoords : List F) (shapes : List shape_t) (materials : List material_t)
    (min_filter mag_filter : Int) (t : TexState F)
    (h : texcoord_pass out.texcoords_out texcoords shapes = some (Flow.returned t)) :
    load_tex w basedir out texcoords shapes materials min_filter mag_filter
      = some (false, { out with texcoords_out := t.texcoords_out }) := by
  unfold load_tex
  rw [h]
  rfl

theorem load_tex_some {w : TexWorld} {basedir : String} {out out1 : TexOutputs F}
    {texcoords : List F} {shapes : List shape_t} {materials : List material_t}
    {min_filter mag_filter : Int} {b : Bool}
    (h : load_tex w basedir out texcoords shapes materials min_filter mag_filter
      = some (b, out1)) :
    ∃ fl, texcoord_pass out.texcoords_out texcoords shapes = some fl ∧
      out1.texcoords_out = fl.state.texcoords_out ∧ (fl.isReturned = true → b = false) := by
  unfold load_tex at h
  cases hp : texcoord_pass out.texcoords_out texcoords shapes with
  | none => rw [hp] at h; simp at h
  | some fl =>
    rw [hp] at h
    refine ⟨fl, rfl, ?_⟩
    cases fl with
    | returned t =>
      simp only [Option.bind_eq_bind, Option.some_bind, Option.some.injEq, Prod.mk.injEq] at h
      obtain ⟨h1, h2⟩ := h
      subst h2
      exact ⟨rfl, fun _ => h1.symm⟩
    | running t =>
      simp only [Option.bind_eq_bind, Option.some_bind, Option.bind_eq_some, Option.some.injEq,
        Prod.mk.injEq] at h
      obtain ⟨r, -, -, h2⟩ := h
      subst h2
      exact ⟨rfl, fun hc => by simp [Flow.isReturned] at hc⟩

theorem tex_materials_defined (w : TexWorld) (basedir : String) (min_filter mag_filter : Int)
    (materials : List material_t) (st : Flow RegState) :
    ∀ k, k ≤ materials.length → ∃ r, (List.range k).foldlM
      (Flow.step (tex_material w basedir min_filter mag_filter materials)) st = some r := by
  intro k
  induction k with
  | zero => intro _; exact ⟨st, by simp⟩
  | succ k ih =>
    intro hk
    obtain ⟨fl0, h0⟩ := ih (by omega)
    rw [foldlM_range_succ, h0]
    simp only [Option.bind_eq_bind, Option.some_bind]
    cases fl0 with
    | returned st0 => exact ⟨_, rfl⟩
    | running st0 =>
      simp only [Flow.step, tex_material, List.getElem?_eq_getElem (by omega : k < materials.length),
        Option.bind_eq_bind, Option.some_bind]
      split_ifs <;> exact ⟨_, rfl⟩

theorem load_tex_defined (w : TexWorld) (basedir : String) (out : TexOutputs F)
    (texcoords : List F) (shapes : List shape_t) (materials : List material_t)
    (min_filter mag_filter : Int) (hin : TexInRange texcoords shapes) :
    ∃ b out1, load_tex w basedir out texcoords shapes materials min_filter mag_filter
      = some (b, out1) := by
  obtain ⟨fl, hp⟩ := texcoord_pass_defined out.texcoords_out texcoords shapes hin
  cases fl with
  | returned t =>
    exact ⟨_, _, load_tex_of_returned w basedir out texcoords shapes materials min_filter
      mag_filter t hp⟩
  | running t =>
    obtain ⟨r, hr⟩ := tex_materials_defined w basedir min_filter mag_filter materials
      (Flow.running { texmap_out := out.texmap_out, gl := out.gl }) _ (le_refl _)
    unfold load_tex
    rw [hp]
    simp only [Option.bind_eq_bind, Option.some_bind, hr]
    exact ⟨_, _, rfl⟩

/-- C8 (amended): `load_tex` performs no read out of range when every index that is not
negative lies inside the pool; every run leaves `texcoords_out` with exactly two entries
per corner; and when the texcoord pool is not empty, for every face such that no corner
of it or of an earlier face (shapes in order, faces in order) has a negative
`texcoord_index`, corner `k` at the global position `c = 3 g + k` has an in-range index `j`
and `texcoords_out[2c] = texcoords[2j]`, `texcoords_out[2c+1] = 1 - texcoords[2j+1]`. -/
theorem texcoords_out_flipped (w : TexWorld) (basedir : String) (out : TexOutputs F)
    (texcoords : List F) (shapes : List shape_t) (materials : List material_t)
    (min_filter mag_filter : Int) :
    (TexInRange texcoords shapes → ∃ b out1,
      load_tex w basedir out texcoords shapes materials min_filter mag_filter
        = some (b, out1)) ∧
    ∀ b out1, load_tex w basedir out texcoords shapes materials min_filter mag_filter
        = some (b, out1) →
      out1.texcoords_out.length = 2 * total_corners shapes ∧
      (0 < texcoords.length →
        ∀ s sh f, shapes[s]? = some sh → f < sh.mesh.indices.length / 3 →
        (∀ s1 sh1 f1, shapes[s1]? = some sh1 → f1 < sh1.mesh.indices.length / 3 →
          (s1 < s ∨ (s1 = s ∧ f1 ≤ f)) → ¬ NegFace sh1.mesh f1) →
        ∀ k, k < 3 → ∃ c u v, sh.mesh.indices[3 * f + k]? = some c ∧ 0 ≤ c.texcoord_index ∧
          texcoords[2 * c.texcoord_index.toNat]? = some u ∧
          texcoords[2 * c.texcoord_index.toNat + 1]? = some v ∧
          out1.texcoords_out[2 * (3 * (tex_faces_before shapes s + f) + k)]? = some u ∧
          out1.texcoords_out[2 * (3 * (tex_faces_before shapes s + f) + k) + 1]?
            = some (1 - v)) := by
  refine ⟨load_tex_defined w basedir out texcoords shapes materials min_filter mag_filter, ?_⟩
  intro b out1 h
  obtain ⟨fl, hp, hout, -⟩ := load_tex_some h
  obtain ⟨hlen, hvals⟩ := texcoord_pass_spec _ _ _ fl hp
  rw [hout]
  refine ⟨hlen, ?_⟩
  intro hne s sh f hs hf hclean k hk
  obtain ⟨c0, c1, c2, a0, a1, a2, g0, g1, g2, f0, f1, f2, hj⟩ := hvals hne s sh f hs hf hclean
  obtain ⟨p0, x0, y0⟩ := fetch2_some f0
  obtain ⟨p1, x1, y1⟩ := fetch2_some f1
  obtain ⟨p2, x2, y2⟩ := fetch2_some f2
  interval_cases k
  · refine ⟨c0, a0.1, a0.2, g0, p0, x0, y0, ?_, ?_⟩
    · have := hj 0 (by omega)
      rw [show 2 * (3 * (tex_faces_before shapes s + f) + 0)
        = 6 * (tex_faces_before shapes s + f) + 0 by omega, this]
      rfl
    · have := hj 1 (by omega)
      rw [show 2 * (3 * (tex_faces_before shapes s + f) + 0) + 1
        = 6 * (tex_faces_before shapes s + f) + 1 by omega, this]
      rfl
  · refine ⟨c1, a1.1, a1.2, g1, p1, x1, y1, ?_, ?_⟩
    · have := hj 2 (by omega)
      rw [show 2 * (3 * (tex_faces_before shapes s + f) + 1)
        = 6 * (tex_faces_before shapes s + f) + 2 by omega, this]
      rfl
    · have := hj 3 (by omega)
      rw [show 2 * (3 * (tex_faces_before shapes s + f) + 1) + 1
        = 6 * (tex_faces_before shapes s + f) + 3 by omega, this]
      rfl
  · refine ⟨c2, a2.1, a2.2, g2, p2, x2, y2, ?_, ?_⟩
    · have := hj 4 (by omega)
      rw [show 2 * (3 * (tex_faces_before shapes s + f) + 2)
        = 6 * (tex_faces_before shapes s + f) + 4 by omega, this]
      rfl
    · have := hj 5 (by omega)
      rw [show 2 * (3 * (tex_faces_before shapes s + f) + 2) + 1
        = 6 * (tex_faces_before shapes s + f) + 5 by omega, this]
      rfl

/-- C9 (amended): when the texcoord pool is not empty, some corner of some face carries a
negative `texcoord_index`, and every index that is not negative lies inside the pool,
`load_tex` performs no read out of range and returns `false`; it changes nothing but
`texcoords_out`. -/
theorem load_tex_negative_index (w : TexWorld) (basedir : String) (out : TexOutputs F)
    (texcoords : List F) (shapes : List shape_t) (materials : List material_t)
    (min_filter mag_filter : Int) (hne : 0 < texcoords.length)
    (hneg : ∃ (s : Nat) (sh : shape_t) (f : Nat), shapes[s]? = some sh ∧ f < sh.mesh.indices.length / 3 ∧
      NegFace sh.mesh f)
    (hin : TexInRange texcoords shapes) :
    ∃ t, load_tex w basedir out texcoords shapes materials min_filter mag_filter
      = some (false, { out with texcoords_out := t }) := by
  obtain ⟨fl, hp⟩ := texcoord_pass_defined out.texcoords_out texcoords shapes hin
  have hret := (texcoord_pass_returned _ _ _ fl hp).mpr ⟨hne, hneg⟩
  cases fl with
  | running t => simp [Flow.isReturned] at hret
  | returned t => exact ⟨t.texcoords_out, load_tex_of_returned w basedir out texcoords shapes
      materials min_filter mag_filter t hp⟩

end TexDefined

/-- C8 as stated fails: the first corner of the triangle has the valid index `0`, but the
second corner has index `-1`, so `load_tex` returns `false` before it writes the face and
`texcoords_out[0]` is the `0` of the resize, not `texcoords[0] = 1/4`. -/
theorem texcoords_out_not_written_after_failure :
    load_tex ex_world "" ⟨[], [], ex_gl⟩ (ex_texcoords ℚ) [ex_shape_neg] [] 0 0
      = some (false, ⟨[0, 0, 0, 0, 0, 0], [], ex_gl⟩) ∧
    ex_shape_neg.mesh.indices[3 * 0 + 0]? = some ⟨0, 0, 0⟩ ∧
    (ex_texcoords ℚ)[2 * 0]? = some (1 / 4) ∧
    ([0, 0, 0, 0, 0, 0] : List ℚ)[2 * 0]? ≠ some (1 / 4) := by
  refine ⟨by decide!, rfl, rfl, by decide!⟩

theorem ex_shape_tex_clean (s1 : Nat) (sh1 : shape_t) (f1 : Nat)
    (hs : [ex_shape_tex, ex_shape_neg][s1]? = some sh1) (_hf : f1 < sh1.mesh.indices.length / 3)
    (hle : s1 < 0 ∨ (s1 = 0 ∧ f1 ≤ 0)) : ¬ NegFace sh1.mesh f1 := by
  rcases hle with h | ⟨h1, h2⟩
  · omega
  · subst h1
    have hf0 : f1 = 0 := by omega
    subst hf0
    simp only [List.getElem?_cons_zero, Option.some.injEq] at hs
    subst hs
    rintro ⟨k, c, hk, hc, hneg⟩
    interval_cases k
    · simp [ex_shape_tex] at hc; subst hc; simp at hneg
    · simp [ex_shape_tex] at hc; subst hc; simp at hneg
    · simp [ex_shape_tex] at hc; subst hc; simp at hneg

/-- C8 (amended), at a concrete input: the face of the first shape is written and flipped
although the second shape makes `load_tex` return `false`. -/
theorem texcoords_out_flipped_witness :
    load_tex ex_world "" ⟨[], [], ex_gl⟩ (ex_texcoords ℚ) [ex_shape_tex, ex_shape_neg] [] 0 0
      = some (false, ⟨[1 / 5, 6 / 7, 1 / 4, 2 / 3, 1 / 5, 6 / 7, 0, 0, 0, 0, 0, 0], [], ex_gl⟩) ∧
    ∃ c u v, ex_shape_tex.mesh.indices[3 * 0 + 1]? = some c ∧ 0 ≤ c.texcoord_index ∧
      (ex_texcoords ℚ)[2 * c.texcoord_index.toNat]? = some u ∧
      (ex_texcoords ℚ)[2 * c.texcoord_index.toNat + 1]? = some v ∧
      ([1 / 5, 6 / 7, 1 / 4, 2 / 3, 1 / 5, 6 / 7, 0, 0, 0, 0, 0, 0] : List ℚ)[2 * (3 *
        (tex_faces_before [ex_shape_tex, ex_shape_neg] 0 + 0) + 1)]? = some u ∧
      ([1 / 5, 6 / 7, 1 / 4, 2 / 3, 1 / 5, 6 / 7, 0, 0, 0, 0, 0, 0] : List ℚ)[2 * (3 *
        (tex_faces_before [ex_shape_tex, ex_shape_neg] 0 + 0) + 1) + 1]? = some (1 - v) := by
  have h : load_tex ex_world "" ⟨[], [], ex_gl⟩ (ex_texcoords ℚ) [ex_shape_tex, ex_shape_neg]
      [] 0 0
      = some (false, ⟨[1 / 5, 6 / 7, 1 / 4, 2 / 3, 1 / 5, 6 / 7, 0, 0, 0, 0, 0, 0], [],
          ex_gl⟩) := by decide!
  exact ⟨h, ((texcoords_out_flipped ex_world "" ⟨[], [], ex_gl⟩ (ex_texcoords ℚ)
    [ex_shape_tex, ex_shape_neg] [] 0 0).2 false _ h).2 (by decide) 0 ex_shape_tex 0 rfl
    (by decide) ex_shape_tex_clean 1 (by decide)⟩

/-- C9 as stated fails.  With an empty texcoord pool the index `-1` is not looked at and
`load_tex` returns `true`; and a corner of an earlier face whose index lies beyond the
pool is read out of range before the negative index is reached. -/
theorem load_tex_negative_index_unchecked :
    (load_tex ex_world "" ⟨[], [], ex_gl⟩ ([] : List ℚ) [ex_shape_neg] [] 0 0
        = some (true, ⟨[0, 0, 0, 0, 0, 0], [], ex_gl⟩) ∧
      NegFace ex_shape_neg.mesh 0) ∧
    load_tex ex_world "" ⟨[], [], ex_gl⟩ ([1 / 4, 1 / 3] : List ℚ) [ex_shape_far, ex_shape_neg]
      [] 0 0 = none := by
  refine ⟨⟨by decide!, ⟨1, ⟨1, 1, -1⟩, by decide, rfl, by decide⟩⟩, by decide!⟩

/-- C9 (amended), at a concrete input: a face with a negative index after a face without. -/
theorem load_tex_negative_index_witness :
    ∃ t, load_tex ex_world "" ⟨[7], [("a", 1)], ex_gl⟩ (ex_texcoords ℚ)
        [ex_shape_tex, ex_shape_neg] [⟨"b.png"⟩] 0 0
      = some (false, ⟨t, [("a", 1)], ex_gl⟩) :=
  load_tex_negative_index ex_world "" ⟨[7], [("a", 1)], ex_gl⟩ (ex_texcoords ℚ)
    [ex_shape_tex, ex_shape_neg] [⟨"b.png"⟩] 0 0 (by decide)
    ⟨1, ex_shape_neg, 0, rfl, by decide, ⟨1, ⟨1, 1, -1⟩, by decide, rfl, by decide⟩⟩
    (by decide)

/-! ## The material loop of `load_tex` -/

theorem map_find_false_iff (m : List (String × Nat)) (key : String) :
    MAP_FIND m key = false ↔ m.lookup key = none := by
  unfold MAP_FIND
  cases m.lookup key <;> simp

theorem map_find_true_iff (m : List (String × Nat)) (key : String) :
    MAP_FIND m key = true ↔ ∃ h, m.lookup key = some h := by
  unfold MAP_FIND
  cases m.lookup key <;> simp

theorem key_count_of_not_found (m : List (String × Nat)) (key : String)
    (h : MAP_FIND m key = false) : key_count m key = 0 := by
  rw [map_find_false_iff] at h
  unfold key_count
  rw [List.count_eq_zero]
  intro hmem
  obtain ⟨kv, hkv, hk⟩ := List.mem_map.mp hmem
  have := List.lookup_eq_none_iff.mp h kv hkv
  simp [hk] at this

theorem map_assign_new (m : List (String × Nat)) (key : String) (val : Nat)
    (h : MAP_FIND m key = false) : map_assign m key val = m ++ [(key, val)] := by
  unfold map_assign
  simp [h]

theorem lookup_map_assign_new (m : List (String × Nat)) (key : String) (val : Nat)
    (h : MAP_FIND m key = false) : (map_assign m key val).lookup key = some val := by
  rw [map_assign_new m key val h, List.lookup_append, (map_find_false_iff m key).mp h]
  simp

theorem lookup_map_assign_keep (m : List (String × Nat)) (key : String) (val : Nat)
    (h : MAP_FIND m key = false) (k : String) (x : Nat) (hk : m.lookup k = some x) :
    (map_assign m key val).lookup k = some x := by
  rw [map_assign_new m key val h, List.lookup_append, hk]
  rfl

theorem lookup_map_assign_other (m : List (String × Nat)) (key : String) (val : Nat)
    (h : MAP_FIND m key = false) (k : String) (hk : k ≠ key) :
    (map_assign m key val).lookup k = m.lookup k := by
  rw [map_assign_new m key val h, List.lookup_append]
  have : ([(key, val)] : List (String × Nat)).lookup k = none := by
    have hb : (k == key) = false := by simpa using hk
    simp [List.lookup_cons, hb]
  rw [this]
  cases m.lookup k <;> rfl

theorem key_count_map_assign_self (m : List (String × Nat)) (key : String) (val : Nat)
    (h : MAP_FIND m key = false) : key_count (map_assign m key val) key = 1 := by
  have h0 := key_count_of_not_found m key h
  rw [map_assign_new m key val h]
  unfold key_count at h0 ⊢
  simp [h0]

theorem key_count_map_assign_other (m : List (String × Nat)) (key : String) (val : Nat)
    (h : MAP_FIND m key = false) (k : String) (hk : k ≠ key) :
    key_count (map_assign m key val) k = key_count m k := by
  rw [map_assign_new m key val h]
  unfold key_count
  simp [List.count_cons, hk.symm]

theorem register_tex_eq (w : TexWorld) (min_filter mag_filter : Int)
    (texname full_texpath : String) (st : RegState) :
    register_tex w min_filter mag_filter texname full_texpath st
      = Flow.running
          { texmap_out := map_assign st.texmap_out texname
              (generate_tex w full_texpath min_filter mag_filter st.gl).1
            gl := (generate_tex w full_texpath min_filter mag_filter st.gl).2 } := by
  unfold register_tex
  simp

theorem tex_material_cases {w : TexWorld} {basedir : String} {min_filter mag_filter : Int}
    {materials : List material_t} {st : RegState} {m : Nat} {fl : Flow RegState}
    (h : tex_material w basedir min_filter mag_filter materials st m = some fl) :
    ∃ mat, materials[m]? = some mat ∧
      (((mat.diffuse_texname.isEmpty = true ∨
            MAP_FIND st.texmap_out mat.diffuse_texname = true) ∧ fl = Flow.running st) ∨
       (mat.diffuse_texname.isEmpty = false ∧
          MAP_FIND st.texmap_out mat.diffuse_texname = false ∧
          has_file w mat.diffuse_texname = false ∧
          has_file w (basedir ++ mat.diffuse_texname) = false ∧ fl = Flow.returned st) ∨
       (mat.diffuse_texname.isEmpty = false ∧
          MAP_FIND st.texmap_out mat.diffuse_texname = false ∧
          ∃ path, FoundAt w basedir mat.diffuse_texname path ∧
            fl = Flow.running
              { texmap_out := map_assign st.texmap_out mat.diffuse_texname
                  (generate_tex w path min_filter mag_filter st.gl).1
                gl := (generate_tex w path min_filter mag_filter st.gl).2 })) := by
  unfold tex_material at h
  simp only [Option.bind_eq_bind, Option.bind_eq_some] at h
  obtain ⟨mat, hmat, hrest⟩ := h
  refine ⟨mat, hmat, ?_⟩
  by_cases he : mat.diffuse_texname.isEmpty = true
  · rw [if_pos he] at hrest
    exact Or.inl ⟨Or.inl he, (Option.some.inj hrest).symm⟩
  · rw [if_neg he] at hrest
    have he' : mat.diffuse_texname.isEmpty = false := by simpa using he
    by_cases hf : MAP_FIND st.texmap_out mat.diffuse_texname = true
    · rw [if_pos hf] at hrest
      exact Or.inl ⟨Or.inr hf, (Option.some.inj hrest).symm⟩
    · rw [if_neg hf] at hrest
      have hf' : MAP_FIND st.texmap_out mat.diffuse_texname = false := by simpa using hf
      by_cases h1 : has_file w mat.diffuse_texname = true
      · simp only [h1, Bool.not_true, Bool.false_eq_true, if_false] at hrest
        rw [register_tex_eq] at hrest
        exact Or.inr (Or.inr ⟨he', hf', _, Or.inl ⟨h1, rfl⟩, (Option.some.inj hrest).symm⟩)
      · have h1' : has_file w mat.diffuse_texname = false := by simpa using h1
        simp only [h1', Bool.not_false, if_true] at hrest
        by_cases h2 : has_file w (basedir ++ mat.diffuse_texname) = true
        · simp only [h2, Bool.not_true, Bool.false_eq_true, if_false] at hrest
          rw [register_tex_eq] at hrest
          exact Or.inr (Or.inr ⟨he', hf', _, Or.inr ⟨h1', h2, rfl⟩,
            (Option.some.inj hrest).symm⟩)
        · have h2' : has_file w (basedir ++ mat.diffuse_texname) = false := by simpa using h2
          simp only [h2', Bool.not_false, if_true] at hrest
          exact Or.inr (Or.inl ⟨he', hf', h1', h2', (Option.some.inj hrest).symm⟩)

theorem foundAt_unique {w : TexWorld} {basedir texname p1 p2 : String}
    (h1 : FoundAt w basedir texname p1) (h2 : FoundAt w basedir texname p2) : p1 = p2 := by
  rcases h1 with ⟨a, rfl⟩ | ⟨a, b, rfl⟩ <;> rcases h2 with ⟨c, rfl⟩ | ⟨c, d, rfl⟩
  · rfl
  · rw [a] at c; cases c
  · rw [a] at c; cases c
  · rfl

theorem reg_before_succ (w : TexWorld) (basedir : String) (min_filter mag_filter : Int)
    (materials : List material_t) (init : RegState) (k : Nat) :
    reg_before w basedir min_filter mag_filter materials init (k + 1)
      = reg_before w basedir min_filter mag_filter materials init k >>= fun a =>
          Flow.step (tex_material w basedir min_filter mag_filter materials) a k := by
  unfold reg_before
  exact foldlM_range_succ _ _ _

theorem flow_returned_absorbs {σ ι : Type} (body : σ → ι → Option (Flow σ)) (st : σ)
    (l : List ι) : l.foldlM (Flow.step body) (Flow.returned st) = some (Flow.returned st) := by
  induction l with
  | nil => rfl
  | cons x l ih =>
    rw [List.foldlM_cons]
    simp only [Flow.step, Option.bind_eq_bind, Option.some_bind]
    exact ih

theorem flow_step_running_source {σ ι : Type} {body : σ → ι → Option (Flow σ)} {a : Flow σ}
    {i : ι} {st : σ} (h : Flow.step body a i = some (Flow.running st)) :
    ∃ st0, a = Flow.running st0 := by
  cases a with
  | running st0 => exact ⟨st0, rfl⟩
  | returned st0 => simp [Flow.step] at h

theorem reg_before_running_prefix (w : TexWorld) (basedir : String)
    (min_filter mag_filter : Int) (materials : List material_t) (init : RegState) (k : Nat) :
    ∀ j st, reg_before w basedir min_filter mag_filter materials init (k + j)
        = some (Flow.running st) →
      ∃ st0, reg_before w basedir min_filter mag_filter materials init k
        = some (Flow.running st0) := by
  intro j
  induction j with
  | zero => intro st h; exact ⟨st, h⟩
  | succ j ih =>
    intro st h
    rw [← Nat.add_assoc, reg_before_succ] at h
    simp only [Option.bind_eq_bind, Option.bind_eq_some] at h
    obtain ⟨a, ha, hstep⟩ := h
    obtain ⟨st0, rfl⟩ := flow_step_running_source hstep
    exact ih st0 ha

theorem keeps_refl (a : Flow RegState) : a.state.Keeps a.state :=
  ⟨fun _ _ h => h, fun _ _ => rfl⟩

theorem keeps_trans (a b c : Flow RegState) (h1 : a.state.Keeps b.state)
    (h2 : b.state.Keeps c.state) : a.state.Keeps c.state := by
  refine ⟨fun k h hk => h2.1 k h (h1.1 k h hk), ?_⟩
  intro k hk
  obtain ⟨x, hx⟩ := (map_find_true_iff _ _).mp hk
  have hb : MAP_FIND b.state.texmap_out k = true :=
    (map_find_true_iff _ _).mpr ⟨x, h1.1 k x hx⟩
  rw [h2.2 k hb, h1.2 k hk]

theorem tex_material_keeps {w : TexWorld} {basedir : String} {min_filter mag_filter : Int}
    {materials : List material_t} {st : RegState} {m : Nat} {fl : Flow RegState}
    (h : tex_material w basedir min_filter mag_filter materials st m = some fl) :
    st.Keeps fl.state := by
  obtain ⟨mat, -, hc⟩ := tex_material_cases h
  rcases hc with ⟨-, hfl⟩ | ⟨-, -, -, -, hfl⟩ | ⟨-, hnf, path, -, hfl⟩
  · subst hfl; exact ⟨fun _ _ h => h, fun _ _ => rfl⟩
  · subst hfl; exact ⟨fun _ _ h => h, fun _ _ => rfl⟩
  · subst hfl
    refine ⟨fun k x hk => lookup_map_assign_keep _ _ _ hnf k x hk, ?_⟩
    intro k hk
    have hne : k ≠ mat.diffuse_texname := by
      intro e
      rw [e, hnf] at hk
      cases hk
    exact key_count_map_assign_other _ _ _ hnf k hne

theorem tex_material_step_keeps (w : TexWorld) (basedir : String) (min_filter mag_filter : Int)
    (materials : List material_t) (a : Flow RegState) (m : Nat) (b : Flow RegState)
    (h : Flow.step (tex_material w basedir min_filter mag_filter materials) a m = some b) :
    a.state.Keeps b.state := by
  cases a with
  | running st => exact tex_material_keeps h
  | returned st =>
    simp only [Flow.step, Option.some.injEq] at h
    subst h
    exact ⟨fun _ _ h => h, fun _ _ => rfl⟩

theorem range_prefix {k n : Nat} (h : k ≤ n) : ∃ l2, List.range n = List.range k ++ l2 := by
  rcases Nat.lt_or_eq_of_le h with h1 | h1
  · obtain ⟨l2, hl⟩ := range_split h1
    exact ⟨k :: l2, hl⟩
  · subst h1; exact ⟨[], by simp⟩

theorem reg_before_keeps (w : TexWorld) (basedir : String) (min_filter mag_filter : Int)
    (materials : List material_t) (init : RegState) (k n : Nat) (hkn : k ≤ n)
    (a b : Flow RegState)
    (ha : reg_before w basedir min_filter mag_filter materials init k = some a)
    (hb : reg_before w basedir min_filter mag_filter materials init n = some b) :
    a.state.Keeps b.state := by
  obtain ⟨l2, hl2⟩ := range_prefix hkn
  unfold reg_before at ha hb
  rw [hl2, List.foldlM_append, ha] at hb
  simp only [Option.bind_eq_bind, Option.some_bind] at hb
  exact foldlM_rel (fun x y : Flow RegState => x.state.Keeps y.state) keeps_refl keeps_trans _
    (tex_material_step_keeps w basedir min_filter mag_filter materials) _ _ _ hb

theorem reg_before_zero (w : TexWorld) (basedir : String) (min_filter mag_filter : Int)
    (materials : List material_t) (init : RegState) :
    reg_before w basedir min_filter mag_filter materials init 0 = some (Flow.running init) := by
  unfold reg_before
  rfl

theorem reg_before_returned_iff (w : TexWorld) (basedir : String) (min_filter mag_filter : Int)
    (materials : List material_t) (init : RegState) :
    ∀ k r, reg_before w basedir min_filter mag_filter materials init k = some r →
      (r.isReturned = true ↔
        ∃ m, m < k ∧ MissingAt w basedir min_filter mag_filter materials init m) := by
  intro k
  induction k with
  | zero =>
    intro r h
    rw [reg_before_zero] at h
    cases h
    simp [Flow.isReturned]
  | succ k ih =>
    intro r h
    rw [reg_before_succ] at h
    simp only [Option.bind_eq_bind, Option.bind_eq_some] at h
    obtain ⟨a, ha, hstep⟩ := h
    have iha := ih a ha
    cases a with
    | returned st0 =>
      simp only [Flow.step, Option.some.injEq] at hstep
      subst hstep
      obtain ⟨m, hm, hmiss⟩ := iha.mp rfl
      exact ⟨fun _ => ⟨m, by omega, hmiss⟩, fun _ => rfl⟩
    | running st0 =>
      have hnot : ¬ ∃ m, m < k ∧ MissingAt w basedir min_filter mag_filter materials init m := by
        intro hc
        have := iha.mpr hc
        simp [Flow.isReturned] at this
      simp only [Flow.step] at hstep
      obtain ⟨mat, hmat, hc⟩ := tex_material_cases hstep
      constructor
      · intro hret
        rcases hc with ⟨-, hfl⟩ | ⟨h1, h2, h3, h4, hfl⟩ | ⟨-, -, path, -, hfl⟩
        · subst hfl; simp [Flow.isReturned] at hret
        · exact ⟨k, by omega, st0, mat, ha, hmat, h1, h2, h3, h4⟩
        · subst hfl; simp [Flow.isReturned] at hret
      · rintro ⟨m, hm, hmiss⟩
        rcases Nat.lt_succ_iff_lt_or_eq.mp hm with hlt | heq
        · exact absurd ⟨m, hlt, hmiss⟩ hnot
        · subst heq
          obtain ⟨st1, mat1, hb1, hmat1, g1, g2, g3, g4⟩ := hmiss
          rw [ha] at hb1
          cases hb1
          rw [hmat] at hmat1
          cases hmat1
          rcases hc with ⟨hor, hfl⟩ | ⟨-, -, -, -, hfl⟩ | ⟨-, -, path, hfound, hfl⟩
          · rcases hor with h | h
            · rw [g1] at h; cases h
            · rw [g2] at h; cases h
          · subst hfl; rfl
          · rcases hfound with ⟨hf, -⟩ | ⟨-, hf, -⟩
            · rw [g3] at hf; cases hf
            · rw [g4] at hf; cases hf

theorem generatesAt_next {w : TexWorld} {basedir : String} {min_filter mag_filter : Int}
    {materials : List material_t} {init : RegState} {m : Nat} {texname path : String}
    {st : RegState}
    (h : GeneratesAt w basedir min_filter mag_filter materials init m texname path st) :
    reg_before w basedir min_filter mag_filter materials init (m + 1)
      = some (Flow.running
          { texmap_out := map_assign st.texmap_out texname
              (generate_tex w path min_filter mag_filter st.gl).1
            gl := (generate_tex w path min_filter mag_filter st.gl).2 }) := by
  obtain ⟨hb, ⟨mat, hmat, hname⟩, hne, hnf, hfound⟩ := h
  obtain ⟨r, hr⟩ := tex_materials_defined w basedir min_filter mag_filter materials
    (Flow.running init) (m + 1) (by have := (List.getElem?_eq_some.mp hmat).1; omega)
  have hr' : reg_before w basedir min_filter mag_filter materials init (m + 1) = some r := hr
  rw [hr']
  rw [reg_before_succ, hb] at hr'
  simp only [Option.bind_eq_bind, Option.some_bind, Flow.step] at hr'
  obtain ⟨mat1, hmat1, hc⟩ := tex_material_cases hr'
  rw [hmat] at hmat1
  cases hmat1
  subst hname
  rcases hc with ⟨hor, -⟩ | ⟨-, -, g3, g4, -⟩ | ⟨-, -, path1, hfound1, hfl⟩
  · rcases hor with h | h
    · rw [hne] at h; cases h
    · rw [hnf] at h; cases h
  · rcases hfound with ⟨hf, -⟩ | ⟨-, hf, -⟩
    · rw [g3] at hf; cases hf
    · rw [g4] at hf; cases hf
  · rw [foundAt_unique hfound hfound1, hfl]

theorem generatesAt_lt_length {w : TexWorld} {basedir : String} {min_filter mag_filter : Int}
    {materials : List material_t} {init : RegState} {m : Nat} {texname path : String}
    {st : RegState}
    (h : GeneratesAt w basedir min_filter mag_filter materials init m texname path st) :
    m < materials.length := by
  obtain ⟨-, ⟨mat, hmat, -⟩, -⟩ := h
  exact (List.getElem?_eq_some.mp hmat).1

theorem generatesAt_registered {w : TexWorld} {basedir : String} {min_filter mag_filter : Int}
    {materials : List material_t} {init : RegState} {m : Nat} {texname path : String}
    {st : RegState}
    (h : GeneratesAt w basedir min_filter mag_filter materials init m texname path st)
    (n : Nat) (hn : m < n) (r : Flow RegState)
    (hr : reg_before w basedir min_filter mag_filter materials init n = some r) :
    r.state.texmap_out.lookup texname
        = some (generate_tex w path min_filter mag_filter st.gl).1 ∧
      key_count r.state.texmap_out texname = 1 := by
  have hnext := generatesAt_next h
  have hk := reg_before_keeps w basedir min_filter mag_filter materials init (m + 1) n
    (by omega) _ r hnext hr
  obtain ⟨-, -, -, hnf, -⟩ := h
  simp only [flow_state_running] at hk
  have hl := lookup_map_assign_new st.texmap_out texname
    (generate_tex w path min_filter mag_filter st.gl).1 hnf
  refine ⟨hk.1 _ _ hl, ?_⟩
  rw [hk.2 texname ((map_find_true_iff _ _).mpr ⟨_, hl⟩)]
  exact key_count_map_assign_self _ _ _ hnf

theorem generatesAt_unique {w : TexWorld} {basedir : String} {min_filter mag_filter : Int}
    {materials : List material_t} {init : RegState} {m1 m2 : Nat} {texname p1 p2 : String}
    {st1 st2 : RegState}
    (h1 : GeneratesAt w basedir min_filter mag_filter materials init m1 texname p1 st1)
    (h2 : GeneratesAt w basedir min_filter mag_filter materials init m2 texname p2 st2) :
    m1 = m2 := by
  have key : ∀ (a b : Nat) (pa pb : String) (sa sb : RegState),
      GeneratesAt w basedir min_filter mag_filter materials init a texname pa sa →
      GeneratesAt w basedir min_filter mag_filter materials init b texname pb sb →
      ¬ a < b := by
    intro a b pa pb sa sb ha hb hlt
    have hreg := (generatesAt_registered ha b hlt _ hb.1).1
    simp only [flow_state_running] at hreg
    have hnf := hb.2.2.2.1
    rw [map_find_false_iff, hreg] at hnf
    cases hnf
  have k1 := key m1 m2 p1 p2 st1 st2 h1 h2
  have k2 := key m2 m1 p2 p1 st2 st1 h2 h1
  omega

theorem generatesAt_of_found (w : TexWorld) (basedir : String) (min_filter mag_filter : Int)
    (materials : List material_t) (init : RegState) (texname : String)
    (hnew : MAP_FIND init.texmap_out texname = false) :
    ∀ k st, reg_before w basedir min_filter mag_filter materials init k
        = some (Flow.running st) →
      MAP_FIND st.texmap_out texname = true →
      ∃ m path st0, m < k ∧
        GeneratesAt w basedir min_filter mag_filter materials init m texname path st0 := by
  intro k
  induction k with
  | zero =>
    intro st h hf
    rw [reg_before_zero] at h
    cases h
    rw [hnew] at hf
    cases hf
  | succ k ih =>
    intro st h hf
    have h' := h
    rw [reg_before_succ] at h'
    simp only [Option.bind_eq_bind, Option.bind_eq_some] at h'
    obtain ⟨a, ha, hstep⟩ := h'
    obtain ⟨st0, rfl⟩ := flow_step_running_source hstep
    simp only [Flow.step] at hstep
    obtain ⟨mat, hmat, hc⟩ := tex_material_cases hstep
    rcases hc with ⟨-, hfl⟩ | ⟨-, -, -, -, hfl⟩ | ⟨hne, hnf, path, hfound, hfl⟩
    · cases hfl
      obtain ⟨m, p, s0, hm, hg⟩ := ih st ha hf
      exact ⟨m, p, s0, by omega, hg⟩
    · cases hfl
    · cases hfl
      by_cases hname : mat.diffuse_texname = texname
      · subst hname
        exact ⟨k, path, st0, by omega, ha, ⟨mat, hmat, rfl⟩, hne, hnf, hfound⟩
      · have hsame : MAP_FIND st0.texmap_out texname = true := by
          obtain ⟨x, hx⟩ := (map_find_true_iff _ _).mp hf
          simp only [] at hx
          rw [lookup_map_assign_other _ _ _ hnf texname (fun e => hname e.symm)] at hx
          exact (map_find_true_iff _ _).mpr ⟨x, hx⟩
        obtain ⟨m, p, s0, hm, hg⟩ := ih st0 ha hsame
        exact ⟨m, p, s0, by omega, hg⟩

theorem generatesAt_exists (w : TexWorld) (basedir : String) (min_filter mag_filter : Int)
    (materials : List material_t) (init : RegState) (texname : String)
    (hne : texname.isEmpty = false) (hnew : MAP_FIND init.texmap_out texname = false)
    (stn : RegState)
    (hfin : reg_before w basedir min_filter mag_filter materials init materials.length
      = some (Flow.running stn))
    (m0 : Nat) (mat : material_t) (hmat : materials[m0]? = some mat)
    (hname : mat.diffuse_texname = texname) :
    ∃ m path st, m ≤ m0 ∧
      GeneratesAt w basedir min_filter mag_filter materials init m texname path st := by
  have hm0 : m0 < materials.length := (List.getElem?_eq_some.mp hmat).1
  obtain ⟨j, hj⟩ : ∃ j, materials.length = (m0 + 1) + j := ⟨materials.length - (m0 + 1), by omega⟩
  rw [hj] at hfin
  obtain ⟨st1, h1⟩ := reg_before_running_prefix w basedir min_filter mag_filter materials init
    (m0 + 1) j stn hfin
  have h1' := h1
  rw [reg_before_succ] at h1'
  simp only [Option.bind_eq_bind, Option.bind_eq_some] at h1'
  obtain ⟨a, ha, hstep⟩ := h1'
  obtain ⟨st0, rfl⟩ := flow_step_running_source hstep
  simp only [Flow.step] at hstep
  obtain ⟨mat1, hmat1, hc⟩ := tex_material_cases hstep
  rw [hmat] at hmat1
  cases hmat1
  subst hname
  rcases hc with ⟨hor, -⟩ | ⟨-, -, -, -, hfl⟩ | ⟨-, hnf, path, hfound, -⟩
  · rcases hor with h | h
    · rw [hne] at h; cases h
    · obtain ⟨m, p, s0, hm, hg⟩ := generatesAt_of_found w basedir min_filter mag_filter
        materials init mat.diffuse_texname hnew m0 st0 ha h
      exact ⟨m, p, s0, by omega, hg⟩
  · cases hfl
  · exact ⟨m0, path, st0, le_refl _, ha, ⟨mat, hmat, rfl⟩, hne, hnf, hfound⟩

section LoadTexCases

variable {F : Type} [LinearOrderedField F]

theorem load_tex_of_running (w : TexWorld) (basedir : String) (out : TexOutputs F)
    (texcoords : List F) (shapes : List shape_t) (materials : List material_t)
    (min_filter mag_filter : Int) (t : TexState F) (r : Flow RegState)
    (h : texcoord_pass out.texcoords_out texcoords shapes = some (Flow.running t))
    (hr : reg_before w basedir min_filter mag_filter materials
      { texmap_out := out.texmap_out, gl := out.gl } materials.length = some r) :
    load_tex w basedir out texcoords shapes materials min_filter mag_filter
      = some (!r.isReturned,
          { texcoords_out := t.texcoords_out, texmap_out := r.state.texmap_out,
            gl := r.state.gl }) := by
  unfold reg_before at hr
  unfold load_tex
  rw [h]
  simp only [Option.bind_eq_bind, Option.some_bind, hr]

theorem reg_before_defined (w : TexWorld) (basedir : String) (min_filter mag_filter : Int)
    (materials : List material_t) (init : RegState) (k : Nat) (hk : k ≤ materials.length) :
    ∃ r, reg_before w basedir min_filter mag_filter materials init k = some r :=
  tex_materials_defined w basedir min_filter mag_filter materials (Flow.running init) k hk

theorem load_tex_cases {w : TexWorld} {basedir : String} {out out1 : TexOutputs F}
    {texcoords : List F} {shapes : List shape_t} {materials : List material_t}
    {min_filter mag_filter : Int} {b : Bool}
    (h : load_tex w basedir out texcoords shapes materials min_filter mag_filter
      = some (b, out1)) :
    (∃ t, texcoord_pass out.texcoords_out texcoords shapes = some (Flow.returned t) ∧
        b = false ∧ out1 = { out with texcoords_out := t.texcoords_out }) ∨
    (∃ t r, texcoord_pass out.texcoords_out texcoords shapes = some (Flow.running t) ∧
        reg_before w basedir min_filter mag_filter materials
          { texmap_out := out.texmap_out, gl := out.gl } materials.length = some r ∧
        b = !r.isReturned ∧
        out1 = { texcoords_out := t.texcoords_out, texmap_out := r.state.texmap_out,
                 gl := r.state.gl }) := by
  cases hp : texcoord_pass out.texcoords_out texcoords shapes with
  | none =>
    unfold load_tex at h
    rw [hp] at h
    simp at h
  | some fl =>
    cases fl with
    | returned t =>
      rw [load_tex_of_returned w basedir out texcoords shapes materials min_filter mag_filter
        t hp] at h
      simp only [Option.some.injEq, Prod.mk.injEq] at h
      exact Or.inl ⟨t, rfl, h.1.symm, h.2.symm⟩
    | running t =>
      obtain ⟨r, hr⟩ := reg_before_defined w basedir min_filter mag_filter materials
        { texmap_out := out.texmap_out, gl := out.gl } materials.length (le_refl _)
      rw [load_tex_of_running w basedir out texcoords shapes materials min_filter mag_filter
        t r hp hr] at h
      simp only [Option.some.injEq, Prod.mk.injEq] at h
      exact Or.inr ⟨t, r, rfl, hr, h.1.symm, h.2.symm⟩

end LoadTexCases

theorem generate_tex_unsupported (w : TexWorld) (path : String) (min_filter mag_filter : Int)
    (gl : GLState) (n : Int) (hn : w.stbi_load path = some n) (h3 : n ≠ 3) (h4 : n ≠ 4) :
    generate_tex w path min_filter mag_filter gl
      = (4294967295,
          { textures := (gl.textures ++ [w.gen_name gl.generated]).erase (w.gen_name gl.generated)
            generated := gl.generated + 1
            decoded := gl.decoded ++ [path] }) := by
  unfold generate_tex
  simp only [hn, if_neg h3, if_neg h4]
  rfl

theorem generate_tex_decode_failure (w : TexWorld) (path : String)
    (min_filter mag_filter : Int) (gl : GLState) (hn : w.stbi_load path = none) :
    generate_tex w path min_filter mag_filter gl
      = (0, { gl with decoded := gl.decoded ++ [path] }) := by
  unfold generate_tex
  simp only [hn]

theorem erase_append_self_perm (l : List Nat) (a : Nat) : ((l ++ [a]).erase a).Perm l := by
  have h1 : (l ++ [a]).Perm (a :: (l ++ [a]).erase a) :=
    List.perm_cons_erase (by simp)
  have h2 : (l ++ [a]).Perm (a :: l) := List.perm_append_singleton a l
  exact (List.Perm.cons_inv (h1.symm.trans h2))

theorem missingAt_lt_length {w : TexWorld} {basedir : String} {min_filter mag_filter : Int}
    {materials : List material_t} {init : RegState} {m : Nat}
    (h : MissingAt w basedir min_filter mag_filter materials init m) :
    m < materials.length := by
  obtain ⟨st, mat, -, hmat, -⟩ := h
  exact (List.getElem?_eq_some.mp hmat).1

theorem missingAt_after_generate {w : TexWorld} {basedir : String}
    {min_filter mag_filter : Int} {materials : List material_t} {init : RegState} {m m1 : Nat}
    {texname path : String} {st : RegState}
    (hg : GeneratesAt w basedir min_filter mag_filter materials init m texname path st)
    (hm : MissingAt w basedir min_filter mag_filter materials init m1) : m < m1 := by
  rcases Nat.lt_trichotomy m1 m with hlt | heq | hgt
  · have := (reg_before_returned_iff w basedir min_filter mag_filter materials init m _
      hg.1).mpr ⟨m1, hlt, hm⟩
    simp [Flow.isReturned] at this
  · subst heq
    obtain ⟨-, ⟨mat, hmat, hname⟩, -, -, hfound⟩ := hg
    obtain ⟨st1, mat1, -, hmat1, -, -, g3, g4⟩ := hm
    rw [hmat] at hmat1
    cases hmat1
    subst hname
    rcases hfound with ⟨hf, -⟩ | ⟨-, hf, -⟩
    · rw [g3] at hf; cases hf
    · rw [g4] at hf; cases hf
  · exact hgt

section MaterialClaims

variable {F : Type} [LinearOrderedField F]

theorem load_tex_after_generate (w : TexWorld) (basedir : String) (out : TexOutputs F)
    (texcoords : List F) (shapes : List shape_t) (materials : List material_t)
    (min_filter mag_filter : Int) (t : TexState F) (m : Nat) (texname path : String)
    (st : RegState)
    (htc : texcoord_pass out.texcoords_out texcoords shapes = some (Flow.running t))
    (hg : GeneratesAt w basedir min_filter mag_filter materials
      { texmap_out := out.texmap_out, gl := out.gl } m texname path st) :
    ∃ b out1, load_tex w basedir out texcoords shapes materials min_filter mag_filter
        = some (b, out1) ∧
      out1.texmap_out.lookup texname
        = some (generate_tex w path min_filter mag_filter st.gl).1 ∧
      (b = true ↔ ¬ ∃ m1, m < m1 ∧ MissingAt w basedir min_filter mag_filter materials
        { texmap_out := out.texmap_out, gl := out.gl } m1) := by
  obtain ⟨r, hr⟩ := reg_before_defined w basedir min_filter mag_filter materials
    { texmap_out := out.texmap_out, gl := out.gl } materials.length (le_refl _)
  refine ⟨_, _, load_tex_of_running w basedir out texcoords shapes materials min_filter
    mag_filter t r htc hr, ?_, ?_⟩
  · exact (generatesAt_registered hg materials.length (generatesAt_lt_length hg) r hr).1
  · have hiff := reg_before_returned_iff w basedir min_filter mag_filter materials _ _ r hr
    constructor
    · intro hb
      rintro ⟨m1, -, hmiss⟩
      have := hiff.mpr ⟨m1, missingAt_lt_length hmiss, hmiss⟩
      rw [this] at hb
      cases hb
    · intro hno
      cases hret : r.isReturned with
      | false => rfl
      | true =>
        obtain ⟨m1, -, hmiss⟩ := hiff.mp hret
        exact absurd ⟨m1, missingAt_after_generate hg hmiss, hmiss⟩ hno

/-- C11 (amended): a texture name that `texmap_out` holds on entry keeps its handle in
every run, and `generate_tex` is not called for it; and in a run that returns `true`, for
every non-empty texture name that some material has and that is not in `texmap_out` on
entry, `generate_tex` is called at exactly one iteration of the material loop, the first
one whose material has that name, and `texmap_out` ends with exactly one entry for the
name, which holds the handle returned by that call. -/
theorem texture_registered_once (w : TexWorld) (basedir : String) (out : TexOutputs F)
    (texcoords : List F) (shapes : List shape_t) (materials : List material_t)
    (min_filter mag_filter : Int) :
    (∀ b out1, load_tex w basedir out texcoords shapes materials min_filter mag_filter
        = some (b, out1) →
      ∀ texname h, out.texmap_out.lookup texname = some h →
        out1.texmap_out.lookup texname = some h ∧
        ¬ ∃ m path st, GeneratesAt w basedir min_filter mag_filter materials
            { texmap_out := out.texmap_out, gl := out.gl } m texname path st) ∧
    (∀ out1, load_tex w basedir out texcoords shapes materials min_filter mag_filter
        = some (true, out1) →
      ∀ texname, texname.isEmpty = false → MAP_FIND out.texmap_out texname = false →
        (∃ mat, mat ∈ materials ∧ mat.diffuse_texname = texname) →
        ∃ m path st, GeneratesAt w basedir min_filter mag_filter materials
            { texmap_out := out.texmap_out, gl := out.gl } m texname path st ∧
          (∀ m1 path1 st1, GeneratesAt w basedir min_filter mag_filter materials
            { texmap_out := out.texmap_out, gl := out.gl } m1 texname path1 st1 → m1 = m) ∧
          (∀ m0 mat, materials[m0]? = some mat → mat.diffuse_texname = texname → m ≤ m0) ∧
          out1.texmap_out.lookup texname
            = some (generate_tex w path min_filter mag_filter st.gl).1 ∧
          key_count out1.texmap_out texname = 1) := by
  constructor
  · intro b out1 h texname x hx
    constructor
    · rcases load_tex_cases h with ⟨t, -, -, hout⟩ | ⟨t, r, -, hr, -, hout⟩
      · subst hout; exact hx
      · subst hout
        have hk := reg_before_keeps w basedir min_filter mag_filter materials _ 0
          materials.length (Nat.zero_le _) _ r (reg_before_zero _ _ _ _ _ _) hr
        exact hk.1 texname x hx
    · rintro ⟨m, path, st, hg⟩
      have hk := reg_before_keeps w basedir min_filter mag_filter materials _ 0 m
        (Nat.zero_le _) _ _ (reg_before_zero _ _ _ _ _ _) hg.1
      have hl := hk.1 texname x hx
      have hnf := hg.2.2.2.1
      simp only [flow_state_running] at hl
      rw [map_find_false_iff, hl] at hnf
      cases hnf
  · intro out1 h texname hne hnew hnamed
    rcases load_tex_cases h with ⟨t, -, hb, -⟩ | ⟨t, r, -, hr, hb, hout⟩
    · cases hb
    · have hrun : r.isReturned = false := by
        cases hret : r.isReturned with
        | false => rfl
        | true => rw [hret] at hb; cases hb
      rw [flow_running_of_not_returned r hrun] at hr
      obtain ⟨mat, hmem, hname⟩ := hnamed
      obtain ⟨m0, hm0⟩ := List.mem_iff_getElem?.mp hmem
      obtain ⟨m, path, st, -, hg⟩ := generatesAt_exists w basedir min_filter mag_filter
        materials _ texname hne hnew _ hr m0 mat hm0 hname
      refine ⟨m, path, st, hg, ?_, ?_, ?_⟩
      · intro m1 path1 st1 hg1
        exact generatesAt_unique hg1 hg
      · intro m2 mat2 hm2 hname2
        obtain ⟨m3, path3, st3, hle, hg3⟩ := generatesAt_exists w basedir min_filter
          mag_filter materials _ texname hne hnew _ hr m2 mat2 hm2 hname2
        have := generatesAt_unique hg3 hg
        omega
      · have hreg := generatesAt_registered hg materials.length (generatesAt_lt_length hg)
          _ hr
        subst hout
        exact hreg

/-- C12: when the decoder reports a channel count other than 3 and 4, `generate_tex`
creates a texture object and deletes it again, and returns the handle `4294967295`
(`-1` as `GLuint`); `load_tex` registers that handle, goes on with the next material and
returns `true` exactly when no later material is missing its file. -/
theorem unsupported_channels_soft_failure (w : TexWorld) (path : String)
    (min_filter mag_filter : Int) (n : Int) (hn : w.stbi_load path = some n)
    (h3 : n ≠ 3) (h4 : n ≠ 4) :
    (∀ gl : GLState,
      (generate_tex w path min_filter mag_filter gl).1 = 4294967295 ∧
      (generate_tex w path min_filter mag_filter gl).2.generated = gl.generated + 1 ∧
      (generate_tex w path min_filter mag_filter gl).2.textures.Perm gl.textures ∧
      (w.gen_name gl.generated ∉ gl.textures →
        (generate_tex w path min_filter mag_filter gl).2.textures = gl.textures)) ∧
    (∀ (basedir : String) (out : TexOutputs F) (texcoords : List F) (shapes : List shape_t)
      (materials : List material_t) (t : TexState F) (m : Nat) (texname : String)
      (st : RegState),
      texcoord_pass out.texcoords_out texcoords shapes = some (Flow.running t) →
      GeneratesAt w basedir min_filter mag_filter materials
        { texmap_out := out.texmap_out, gl := out.gl } m texname path st →
      reg_before w basedir min_filter mag_filter materials
          { texmap_out := out.texmap_out, gl := out.gl } (m + 1)
        = some (Flow.running
            { texmap_out := map_assign st.texmap_out texname 4294967295
              gl := (generate_tex w path min_filter mag_filter st.gl).2 }) ∧
      ∃ b out1, load_tex w basedir out texcoords shapes materials min_filter mag_filter
          = some (b, out1) ∧
        out1.texmap_out.lookup texname = some 4294967295 ∧
        (b = true ↔ ¬ ∃ m1, m < m1 ∧ MissingAt w basedir min_filter mag_filter materials
          { texmap_out := out.texmap_out, gl := out.gl } m1)) := by
  have hgen := generate_tex_unsupported w path min_filter mag_filter
  constructor
  · intro gl
    rw [hgen gl n hn h3 h4]
    refine ⟨rfl, rfl, erase_append_self_perm _ _, ?_⟩
    intro hfresh
    simp only []
    rw [List.erase_append_right _ hfresh]
    simp
  · intro basedir out texcoords shapes materials t m texname st htc hg
    have h1 : (generate_tex w path min_filter mag_filter st.gl).1 = 4294967295 := by
      rw [hgen st.gl n hn h3 h4]
    constructor
    · rw [generatesAt_next hg, h1]
    · obtain ⟨b, out1, hl, hlook, hb⟩ := load_tex_after_generate w basedir out texcoords shapes
        materials min_filter mag_filter t m texname path st htc hg
      rw [h1] at hlook
      exact ⟨b, out1, hl, hlook, hb⟩

/-- C13: no result of `generate_tex` makes `load_tex` return `false`; when the texcoord
pass does not fail, `load_tex` returns `false` exactly when the material loop reaches a
material whose texture name is not empty, not yet registered, and whose file exists
neither under the bare name nor under `basedir + name`; and in every run `load_tex`
returns `false` exactly for one of the two causes, a negative texcoord index with a
non-empty pool or such a missing file. -/
theorem load_tex_false_iff_missing_file (w : TexWorld) (basedir : String)
    (out : TexOutputs F) (texcoords : List F) (shapes : List shape_t)
    (materials : List material_t) (min_filter mag_filter : Int) :
    (∀ texname path st,
      (register_tex w min_filter mag_filter texname path st).isReturned = false) ∧
    (∀ t, texcoord_pass out.texcoords_out texcoords shapes = some (Flow.running t) →
      ∃ b out1, load_tex w basedir out texcoords shapes materials min_filter mag_filter
          = some (b, out1) ∧
        (b = false ↔ ∃ m, MissingAt w basedir min_filter mag_filter materials
          { texmap_out := out.texmap_out, gl := out.gl } m)) ∧
    (∀ b out1, load_tex w basedir out texcoords shapes materials min_filter mag_filter
        = some (b, out1) →
      (b = false ↔
        ((0 < texcoords.length ∧ ∃ (s : Nat) (sh : shape_t) (f : Nat), shapes[s]? = some sh ∧
            f < sh.mesh.indices.length / 3 ∧ NegFace sh.mesh f) ∨
         ((∃ t, texcoord_pass out.texcoords_out texcoords shapes = some (Flow.running t)) ∧
          ∃ m, MissingAt w basedir min_filter mag_filter materials
            { texmap_out := out.texmap_out, gl := out.gl } m)))) := by
  have hmain : ∀ r, reg_before w basedir min_filter mag_filter materials
      { texmap_out := out.texmap_out, gl := out.gl } materials.length = some r →
      ((!r.isReturned) = false ↔ ∃ m, MissingAt w basedir min_filter mag_filter materials
        { texmap_out := out.texmap_out, gl := out.gl } m) := by
    intro r hr
    have hiff := reg_before_returned_iff w basedir min_filter mag_filter materials _ _ r hr
    constructor
    · intro hb
      have : r.isReturned = true := by simpa using hb
      obtain ⟨m, -, hm⟩ := hiff.mp this
      exact ⟨m, hm⟩
    · rintro ⟨m, hm⟩
      have := hiff.mpr ⟨m, missingAt_lt_length hm, hm⟩
      simp [this]
  refine ⟨?_, ?_, ?_⟩
  · intro texname path st
    rw [register_tex_eq]
    rfl
  · intro t htc
    obtain ⟨r, hr⟩ := reg_before_defined w basedir min_filter mag_filter materials
      { texmap_out := out.texmap_out, gl := out.gl } materials.length (le_refl _)
    exact ⟨_, _, load_tex_of_running w basedir out texcoords shapes materials min_filter
      mag_filter t r htc hr, hmain r hr⟩
  · intro b out1 h
    rcases load_tex_cases h with ⟨t, htc, hb, -⟩ | ⟨t, r, htc, hr, hb, -⟩
    · have hret := (texcoord_pass_returned _ _ _ _ htc).mp rfl
      exact ⟨fun _ => Or.inl hret, fun _ => hb⟩
    · rw [hb]
      constructor
      · intro hf
        exact Or.inr ⟨⟨t, htc⟩, (hmain r hr).mp hf⟩
      · rintro (hneg | ⟨-, hmiss⟩)
        · have := (texcoord_pass_returned _ _ _ _ htc).mpr hneg
          simp [Flow.isReturned] at this
        · exact (hmain r hr).mpr hmiss

/-- C19 (amended): when the decoder fails on an existing file, `generate_tex` returns the
handle `0` and creates no texture object; the guard `texture_id < 0` is false for every
handle, so `register_tex` never returns; `load_tex` registers the name with the handle
`0`, goes on with the next material and returns `true` exactly when no later material is
missing its file. -/
theorem decode_failure_registers_zero (w : TexWorld) (path : String)
    (min_filter mag_filter : Int) (hn : w.stbi_load path = none) :
    (∀ gl : GLState,
      (generate_tex w path min_filter mag_filter gl).1 = 0 ∧
      (generate_tex w path min_filter mag_filter gl).2.textures = gl.textures ∧
      (generate_tex w path min_filter mag_filter gl).2.generated = gl.generated) ∧
    (∀ texture_id : Nat, ¬ texture_id < 0) ∧
    (∀ texname p st, (register_tex w min_filter mag_filter texname p st).isReturned = false) ∧
    (∀ (basedir : String) (out : TexOutputs F) (texcoords : List F) (shapes : List shape_t)
      (materials : List material_t) (t : TexState F) (m : Nat) (texname : String)
      (st : RegState),
      texcoord_pass out.texcoords_out texcoords shapes = some (Flow.running t) →
      GeneratesAt w basedir min_filter mag_filter materials
        { texmap_out := out.texmap_out, gl := out.gl } m texname path st →
      reg_before w basedir min_filter mag_filter materials
          { texmap_out := out.texmap_out, gl := out.gl } (m + 1)
        = some (Flow.running
            { texmap_out := map_assign st.texmap_out texname 0
              gl := (generate_tex w path min_filter mag_filter st.gl).2 }) ∧
      ∃ b out1, load_tex w basedir out texcoords shapes materials min_filter mag_filter
          = some (b, out1) ∧
        out1.texmap_out.lookup texname = some 0 ∧
        (b = true ↔ ¬ ∃ m1, m < m1 ∧ MissingAt w basedir min_filter mag_filter materials
          { texmap_out := out.texmap_out, gl := out.gl } m1)) := by
  have hgen := fun gl => generate_tex_decode_failure w path min_filter mag_filter gl hn
  refine ⟨?_, fun x => Nat.not_lt_zero x, ?_, ?_⟩
  · intro gl
    rw [hgen gl]
    exact ⟨rfl, rfl, rfl⟩
  · intro texname p st
    rw [register_tex_eq]
    rfl
  · intro basedir out texcoords shapes materials t m texname st htc hg
    have h1 : (generate_tex w path min_filter mag_filter st.gl).1 = 0 := by
      rw [hgen st.gl]
    constructor
    · rw [generatesAt_next hg, h1]
    · obtain ⟨b, out1, hl, hlook, hb⟩ := load_tex_after_generate w basedir out texcoords shapes
        materials min_filter mag_filter t m texname path st htc hg
      rw [h1] at hlook
      exact ⟨b, out1, hl, hlook, hb⟩

end MaterialClaims

/-- C11 as stated fails.  Two materials name `a.png`, whose file exists, but an earlier
material misses its file: `load_tex` returns `false` before it reaches them, the decoder
log stays empty and `texmap_out` gets no entry.  And when `a.png` is in `texmap_out` on
entry, `generate_tex` is not called at all for the two materials that name it. -/
theorem texture_generator_not_invoked :
    (has_file ex_world_files "a.png" = true ∧
      load_tex ex_world_files "dir/" ⟨[], [], ex_gl⟩ ([] : List ℚ) []
          [⟨"missing.png"⟩, ⟨"a.png"⟩, ⟨"a.png"⟩] 0 0
        = some (false, ⟨[], [], ⟨[], 0, []⟩⟩)) ∧
    load_tex ex_world_files "dir/" ⟨[], [("a.png", 7)], ex_gl⟩ ([] : List ℚ) []
        [⟨"a.png"⟩, ⟨"a.png"⟩] 0 0
      = some (true, ⟨[], [("a.png", 7)], ⟨[], 0, []⟩⟩) := by
  refine ⟨⟨by decide, by decide⟩, by decide⟩

/-- C11 (amended), at a concrete input: `a.png` is named by the first and the third of
five materials and is generated once, with the handle `1`. -/
theorem texture_registered_once_witness :
    load_tex ex_world_files "dir/" ⟨[], [], ex_gl⟩ ([] : List ℚ) [] ex_materials 0 0
      = some (true, ⟨[], [("a.png", 1), ("b.png", 4294967295), ("bad.png", 0)],
          ⟨[1], 2, ["a.png", "dir/b.png", "bad.png"]⟩⟩) ∧
    ∃ m path st, GeneratesAt ex_world_files "dir/" 0 0 ex_materials ⟨[], ex_gl⟩ m "a.png"
        path st ∧
      (∀ m1 path1 st1, GeneratesAt ex_world_files "dir/" 0 0 ex_materials ⟨[], ex_gl⟩ m1
        "a.png" path1 st1 → m1 = m) ∧
      (∀ m0 mat, ex_materials[m0]? = some mat → mat.diffuse_texname = "a.png" → m ≤ m0) ∧
      ([("a.png", 1), ("b.png", 4294967295), ("bad.png", 0)] : List (String × Nat)).lookup
          "a.png" = some (generate_tex ex_world_files path 0 0 st.gl).1 ∧
      key_count [("a.png", 1), ("b.png", 4294967295), ("bad.png", 0)] "a.png" = 1 := by
  have h : load_tex ex_world_files "dir/" ⟨[], [], ex_gl⟩ ([] : List ℚ) [] ex_materials 0 0
      = some (true, ⟨[], [("a.png", 1), ("b.png", 4294967295), ("bad.png", 0)],
          ⟨[1], 2, ["a.png", "dir/b.png", "bad.png"]⟩⟩) := by decide
  exact ⟨h, (texture_registered_once ex_world_files "dir/" ⟨[], [], ex_gl⟩ ([] : List ℚ) []
    ex_materials 0 0).2 _ h "a.png" (by decide) (by decide) ⟨⟨"a.png"⟩, by decide, rfl⟩⟩

/-- C12, at a concrete input: `dir/b.png` decodes to two channels. -/
theorem unsupported_channels_soft_failure_witness :
    (generate_tex ex_world_files "dir/b.png" 0 0 ⟨[1], 1, ["a.png"]⟩
        = (4294967295, ⟨[1], 2, ["a.png", "dir/b.png"]⟩) ∧
      (generate_tex ex_world_files "dir/b.png" 0 0 ⟨[1], 1, ["a.png"]⟩).1 = 4294967295) ∧
    load_tex ex_world_files "dir/" ⟨[], [], ex_gl⟩ ([] : List ℚ) [] ex_materials 0 0
      = some (true, ⟨[], [("a.png", 1), ("b.png", 4294967295), ("bad.png", 0)],
          ⟨[1], 2, ["a.png", "dir/b.png", "bad.png"]⟩⟩) := by
  refine ⟨⟨by decide, ?_⟩, by decide⟩
  exact ((@unsupported_channels_soft_failure ℚ _ ex_world_files "dir/b.png" 0 0 2 rfl
    (by decide) (by decide)).1 ⟨[1], 1, ["a.png"]⟩).1

/-- C13, at a concrete input: the first material misses its file. -/
theorem load_tex_false_iff_missing_file_witness :
    load_tex ex_world_files "dir/" ⟨[], [], ex_gl⟩ ([] : List ℚ) []
        [⟨"missing.png"⟩, ⟨"a.png"⟩, ⟨"a.png"⟩] 0 0 = some (false, ⟨[], [], ex_gl⟩) ∧
    ∃ b out1, load_tex ex_world_files "dir/" ⟨[], [], ex_gl⟩ ([] : List ℚ) []
        [⟨"missing.png"⟩, ⟨"a.png"⟩, ⟨"a.png"⟩] 0 0 = some (b, out1) ∧
      (b = false ↔ ∃ m, MissingAt ex_world_files "dir/" 0 0
        [⟨"missing.png"⟩, ⟨"a.png"⟩, ⟨"a.png"⟩] ⟨[], ex_gl⟩ m) :=
  ⟨by decide, (load_tex_false_iff_missing_file ex_world_files "dir/" ⟨[], [], ex_gl⟩
    ([] : List ℚ) [] [⟨"missing.png"⟩, ⟨"a.png"⟩, ⟨"a.png"⟩] 0 0).2.1 ⟨[], 0⟩ rfl⟩

/-- C19 as stated fails: `bad.png` exists and cannot be decoded, it is registered with
the handle `0`, but the next material misses its file and `load_tex` returns `false`. -/
theorem decode_failure_then_missing_file :
    has_file ex_world_files "bad.png" = true ∧ ex_world_files.stbi_load "bad.png" = none ∧
    load_tex ex_world_files "dir/" ⟨[], [], ex_gl⟩ ([] : List ℚ) []
        [⟨"bad.png"⟩, ⟨"missing.png"⟩] 0 0
      = some (false, ⟨[], [("bad.png", 0)], ⟨[], 0, ["bad.png"]⟩⟩) := by
  refine ⟨by decide, by decide, by decide⟩

/-- C19 (amended), at a concrete input: `bad.png` is the last of the five materials. -/
theorem decode_failure_registers_zero_witness :
    (generate_tex ex_world_files "bad.png" 0 0 ⟨[1], 2, ["a.png", "dir/b.png"]⟩
        = (0, ⟨[1], 2, ["a.png", "dir/b.png", "bad.png"]⟩) ∧
      (generate_tex ex_world_files "bad.png" 0 0 ⟨[1], 2, ["a.png", "dir/b.png"]⟩).1 = 0) ∧
    load_tex ex_world_files "dir/" ⟨[], [], ex_gl⟩ ([] : List ℚ) [] ex_materials 0 0
      = some (true, ⟨[], [("a.png", 1), ("b.png", 4294967295), ("bad.png", 0)],
          ⟨[1], 2, ["a.png", "dir/b.png", "bad.png"]⟩⟩) := by
  refine ⟨⟨by decide, ?_⟩, by decide⟩
  exact ((@decode_failure_registers_zero ℚ _ ex_world_files "bad.png" 0 0 rfl).1
    ⟨[1], 2, ["a.png", "dir/b.png"]⟩).1

theorem to_size_t_eq_iff (a b : Int) (ha : -2 ^ 31 ≤ a ∧ a < 2 ^ 31) (hb : -2 ^ 31 ≤ b ∧ b < 2 ^ 31) :
    to_size_t a = to_size_t b ↔ a = b := by
  constructor
  · intro h
    unfold to_size_t at h
    have h1 : (0 : Int) ≤ a % 2 ^ 64 := Int.emod_nonneg _ (by norm_num)
    have h2 : (0 : Int) ≤ b % 2 ^ 64 := Int.emod_nonneg _ (by norm_num)
    have h3 : a % 2 ^ 64 = b % 2 ^ 64 :=
      calc a % 2 ^ 64 = (((a % 2 ^ 64).toNat : Nat) : Int) := (Int.toNat_of_nonneg h1).symm
        _ = (((b % 2 ^ 64).toNat : Nat) : Int) := by rw [h]
        _ = b % 2 ^ 64 := Int.toNat_of_nonneg h2
    omega
  · intro h; rw [h]

theorem face_offset_zero (counts : List Nat) (base : Nat) : face_offset counts base 0 = base := by
  simp [face_offset]

theorem face_offset_succ (counts : List Nat) (base f : Nat) :
    face_offset counts base (f + 1) = face_offset counts base f + counts.getD f 0 := by
  unfold face_offset
  rw [List.take_succ, List.sum_append, List.getD_eq_getElem?_getD]
  cases counts[f]? <;> simp
  omega

theorem face_offset_length (counts : List Nat) (base : Nat) :
    face_offset counts base counts.length = base + counts.sum := by
  simp [face_offset]

theorem face_offset_mono (counts : List Nat) (base : Nat) {f g : Nat} (h : f ≤ g) :
    face_offset counts base f ≤ face_offset counts base g := by
  obtain ⟨d, rfl⟩ := Nat.exists_eq_add_of_le h
  simp only [face_offset, List.take_add, List.sum_append]
  omega

theorem face_offset_lt (counts : List Nat) (base : Nat) (hpos : ∀ n ∈ counts, 0 < n)
    {f g : Nat} (h : f < g) (hg : g ≤ counts.length) :
    face_offset counts base f < face_offset counts base g := by
  have h1 : face_offset counts base (f + 1) ≤ face_offset counts base g :=
    face_offset_mono counts base h
  have hf : f < counts.length := by omega
  rw [face_offset_succ counts base f, List.getD_eq_getElem _ _ hf] at h1
  have := hpos _ (List.getElem_mem hf)
  omega

theorem seg_prefix (L : List (Nat × Nat)) (base c : Nat) (mm0 : List Nat)
    (hc : (L.map Prod.fst).getD 0 0 = c) :
    ∀ k, k ≤ L.length →
      ((L.take k).foldl seg_push ⟨[base], mm0, c, base⟩).vm
          = base :: ((List.range k).filter (is_boundary (L.map Prod.fst))).map
              (face_offset (L.map Prod.snd) base) ∧
        ((L.take k).foldl seg_push ⟨[base], mm0, c, base⟩).num_of_out_vertices
          = face_offset (L.map Prod.snd) base k ∧
        ((L.take k).foldl seg_push ⟨[base], mm0, c, base⟩).current_id
          = (L.map Prod.fst).getD (k - 1) 0 := by
  intro k
  induction k with
  | zero => intro _; exact ⟨by simp, by simp [face_offset], by simpa using hc.symm⟩
  | succ k ih =>
    intro hk
    have hk1 : k < L.length := by omega
    obtain ⟨i1, i2, i3⟩ := ih (by omega)
    have htake : L.take (k + 1) = L.take k ++ [L[k]] := by
      rw [← List.take_concat_get L k hk1, List.concat_eq_append]
    have hid : (L.map Prod.fst).getD k 0 = L[k].1 := by
      rw [List.getD_eq_getElem _ _ (by simpa using hk1)]; simp
    have hcnt : (L.map Prod.snd).getD k 0 = L[k].2 := by
      rw [List.getD_eq_getElem _ _ (by simpa using hk1)]; simp
    rw [htake, List.foldl_append, List.foldl_cons, List.foldl_nil]
    refine ⟨?_, ?_, ?_⟩
    · simp only [seg_push, i1, i2, i3, List.range_succ, List.filter_append, List.map_append]
      by_cases hb : (L.map Prod.fst).getD (k - 1) 0 = L[k].1
      · have : is_boundary (L.map Prod.fst) k = false := by
          unfold is_boundary; rw [hid, hb]; simp
        simp [-List.getD_eq_getElem?_getD, hb, this]
      · have hk0 : 0 < k := by
          rcases Nat.eq_zero_or_pos k with h0 | h0
          · subst h0; exact absurd hid hb
          · exact h0
        have : is_boundary (L.map Prod.fst) k = true := by
          unfold is_boundary; rw [hid]
          exact decide_eq_true ⟨hk0, fun h => hb h.symm⟩
        simp [-List.getD_eq_getElem?_getD, hb, this]
    · simp only [seg_push, i2]
      rw [face_offset_succ, hcnt]
    · show L[k].1 = (L.map Prod.fst).getD k 0
      exact hid.symm

theorem segment_shape_closed (mash : mesh_t) (base : Nat) (r : List Nat × List Nat × Nat)
    (h : segment_shape mash base = some r) (h0 : 0 < mash.num_face_vertices.length) :
    r.1 = (0 :: boundaries mash ++ [mash.num_face_vertices.length]).map
      (face_offset mash.num_face_vertices base) := by
  rw [segment_shape_eq, if_pos h0] at h
  by_cases hl : mash.num_face_vertices.length ≤ mash.material_ids.length
  · rw [if_pos hl] at h
    obtain ⟨m, hm, hr⟩ := Option.map_eq_some'.mp h
    obtain ⟨rest, hrest⟩ := face_material_ids_head mash m h0 hm
    have hc : ((seg_input mash).map Prod.fst).getD 0 0 = to_size_t m := by
      rw [seg_input_fst, hrest]; rfl
    have hlen := seg_input_length mash hl
    obtain ⟨p1, p2, -⟩ := seg_prefix (seg_input mash) base (to_size_t m) [to_size_t m] hc
      (seg_input mash).length (le_refl _)
    rw [List.take_length] at p1 p2
    rw [seg_input_fst, seg_input_snd mash hl, hlen] at p1
    rw [seg_input_snd mash hl, hlen] at p2
    subst hr
    simp only [p1, p2]
    simp [boundaries, face_offset_zero]
  · rw [if_neg hl] at h; simp at h

theorem offsets_from_append (rs : List (List (Nat × Nat))) (r : List (Nat × Nat)) (base : Nat) :
    offsets_from base (rs ++ [r])
      = offsets_from base rs ++ [base + (rs.map run_size).sum + run_size r] := by
  induction rs generalizing base with
  | nil => simp [offsets_from]
  | cons x rs ih =>
    show base :: offsets_from (base + run_size x) (rs ++ [r]) = _
    rw [ih]
    simp [offsets_from, Nat.add_assoc]

theorem offsets_from_length (rs : List (List (Nat × Nat))) (base : Nat) :
    (offsets_from base rs).length = rs.length + 1 := by
  induction rs generalizing base with
  | nil => rfl
  | cons x rs ih => simp [offsets_from, ih]

theorem offsets_from_getElem (rs : List (List (Nat × Nat))) (base i : Nat) (r : List (Nat × Nat))
    (hi : rs[i]? = some r) :
    ∃ a, (offsets_from base rs)[i]? = some a ∧
      (offsets_from base rs)[i + 1]? = some (a + run_size r) := by
  induction rs generalizing base i with
  | nil => simp at hi
  | cons x rs ih =>
    cases i with
    | zero =>
      simp at hi; subst hi
      refine ⟨base, by simp [offsets_from], ?_⟩
      cases rs <;> simp [offsets_from]
    | succ i =>
      simp at hi
      obtain ⟨a, h1, h2⟩ := ih (base + run_size x) i hi
      exact ⟨a, by simpa [offsets_from] using h1, by simpa [offsets_from] using h2⟩

theorem seg_fold_runs (as : List (Nat × Nat)) (base : Nat) :
    ∀ (ag : Nat × Nat) (g : List (Nat × Nat)) (gs : List (List (Nat × Nat))) (st : SegState),
      st.current_id = ag.1 → st.vm = offsets_from base gs.reverse →
      st.num_of_out_vertices = base + (gs.map run_size).sum + run_size (ag :: g) →
      (as.foldl seg_push st).vm ++ [(as.foldl seg_push st).num_of_out_vertices]
        = offsets_from base (List.splitBy.loop (fun x y => x.1 == y.1) as ag g gs) := by
  induction as with
  | nil =>
    intro ag g gs st h1 h2 h3
    simp only [List.foldl_nil, List.splitBy.loop, List.reverse_cons]
    rw [offsets_from_append, ← h2, h3]
    simp [run_size, List.sum_reverse, Nat.add_comm]
  | cons a as ih =>
    intro ag g gs st h1 h2 h3
    rw [List.foldl_cons]
    by_cases hc : ag.1 = a.1
    · have hb : (ag.1 == a.1) = true := by simpa using hc
      simp only [List.splitBy.loop, hb]
      refine ih a (ag :: g) gs (seg_push st a) rfl ?_ ?_
      · simp [seg_push, h1, hc, h2]
      · simp [seg_push, h3, run_size]; omega
    · have hb : (ag.1 == a.1) = false := by simpa using hc
      simp only [List.splitBy.loop, hb]
      refine ih a [] ((ag :: g).reverse :: gs) (seg_push st a) rfl ?_ ?_
      · simp only [seg_push, h1, ne_eq, hc, not_false_eq_true, if_true, List.reverse_cons]
        rw [offsets_from_append, ← List.reverse_cons, ← h2, h3]
        simp [run_size, List.sum_reverse, Nat.add_comm]
      · simp [seg_push, h3, run_size, List.sum_reverse]; omega

theorem segment_shape_runs (mash : mesh_t) (base : Nat) (r : List Nat × List Nat × Nat)
    (h : segment_shape mash base = some r) (h0 : 0 < mash.num_face_vertices.length) :
    r.1 = offsets_from base (face_runs mash) := by
  rw [segment_shape_eq, if_pos h0] at h
  by_cases hl : mash.num_face_vertices.length ≤ mash.material_ids.length
  · rw [if_pos hl] at h
    obtain ⟨m, hm, hr⟩ := Option.map_eq_some'.mp h
    obtain ⟨rest, hrest⟩ := face_material_ids_head mash m h0 hm
    have hfst := seg_input_fst mash
    subst hr
    unfold face_runs
    cases hL : seg_input mash with
    | nil =>
      have := seg_input_length mash hl
      rw [hL] at this; simp at this; omega
    | cons a as =>
      rw [hL, hrest] at hfst
      have ha : a.1 = to_size_t m := by simpa using (List.cons.inj hfst).1
      simp only [List.splitBy, List.foldl_cons]
      refine seg_fold_runs as base a [] [] _ rfl ?_ ?_
      · simp [seg_push, ha, offsets_from]
      · simp [seg_push, run_size]
  · rw [if_neg hl] at h; simp at h

theorem boundaries_mem (mash : mesh_t) (f : Nat) :
    f ∈ boundaries mash ↔
      1 ≤ f ∧ f < mash.num_face_vertices.length ∧
        (face_material_ids mash).getD f 0 ≠ (face_material_ids mash).getD (f - 1) 0 := by
  unfold boundaries is_boundary
  rw [List.mem_filter, List.mem_range, decide_eq_true_iff]
  constructor
  · rintro ⟨h1, h2, h3⟩; exact ⟨h2, h1, h3⟩
  · rintro ⟨h1, h2, h3⟩; exact ⟨h2, h1, h3⟩

theorem face_material_ids_getD (mash : mesh_t) (f : Nat) (a : Int)
    (hf : f < mash.num_face_vertices.length) (ha : mash.material_ids[f]? = some a) :
    (face_material_ids mash).getD f 0 = to_size_t a := by
  unfold face_material_ids
  rw [List.getD_eq_getElem?_getD, List.getElem?_map, List.getElem?_take_of_lt hf, ha]
  rfl

theorem starts_pairwise (mash : mesh_t) (h0 : 0 < mash.num_face_vertices.length) :
    (0 :: boundaries mash ++ [mash.num_face_vertices.length]).Pairwise (· < ·) := by
  rw [List.cons_append, List.pairwise_cons, List.pairwise_append]
  refine ⟨?_, ?_, ?_, ?_⟩
  · intro x hx
    rcases List.mem_append.mp hx with hx | hx
    · exact ((boundaries_mem mash x).mp hx).1
    · simp at hx; omega
  · exact (List.pairwise_lt_range _).filter _
  · simp
  · intro x hx y hy
    simp at hy; subst hy
    exact ((boundaries_mem mash x).mp hx).2.1

theorem starts_le (mash : mesh_t) (x : Nat)
    (hx : x ∈ 0 :: boundaries mash ++ [mash.num_face_vertices.length]) :
    x ≤ mash.num_face_vertices.length := by
  rw [List.cons_append, List.mem_cons, List.mem_append] at hx
  rcases hx with hx | hx | hx
  · omega
  · exact Nat.le_of_lt ((boundaries_mem mash x).mp hx).2.1
  · simp at hx; omega

theorem sorted_cover (S : List Nat) (f : Nat) :
    ∀ x y, S.head? = some x → x ≤ f → S.getLast? = some y → f < y →
      ∃ i a b, S[i]? = some a ∧ S[i + 1]? = some b ∧ a ≤ f ∧ f < b := by
  induction S with
  | nil => intro x y h; simp at h
  | cons x0 S ih =>
    intro x y hx hxf hy hfy
    simp at hx; subst hx
    cases S with
    | nil => simp at hy; omega
    | cons z rest =>
      by_cases hz : f < z
      · exact ⟨0, x0, z, by simp, by simp, hxf, hz⟩
      · obtain ⟨i, a, b, h1, h2, h3, h4⟩ := ih z y (by simp) (by omega)
          (by simpa [List.getLast?_cons_cons] using hy) hfy
        exact ⟨i + 1, a, b, by simpa using h1, by simpa using h2, h3, h4⟩

theorem pairwise_lt_getElem_le (l : List Nat) (hl : l.Pairwise (· < ·)) (i j a b : Nat)
    (hij : i ≤ j) (ha : l[i]? = some a) (hb : l[j]? = some b) : a ≤ b := by
  obtain ⟨hi, rfl⟩ := List.getElem?_eq_some.mp ha
  obtain ⟨hj, rfl⟩ := List.getElem?_eq_some.mp hb
  rcases Nat.eq_or_lt_of_le hij with h | h
  · subst h; exact le_refl _
  · exact Nat.le_of_lt (List.pairwise_iff_getElem.mp hl i j hi hj h)

theorem segment_unique (vm : List Nat) (hvm : vm.Pairwise (· < ·)) (lo hi : Nat) (hlt : lo < hi)
    (i j a b c d : Nat) (h1 : vm[i]? = some a) (h2 : vm[i + 1]? = some b) (h3 : a ≤ lo)
    (h4 : hi ≤ b) (h5 : vm[j]? = some c) (h6 : vm[j + 1]? = some d) (h7 : c ≤ lo)
    (h8 : hi ≤ d) : i = j := by
  rcases Nat.lt_trichotomy i j with h | h | h
  · have := pairwise_lt_getElem_le vm hvm (i + 1) j b c h h2 h5
    omega
  · exact h
  · have := pairwise_lt_getElem_le vm hvm (j + 1) i d a h h6 h1
    omega

theorem sum_of_all_three (l : List Nat) (h : ∀ n ∈ l, n = 3) : l.sum = 3 * l.length := by
  rw [List.eq_replicate_of_mem h]
  simp [Nat.mul_comm]

theorem face_runs_flatten (mash : mesh_t) : (face_runs mash).flatten = seg_input mash :=
  List.flatten_splitBy _ _

theorem run_size_triangles (mash : mesh_t)
    (hl : mash.num_face_vertices.length ≤ mash.material_ids.length)
    (h3 : ∀ n ∈ mash.num_face_vertices, n = 3) (r : List (Nat × Nat)) (hr : r ∈ face_runs mash) :
    run_size r = 3 * r.length := by
  unfold run_size
  rw [sum_of_all_three, List.length_map]
  intro n hn
  obtain ⟨x, hx, rfl⟩ := List.mem_map.mp hn
  have hx1 : x ∈ seg_input mash := by
    rw [← face_runs_flatten]
    exact List.mem_flatten.mpr ⟨r, hr, hx⟩
  apply h3
  rw [← seg_input_snd mash hl]
  exact List.mem_map.mpr ⟨x, hx1, rfl⟩

theorem segment_shape_le (mash : mesh_t) (base : Nat) (r : List Nat × List Nat × Nat)
    (h : segment_shape mash base = some r) :
    mash.num_face_vertices.length ≤ mash.material_ids.length := by
  rw [segment_shape_eq] at h
  by_cases h0 : 0 < mash.num_face_vertices.length
  · rw [if_pos h0] at h
    by_cases hl : mash.num_face_vertices.length ≤ mash.material_ids.length
    · exact hl
    · rw [if_neg hl] at h; simp at h
  · omega

theorem segment_shape_cover (mash : mesh_t) (base : Nat) (r : List Nat × List Nat × Nat)
    (h : segment_shape mash base = some r) (h0 : 0 < mash.num_face_vertices.length)
    (hpos : ∀ n ∈ mash.num_face_vertices, 0 < n) :
    r.1.Pairwise (· < ·) ∧
      ∀ f, f < mash.num_face_vertices.length →
        ∃! i, ∃ a b, r.1[i]? = some a ∧ r.1[i + 1]? = some b ∧
          a ≤ face_offset mash.num_face_vertices base f ∧
          face_offset mash.num_face_vertices base (f + 1) ≤ b := by
  have hcl := segment_shape_closed mash base r h h0
  have hstrict : r.1.Pairwise (· < ·) := by
    rw [hcl, List.pairwise_map]
    refine (starts_pairwise mash h0).imp_of_mem ?_
    intro a b _ hb hab
    exact face_offset_lt _ _ hpos hab (starts_le mash b hb)
  refine ⟨hstrict, ?_⟩
  intro f hf
  obtain ⟨i, a, b, h1, h2, h3, h4⟩ := sorted_cover
    (0 :: boundaries mash ++ [mash.num_face_vertices.length]) f 0
    mash.num_face_vertices.length (by simp) (Nat.zero_le _)
    (by rw [List.cons_append, ← List.cons_append, List.getLast?_append]; simp) hf
  have e1 : r.1[i]? = some (face_offset mash.num_face_vertices base a) := by
    rw [hcl, List.getElem?_map, h1]; rfl
  have e2 : r.1[i + 1]? = some (face_offset mash.num_face_vertices base b) := by
    rw [hcl, List.getElem?_map, h2]; rfl
  refine ⟨i, ⟨_, _, e1, e2, face_offset_mono _ _ h3, face_offset_mono _ _ h4⟩, ?_⟩
  rintro j ⟨c, d, g1, g2, g3, g4⟩
  exact segment_unique r.1 hstrict _ _
    (face_offset_lt _ _ hpos (Nat.lt_succ_self f) hf) j i c d _ _ g1 g2 g3 g4 e1 e2
    (face_offset_mono _ _ h3) (face_offset_mono _ _ h4)

section SegmentRuns

variable {F : Type} [LinearOrderedField F]

/-- C14: in a successful `load_obj`, for every shape `s` with at least one face,
`vertex_map[s]` holds the output-vertex offsets of face `0`, of every interior boundary
and of the end of the shape, where face `f` is an interior boundary exactly when
`1 ≤ f` and its material id differs from the one of face `f - 1` (as `size_t` values,
and so as `int` values in the `int` range); it is also the list of start offsets of the
maximal runs of equal material id followed by the final offset, so that entries `i` and
`i + 1` differ by the summed vertex counts of the `i`-th run (`3 *` its number of faces
for triangles); the runs concatenate to the faces of the shape; and when every face has
at least one vertex the offsets are strictly increasing and the output vertices of every
face lie in exactly one segment. -/
theorem segment_offsets (sqrtf : F → F) (p : Parsed F) (scale : F) (out out1 : Outputs F)
    (h : load_obj sqrtf p scale out = some (true, out1))
    (s : Nat) (sh : shape_t) (hs : p.shapes[s]? = some sh)
    (hpos : 0 < sh.mesh.num_face_vertices.length) :
    ∃ vm, out1.vertex_map[s]? = some vm ∧
      vm = (0 :: boundaries sh.mesh ++ [sh.mesh.num_face_vertices.length]).map
        (face_offset sh.mesh.num_face_vertices (verts_before p.shapes s)) ∧
      (∀ f, f ∈ boundaries sh.mesh ↔
        1 ≤ f ∧ f < sh.mesh.num_face_vertices.length ∧
          (face_material_ids sh.mesh).getD f 0 ≠ (face_material_ids sh.mesh).getD (f - 1) 0) ∧
      (∀ f a b, 1 ≤ f → f < sh.mesh.num_face_vertices.length →
        sh.mesh.material_ids[f - 1]? = some a → sh.mesh.material_ids[f]? = some b →
        (-2 ^ 31 ≤ a ∧ a < 2 ^ 31) → (-2 ^ 31 ≤ b ∧ b < 2 ^ 31) →
        (f ∈ boundaries sh.mesh ↔ b ≠ a)) ∧
      vm = offsets_from (verts_before p.shapes s) (face_runs sh.mesh) ∧
      (face_runs sh.mesh).flatten = seg_input sh.mesh ∧
      (face_runs sh.mesh).length = (boundaries sh.mesh).length + 1 ∧
      (∀ r ∈ face_runs sh.mesh, r ≠ [] ∧ r.Chain' (fun x y => x.1 = y.1)) ∧
      (∀ i r, (face_runs sh.mesh)[i]? = some r →
        ∃ a, vm[i]? = some a ∧ vm[i + 1]? = some (a + run_size r) ∧
          ((∀ n ∈ sh.mesh.num_face_vertices, n = 3) → run_size r = 3 * r.length)) ∧
      ((∀ n ∈ sh.mesh.num_face_vertices, 0 < n) →
        vm.Pairwise (· < ·) ∧
        ∀ f, f < sh.mesh.num_face_vertices.length →
          ∃! i, ∃ a b, vm[i]? = some a ∧ vm[i + 1]? = some b ∧
            a ≤ face_offset sh.mesh.num_face_vertices (verts_before p.shapes s) f ∧
            face_offset sh.mesh.num_face_vertices (verts_before p.shapes s) (f + 1) ≤ b) := by
  obtain ⟨m, e, hm, -, -, hout⟩ := load_obj_some (load_obj_ret_of_true h) h
  obtain ⟨-, -, -, hmap⟩ := compute_maps_spec _ _ _ _ hm
  obtain ⟨r, hr, hv, -⟩ := hmap s sh hs
  have hl := segment_shape_le _ _ _ hr
  have hcl := segment_shape_closed _ _ _ hr hpos
  have hruns := segment_shape_runs _ _ _ hr hpos
  subst hout
  refine ⟨r.1, hv, hcl, boundaries_mem sh.mesh, ?_, hruns, face_runs_flatten sh.mesh, ?_, ?_, ?_,
    segment_shape_cover _ _ _ hr hpos⟩
  · intro f a b hf1 hf2 ha hb hra hrb
    rw [boundaries_mem, face_material_ids_getD sh.mesh f b hf2 hb,
      face_material_ids_getD sh.mesh (f - 1) a (by omega) ha]
    constructor
    · rintro ⟨-, -, hne⟩ hab
      exact hne (by rw [hab])
    · intro hne
      exact ⟨hf1, hf2, fun heq => hne ((to_size_t_eq_iff b a hrb hra).mp heq)⟩
  · have h1 := congrArg List.length hcl
    rw [hruns, offsets_from_length] at h1
    simpa using h1
  · intro x hx
    refine ⟨List.ne_nil_of_mem_splitBy _ hx, ?_⟩
    have := List.chain'_of_mem_splitBy hx
    refine this.imp ?_
    intro a b hab
    simpa using hab
  · intro i x hx
    obtain ⟨a, h1, h2⟩ := offsets_from_getElem (face_runs sh.mesh) (verts_before p.shapes s) i x hx
    rw [← hruns] at h1 h2
    exact ⟨a, h1, h2, fun h3 => run_size_triangles sh.mesh hl h3 x (List.getElem?_mem hx)⟩

end SegmentRuns

/-- C14, at a concrete input: six triangles with material ids `[0,0,1,1,1,0]` have
the interior boundaries `2` and `5`, the runs have `2`, `3` and `1` faces, and the
offsets are `[0, 6, 15, 18]`. -/
theorem segment_offsets_witness :
    (load_obj (fun x => x) (ex_parsed ℚ) (1 : ℚ) (ex_out ℚ)).map (fun r => r.2.vertex_map)
        = some [[0, 6, 15, 18], [18, 21]] ∧
    boundaries ex_shape6.mesh = [2, 5] ∧
    (face_runs ex_shape6.mesh).map List.length = [2, 3, 1] ∧
    ∃ out1, load_obj (fun x => x) (ex_parsed ℚ) (1 : ℚ) (ex_out ℚ) = some (true, out1) ∧
      ∃ vm, out1.vertex_map[0]? = some vm ∧
        vm = (0 :: boundaries ex_shape6.mesh ++ [ex_shape6.mesh.num_face_vertices.length]).map
          (face_offset ex_shape6.mesh.num_face_vertices (verts_before (ex_parsed ℚ).shapes 0)) ∧
        vm = offsets_from (verts_before (ex_parsed ℚ).shapes 0) (face_runs ex_shape6.mesh) ∧
        vm.Pairwise (· < ·) := by
  refine ⟨by decide, by decide, by decide, ?_⟩
  obtain ⟨out1, h1⟩ := load_obj_defined (fun x => x) (ex_parsed ℚ) (1 : ℚ) (ex_out ℚ) rfl (by decide)
  obtain ⟨vm, q1, q2, -, -, q3, -, -, -, -, q4⟩ :=
    segment_offsets (fun x => x) (ex_parsed ℚ) 1 (ex_out ℚ) out1 h1 0 ex_shape6 rfl (by decide)
  exact ⟨out1, h1, vm, q1, q2, q3, (q4 (by decide)).1⟩

theorem verts_before_empty_tail (shapes : List shape_t) (s : Nat)
    (hempty : ∀ s1 sh1, s < s1 → shapes[s1]? = some sh1 → sh1.mesh.num_face_vertices.length = 0) :
    ∀ j, verts_before shapes (s + 1 + j) = verts_before shapes (s + 1) := by
  intro j
  induction j with
  | zero => rfl
  | succ j ih =>
    by_cases hk : s + 1 + j < shapes.length
    · have hsh : shapes[s + 1 + j]? = some shapes[s + 1 + j] := List.getElem?_eq_getElem hk
      have h0 := hempty (s + 1 + j) _ (by omega) hsh
      have hnil : shapes[s + 1 + j].mesh.num_face_vertices = [] := List.length_eq_zero.mp h0
      rw [← Nat.add_assoc, verts_before_succ shapes (s + 1 + j) _ hsh, ih, hnil]
      simp
    · have h1 : shapes.take (s + 1 + (j + 1)) = shapes.take (s + 1 + j) := by
        rw [List.take_of_length_le (by omega), List.take_of_length_le (by omega)]
      simp only [verts_before, h1] at ih ⊢
      exact ih

section GlobalOffsets

variable {F : Type} [LinearOrderedField F]

theorem load_obj_buffer_length {sqrtf : F → F} {p : Parsed F} {scale : F} {out out1 : Outputs F}
    (h : load_obj sqrtf p scale out = some (true, out1)) :
    out1.vertices_out.length = 3 * verts_before p.shapes p.shapes.length ∧
      out1.normals_out.length = 3 * verts_before p.shapes p.shapes.length := by
  obtain ⟨m, e, hm, he, -, hout⟩ := load_obj_some (load_obj_ret_of_true h) h
  have hnum := (compute_maps_spec _ _ _ _ hm).1
  obtain ⟨l1, l2, -⟩ := emit_spec sqrtf p.attrib _ p.shapes _ e rfl rfl he
  subst hout
  simp only [resize_length] at l1 l2
  constructor <;> simp only [] <;> omega

/-- C17: in a successful `load_obj` both maps have one entry per shape; for every shape
`s` with at least one face the first entry of `vertex_map[s]` is the total number of face
vertices of all earlier shapes and its last entry is that number plus the shape's own
number of face vertices; a shape without faces gets an empty `vertex_map[s]` and an empty
`material_map[s]`; `vertices_out` has three floats per face vertex of all shapes; and
for the last shape that has a face, `3 *` the last entry of its `vertex_map` is the size
of `vertices_out`. -/
theorem vertex_map_global (sqrtf : F → F) (p : Parsed F) (scale : F) (out out1 : Outputs F)
    (h : load_obj sqrtf p scale out = some (true, out1)) :
    out1.vertex_map.length = p.shapes.length ∧ out1.material_map.length = p.shapes.length ∧
    out1.vertices_out.length = 3 * verts_before p.shapes p.shapes.length ∧
    (∀ (s : Nat) (sh : shape_t), p.shapes[s]? = some sh → 0 < sh.mesh.num_face_vertices.length →
      ∃ vm, out1.vertex_map[s]? = some vm ∧ vm[0]? = some (verts_before p.shapes s) ∧
        vm.getLast? = some (verts_before p.shapes s + sh.mesh.num_face_vertices.sum)) ∧
    (∀ (s : Nat) (sh : shape_t), p.shapes[s]? = some sh → sh.mesh.num_face_vertices.length = 0 →
      out1.vertex_map[s]? = some [] ∧ out1.material_map[s]? = some []) ∧
    (∀ (s : Nat) (sh : shape_t), p.shapes[s]? = some sh → 0 < sh.mesh.num_face_vertices.length →
      (∀ (s1 : Nat) (sh1 : shape_t), s < s1 → p.shapes[s1]? = some sh1 → sh1.mesh.num_face_vertices.length = 0) →
      ∃ vm last, out1.vertex_map[s]? = some vm ∧ vm.getLast? = some last ∧
        3 * last = out1.vertices_out.length) := by
  have hlen := (load_obj_buffer_length h).1
  obtain ⟨m, e, hm, -, -, hout⟩ := load_obj_some (load_obj_ret_of_true h) h
  obtain ⟨-, hvl, hml, hmap⟩ := compute_maps_spec _ _ _ _ hm
  have hvm : out1.vertex_map = m.vertex_map := by rw [hout]
  have hmm : out1.material_map = m.material_map := by rw [hout]
  rw [hvm, hmm]
  have first : ∀ (s : Nat) (sh : shape_t), p.shapes[s]? = some sh → 0 < sh.mesh.num_face_vertices.length →
      ∃ vm, m.vertex_map[s]? = some vm ∧ vm[0]? = some (verts_before p.shapes s) ∧
        vm.getLast? = some (verts_before p.shapes s + sh.mesh.num_face_vertices.sum) := by
    intro s sh hs hpos
    obtain ⟨r, hr, hv, -⟩ := hmap s sh hs
    obtain ⟨-, q2, q3, -, -⟩ := segment_shape_vm _ _ _ hr hpos
    refine ⟨r.1, hv, ?_, q3⟩
    rw [← List.head?_eq_getElem?]; exact q2
  refine ⟨hvl, hml, hlen, first, ?_, ?_⟩
  · intro s sh hs h0
    obtain ⟨r, hr, hv, hmt⟩ := hmap s sh hs
    obtain ⟨e1, e2⟩ := segment_shape_empty _ _ _ hr h0
    rw [hv, hmt, e1, e2]
    exact ⟨rfl, rfl⟩
  · intro s sh hs hpos hempty
    obtain ⟨vm, g1, -, g3⟩ := first s sh hs hpos
    refine ⟨vm, _, g1, g3, ?_⟩
    have hs1 : s < p.shapes.length := (List.getElem?_eq_some.mp hs).1
    obtain ⟨j, hj⟩ : ∃ j, p.shapes.length = s + 1 + j := ⟨p.shapes.length - (s + 1), by omega⟩
    rw [hlen, hj, verts_before_empty_tail p.shapes s hempty j, verts_before_succ p.shapes s sh hs]

end GlobalOffsets

/-- C17, at a concrete input: a shape of six triangles, a shape of one triangle and a
shape without faces; the second shape starts at offset `18` and ends at `21`, the third
gets empty maps, and `3 * 21` is the size of `vertices_out`. -/
theorem vertex_map_global_witness :
    (load_obj (fun x => x) ⟨true, ex_attrib ℚ, [ex_shape6, ex_shape1, ⟨"none", ⟨[], [], []⟩⟩]⟩
        (1 : ℚ) (ex_out ℚ)).map (fun r => (r.1, r.2.vertex_map, r.2.material_map,
          r.2.vertices_out.length))
      = some (true, [[0, 6, 15, 18], [18, 21], []], [[0, 0, 1], [5], []], 63) ∧
    ∃ out1, load_obj (fun x => x)
        ⟨true, ex_attrib ℚ, [ex_shape6, ex_shape1, ⟨"none", ⟨[], [], []⟩⟩]⟩ (1 : ℚ) (ex_out ℚ)
        = some (true, out1) ∧
      ∃ vm last, out1.vertex_map[1]? = some vm ∧ vm.getLast? = some last ∧
        3 * last = out1.vertices_out.length := by
  refine ⟨by decide, ?_⟩
  obtain ⟨out1, h1⟩ := load_obj_defined (fun x => x)
    ⟨true, ex_attrib ℚ, [ex_shape6, ex_shape1, ⟨"none", ⟨[], [], []⟩⟩]⟩ (1 : ℚ) (ex_out ℚ) rfl
    (by decide)
  refine ⟨out1, h1, (vertex_map_global (fun x => x) _ 1 (ex_out ℚ) out1 h1).2.2.2.2.2 1 ex_shape1
    rfl (by decide) ?_⟩
  intro s1 sh1 hlt hsh
  have hs1 : s1 < 3 := (List.getElem?_eq_some.mp hsh).1
  obtain rfl : s1 = 2 := by omega
  simp at hsh
  subst hsh
  rfl

section NormalCross

variable {F : Type} [LinearOrderedField F]

theorem sq_len_nonneg (v : Vec3 F) : 0 ≤ sq_len v := by
  unfold sq_len
  have h0 := mul_self_nonneg v.c0
  have h1 := mul_self_nonneg v.c1
  have h2 := mul_self_nonneg v.c2
  linarith

theorem sq_len_eq_zero (v : Vec3 F) (h : ¬ 0 < sq_len v) : v = ⟨0, 0, 0⟩ := by
  have hz : sq_len v = 0 := le_antisymm (not_lt.mp h) (sq_len_nonneg v)
  unfold sq_len at hz
  have h0 := mul_self_nonneg v.c0
  have h1 := mul_self_nonneg v.c1
  have h2 := mul_self_nonneg v.c2
  have e0 : v.c0 * v.c0 = 0 := by linarith
  have e1 : v.c1 * v.c1 = 0 := by linarith
  have e2 : v.c2 * v.c2 = 0 := by linarith
  obtain ⟨a, b, c⟩ := v
  simp only [Vec3.mk.injEq]
  exact ⟨mul_self_eq_zero.mp e0, mul_self_eq_zero.mp e1, mul_self_eq_zero.mp e2⟩

theorem calc_normal_eq (sqrtf : F → F) (v0 v1 v2 : Vec3 F) :
    calc_normal sqrtf v0 v1 v2 =
      if 0 < sq_len (cross v0 v1 v2) then
        ⟨(cross v0 v1 v2).c0 / sqrtf (sq_len (cross v0 v1 v2)),
         (cross v0 v1 v2).c1 / sqrtf (sq_len (cross v0 v1 v2)),
         (cross v0 v1 v2).c2 / sqrtf (sq_len (cross v0 v1 v2))⟩
      else cross v0 v1 v2 := rfl

/-- C15: for all points `v0`, `v1`, `v2`, when the squared length of the cross product
`(v1 - v0) × (v2 - v0)` is greater than `0`, `calc_normal` yields that cross product with
every component divided by the square root of the squared length; otherwise it yields
the cross product itself, undivided, and this is the zero vector; the squared length is
greater than `0` exactly when the cross product is not the zero vector. -/
theorem calc_normal_cross (sqrtf : F → F) (v0 v1 v2 : Vec3 F) :
    (0 < sq_len (cross v0 v1 v2) →
      calc_normal sqrtf v0 v1 v2 =
        ⟨(cross v0 v1 v2).c0 / sqrtf (sq_len (cross v0 v1 v2)),
         (cross v0 v1 v2).c1 / sqrtf (sq_len (cross v0 v1 v2)),
         (cross v0 v1 v2).c2 / sqrtf (sq_len (cross v0 v1 v2))⟩) ∧
    (¬ 0 < sq_len (cross v0 v1 v2) →
      calc_normal sqrtf v0 v1 v2 = cross v0 v1 v2 ∧ cross v0 v1 v2 = ⟨0, 0, 0⟩) ∧
    (0 < sq_len (cross v0 v1 v2) ↔ cross v0 v1 v2 ≠ ⟨0, 0, 0⟩) := by
  refine ⟨?_, ?_, ?_⟩
  · intro h
    rw [calc_normal_eq, if_pos h]
  · intro h
    rw [calc_normal_eq, if_neg h]
    exact ⟨rfl, sq_len_eq_zero _ h⟩
  · constructor
    · intro h hz
      rw [hz] at h
      simp [sq_len] at h
    · intro h
      by_contra hn
      exact h (sq_len_eq_zero _ hn)

end NormalCross

/-- C15, at concrete inputs: a right triangle with legs `2` and `1`, whose cross product
`(0, 0, 2)` has squared length `4` (the square root is replaced by the identity here),
and three collinear points. -/
theorem calc_normal_cross_witness :
    calc_normal (fun x => x) (⟨0, 0, 0⟩ : Vec3 ℚ) ⟨2, 0, 0⟩ ⟨0, 1, 0⟩ = ⟨0 / 4, 0 / 4, 2 / 4⟩ ∧
    calc_normal (fun x => x) (⟨0, 0, 0⟩ : Vec3 ℚ) ⟨1, 0, 0⟩ ⟨2, 0, 0⟩ = ⟨0, 0, 0⟩ := by
  constructor
  · have h := (calc_normal_cross (fun x => x) (⟨0, 0, 0⟩ : Vec3 ℚ) ⟨2, 0, 0⟩ ⟨0, 1, 0⟩).1
      (by decide!)
    rw [h]
    decide!
  · have h := (calc_normal_cross (fun x => x) (⟨0, 0, 0⟩ : Vec3 ℚ) ⟨1, 0, 0⟩ ⟨2, 0, 0⟩).2.1
      (by decide!)
    rw [h.1, h.2]

theorem cross_scale (c : ℝ) (v0 v1 v2 : Vec3 ℝ) :
    cross (Vec3.scale c v0) (Vec3.scale c v1) (Vec3.scale c v2)
      = Vec3.scale (c * c) (cross v0 v1 v2) := by
  unfold cross Vec3.scale
  simp only [Vec3.mk.injEq]
  refine ⟨by ring, by ring, by ring⟩

theorem sq_len_scale (k : ℝ) (v : Vec3 ℝ) : sq_len (Vec3.scale k v) = k * k * sq_len v := by
  unfold sq_len Vec3.scale
  ring

theorem calc_normal_scale (c : ℝ) (hc : c ≠ 0) (v0 v1 v2 : Vec3 ℝ) :
    calc_normal Real.sqrt (Vec3.scale c v0) (Vec3.scale c v1) (Vec3.scale c v2)
      = calc_normal Real.sqrt v0 v1 v2 := by
  have hk : 0 < c * c := mul_self_pos.mpr hc
  have hkk : 0 < c * c * (c * c) := mul_pos hk hk
  rw [calc_normal_eq, calc_normal_eq, cross_scale, sq_len_scale]
  by_cases h : 0 < sq_len (cross v0 v1 v2)
  · rw [if_pos (mul_pos hkk h), if_pos h]
    have hs : Real.sqrt (c * c * (c * c) * sq_len (cross v0 v1 v2))
        = c * c * Real.sqrt (sq_len (cross v0 v1 v2)) := by
      rw [Real.sqrt_mul (le_of_lt hkk), Real.sqrt_mul_self (le_of_lt hk)]
    have hne : c * c ≠ 0 := ne_of_gt hk
    rw [hs]
    simp only [Vec3.scale, Vec3.mk.injEq]
    refine ⟨mul_div_mul_left _ _ hne, mul_div_mul_left _ _ hne, mul_div_mul_left _ _ hne⟩
  · have hz := sq_len_eq_zero _ h
    have h1 : ¬ 0 < c * c * (c * c) * sq_len (cross v0 v1 v2) := by
      rw [hz]; simp [sq_len]
    rw [if_neg h1, if_neg h, hz]
    simp [Vec3.scale]

theorem scaled_eq_scale (u : Vec3 ℝ) (fs : ℝ) :
    (⟨u.c0 * fs, u.c1 * fs, u.c2 * fs⟩ : Vec3 ℝ) = Vec3.scale fs u := by
  simp [Vec3.scale, mul_comm]

theorem face_values_normals_scale {attrib : attrib_t ℝ} {fs1 fs2 : ℝ} {mesh : mesh_t} {f : Nat}
    {d1 d2 : List ℝ × List ℝ} (hn : attrib.normals.length = 0) (h1 : fs1 ≠ 0) (h2 : fs2 ≠ 0)
    (e1 : face_values Real.sqrt attrib fs1 mesh f = some d1)
    (e2 : face_values Real.sqrt attrib fs2 mesh f = some d2) : d1.2 = d2.2 := by
  obtain ⟨i0, i1, i2, u0, u1, u2, n, a0, a1, a2, b0, b1, b2, hfn, -, hd⟩ := face_values_some e1
  obtain ⟨j0, j1, j2, w0, w1, w2, n', c0, c1, c2, g0, g1, g2, hfn', -, hd'⟩ := face_values_some e2
  rw [a0] at c0; cases c0
  rw [a1] at c1; cases c1
  rw [a2] at c2; cases c2
  rw [b0] at g0; cases g0
  rw [b1] at g1; cases g1
  rw [b2] at g2; cases g2
  unfold face_normals at hfn hfn'
  rw [if_pos hn] at hfn hfn'
  have en := Option.some.inj hfn
  have en' := Option.some.inj hfn'
  simp only [scaled_eq_scale, calc_normal_scale _ h1, calc_normal_scale _ h2] at en en'
  rw [hd, hd', ← en, ← en']

theorem slots_ext {F : Type} (shapes : List shape_t) (l1 l2 : List F)
    (h1 : l1.length = 9 * total_faces shapes) (h2 : l2.length = 9 * total_faces shapes)
    (h : ∀ (s : Nat) (sh : shape_t) (f j : Nat), shapes[s]? = some sh →
      f < sh.mesh.num_face_vertices.length → j < 9 →
      l1[9 * (faces_before shapes s + f) + j]? = l2[9 * (faces_before shapes s + f) + j]?) :
    l1 = l2 := by
  apply List.ext_getElem?
  intro n
  by_cases hn : n < 9 * total_faces shapes
  · obtain ⟨s, sh, f, hs, hf, hg⟩ := face_decompose shapes (n / 9) (by omega)
    have := h s sh f (n % 9) hs hf (Nat.mod_lt _ (by decide))
    rw [← hg] at this
    have e : 9 * (n / 9) + n % 9 = n := Nat.div_add_mod n 9
    rw [e] at this
    exact this
  · rw [List.getElem?_eq_none (by omega), List.getElem?_eq_none (by omega)]

/-- C18: over the reals, for every non-zero `c` and all points `v0`, `v1`, `v2`,
`calc_normal` on `c * v0`, `c * v1`, `c * v2` yields the same vector as on `v0`, `v1`,
`v2`; hence, when the normal pool is empty, two successful runs of `load_obj` on the
same parsed mesh with two `scale` arguments whose scale factors are both non-zero write
the same normals for every face, and for a triangle mesh the same `normals_out`. -/
theorem flat_normals_scale_invariant :
    (∀ c : ℝ, c ≠ 0 → ∀ v0 v1 v2 : Vec3 ℝ,
      calc_normal Real.sqrt (Vec3.scale c v0) (Vec3.scale c v1) (Vec3.scale c v2)
        = calc_normal Real.sqrt v0 v1 v2) ∧
    (∀ (p : Parsed ℝ) (scale1 scale2 : ℝ) (outa outb out1 out2 : Outputs ℝ),
      p.attrib.normals.length = 0 →
      final_scale p.attrib.vertices scale1 ≠ 0 → final_scale p.attrib.vertices scale2 ≠ 0 →
      load_obj Real.sqrt p scale1 outa = some (true, out1) →
      load_obj Real.sqrt p scale2 outb = some (true, out2) →
      (∀ (s : Nat) (sh : shape_t) (f j : Nat), p.shapes[s]? = some sh →
        f < sh.mesh.num_face_vertices.length → j < 9 →
        out1.normals_out[9 * (faces_before p.shapes s + f) + j]?
          = out2.normals_out[9 * (faces_before p.shapes s + f) + j]?) ∧
      (Triangles p.shapes → out1.normals_out = out2.normals_out)) := by
  refine ⟨fun c hc v0 v1 v2 => calc_normal_scale c hc v0 v1 v2, ?_⟩
  intro p scale1 scale2 outa outb out1 out2 hn hs1 hs2 h1 h2
  have slots : ∀ (s : Nat) (sh : shape_t) (f j : Nat), p.shapes[s]? = some sh →
      f < sh.mesh.num_face_vertices.length → j < 9 →
      out1.normals_out[9 * (faces_before p.shapes s + f) + j]?
        = out2.normals_out[9 * (faces_before p.shapes s + f) + j]? := by
    intro s sh f j hs hf hj
    obtain ⟨d1, e1, q1⟩ := load_obj_face h1 s sh f hs hf
    obtain ⟨d2, e2, q2⟩ := load_obj_face h2 s sh f hs hf
    rw [(q1 j hj).2, (q2 j hj).2, face_values_normals_scale hn hs1 hs2 e1 e2]
  refine ⟨slots, fun ht => ?_⟩
  exact slots_ext p.shapes _ _ (load_obj_sizes (load_obj_ret_of_true h1) ht h1).2
    (load_obj_sizes (load_obj_ret_of_true h2) ht h2).2 slots

theorem ex_final_scale (scale : ℝ) : final_scale (ex_attrib ℝ).vertices scale = scale / 2 := by
  simp [final_scale, bbox, bbox_step, max_len, ex_attrib, List.range_succ]
  norm_num

/-- C18, at a concrete input over the reals: the sample mesh loaded with the scales
`1` and `3` gets the same normals. -/
theorem flat_normals_scale_invariant_witness :
    ∃ out1 out2, load_obj Real.sqrt (ex_parsed ℝ) 1 (ex_out ℝ) = some (true, out1) ∧
      load_obj Real.sqrt (ex_parsed ℝ) 3 (ex_out ℝ) = some (true, out2) ∧
      out1.normals_out = out2.normals_out := by
  obtain ⟨out1, h1⟩ := load_obj_defined Real.sqrt (ex_parsed ℝ) 1 (ex_out ℝ) rfl (by decide)
  obtain ⟨out2, h2⟩ := load_obj_defined Real.sqrt (ex_parsed ℝ) 3 (ex_out ℝ) rfl (by decide)
  refine ⟨out1, out2, h1, h2, (flat_normals_scale_invariant.2 (ex_parsed ℝ) 1 3 (ex_out ℝ) (ex_out ℝ)
    out1 out2 rfl ?_ ?_ h1 h2).2 (by decide)⟩
  · show final_scale (ex_attrib ℝ).vertices 1 ≠ 0
    rw [ex_final_scale]; norm_num
  · show final_scale (ex_attrib ℝ).vertices 3 ≠ 0
    rw [ex_final_scale]; norm_num

theorem inRange3_iff {F : Type} (pool : List F) (index : Int) :
    InRange3 pool index ↔ 0 ≤ index ∧ index < ((pool.length / 3 : Nat) : Int) := by
  unfold InRange3
  constructor
  · rintro ⟨h1, h2⟩; exact ⟨h1, by omega⟩
  · rintro ⟨h1, h2⟩; exact ⟨h1, by omega⟩

theorem faces_before_mono (shapes : List shape_t) (s : Nat) :
    ∀ j, faces_before shapes s ≤ faces_before shapes (s + j) := by
  intro j
  induction j with
  | zero => exact le_refl _
  | succ j ih =>
    by_cases hk : s + j < shapes.length
    · have hsh : shapes[s + j]? = some shapes[s + j] := List.getElem?_eq_getElem hk
      rw [← Nat.add_assoc, faces_before_succ shapes (s + j) _ hsh]
      omega
    · have h1 : shapes.take (s + (j + 1)) = shapes.take (s + j) := by
        rw [List.take_of_length_le (by omega), List.take_of_length_le (by omega)]
      simp only [faces_before, h1] at ih ⊢
      exact ih

theorem face_slot_unique (shapes : List shape_t) (s s1 f f1 : Nat) (sh sh1 : shape_t)
    (hs : shapes[s]? = some sh) (hs1 : shapes[s1]? = some sh1)
    (hf : f < sh.mesh.num_face_vertices.length) (hf1 : f1 < sh1.mesh.num_face_vertices.length)
    (h : faces_before shapes s + f = faces_before shapes s1 + f1) : s = s1 ∧ f = f1 := by
  have key : ∀ (a b : Nat) (sa : shape_t) (fa fb : Nat), shapes[a]? = some sa →
      fa < sa.mesh.num_face_vertices.length → a < b →
      faces_before shapes a + fa = faces_before shapes b + fb → False := by
    intro a b sa fa fb ha hfa hab hEq
    have h1 := faces_before_succ shapes a sa ha
    obtain ⟨j, hj⟩ : ∃ j, b = a + 1 + j := ⟨b - (a + 1), by omega⟩
    have h2 := faces_before_mono shapes (a + 1) j
    rw [← hj] at h2
    omega
  rcases Nat.lt_trichotomy s s1 with hlt | heq | hgt
  · exact absurd (key s s1 sh f f1 hs hf hlt h) id
  · subst heq
    exact ⟨rfl, by omega⟩
  · exact absurd (key s1 s sh1 f1 f hs1 hf1 hgt h.symm) id

theorem compute_maps_indep (shapes : List shape_t) (vm mm vm1 mm1 : List (List Nat))
    (m m1 : MapState) (h : compute_maps shapes vm mm = some m)
    (h1 : compute_maps shapes vm1 mm1 = some m1) : m = m1 := by
  obtain ⟨a1, a2, a3, a4⟩ := compute_maps_spec _ _ _ _ h
  obtain ⟨b1, b2, b3, b4⟩ := compute_maps_spec _ _ _ _ h1
  have e1 : m.vertex_map = m1.vertex_map := by
    apply List.ext_getElem?
    intro s
    by_cases hs : s < shapes.length
    · have hsh : shapes[s]? = some shapes[s] := List.getElem?_eq_getElem hs
      obtain ⟨r, hr, hv, -⟩ := a4 s _ hsh
      obtain ⟨r1, hr1, hv1, -⟩ := b4 s _ hsh
      rw [hr] at hr1
      cases hr1
      rw [hv, hv1]
    · rw [List.getElem?_eq_none (by omega), List.getElem?_eq_none (by omega)]
  have e2 : m.material_map = m1.material_map := by
    apply List.ext_getElem?
    intro s
    by_cases hs : s < shapes.length
    · have hsh : shapes[s]? = some shapes[s] := List.getElem?_eq_getElem hs
      obtain ⟨r, hr, -, hv⟩ := a4 s _ hsh
      obtain ⟨r1, hr1, -, hv1⟩ := b4 s _ hsh
      rw [hr] at hr1
      cases hr1
      rw [hv, hv1]
    · rw [List.getElem?_eq_none (by omega), List.getElem?_eq_none (by omega)]
  have e3 : m.num_of_out_vertices = m1.num_of_out_vertices := by rw [a1, b1]
  cases m
  cases m1
  simp only [MapState.mk.injEq]
  exact ⟨e1, e2, e3⟩

section InBounds

variable {F : Type} [LinearOrderedField F]

theorem emit_before_some (sqrtf : F → F) (attrib : attrib_t F) (fs : F) (shapes : List shape_t)
    (init e : EmitState F)
    (h : (List.range shapes.length).foldlM (emit_step sqrtf attrib fs shapes) init = some e)
    (s : Nat) (sh : shape_t) (f : Nat) (hs : shapes[s]? = some sh)
    (hf : f < sh.mesh.num_face_vertices.length) :
    ∃ st st1, emit_before sqrtf attrib fs shapes init s f = some st ∧
      emit_face sqrtf attrib fs sh.mesh st f = some st1 ∧
      st.vertex_dst = init.vertex_dst + 9 * (faces_before shapes s + f) ∧
      st.normal_dst = init.normal_dst + 9 * (faces_before shapes s + f) := by
  have hs1 : s < shapes.length := (List.getElem?_eq_some.mp hs).1
  obtain ⟨l2, hl2⟩ := range_split hs1
  rw [hl2] at h
  obtain ⟨a1, a2, g1, g2, -⟩ := foldlM_split _ _ _ _ _ _ h
  obtain ⟨sh1, hsh1, g3⟩ := emit_step_some g2
  rw [hs] at hsh1
  cases hsh1
  unfold emit_shape at g3
  obtain ⟨l3, hl3⟩ := range_split hf
  rw [hl3] at g3
  obtain ⟨b1, b2, k1, k2, -⟩ := foldlM_split _ _ _ _ _ _ g3
  obtain ⟨c1, c2⟩ := emit_shapes_cursor sqrtf attrib fs shapes init s a1 g1
  obtain ⟨d1, d2⟩ := emit_faces_cursor sqrtf attrib fs sh.mesh a1 f b1 k1
  refine ⟨b1, b2, ?_, k2, by omega, by omega⟩
  unfold emit_before
  simp only [Option.bind_eq_bind, g1, Option.some_bind, hs, k1]

theorem load_obj_indep (sqrtf : F → F) (p : Parsed F) (scale : F) (out outb out1 out2 : Outputs F)
    (ht : Triangles p.shapes) (h1 : load_obj sqrtf p scale out = some (true, out1))
    (h2 : load_obj sqrtf p scale outb = some (true, out2)) : out1 = out2 := by
  have hret := load_obj_ret_of_true h1
  obtain ⟨m, e, hm, -, -, hout⟩ := load_obj_some hret h1
  obtain ⟨m1, e1, hm1, -, -, hout1⟩ := load_obj_some hret h2
  have hmm := compute_maps_indep _ _ _ _ _ _ _ hm hm1
  have hv : out1.vertices_out = out2.vertices_out := by
    refine slots_ext p.shapes _ _ (load_obj_sizes hret ht h1).1 (load_obj_sizes hret ht h2).1 ?_
    intro s sh f j hs hf hj
    obtain ⟨d1, e1, q1⟩ := load_obj_face h1 s sh f hs hf
    obtain ⟨d2, e2, q2⟩ := load_obj_face h2 s sh f hs hf
    rw [e1] at e2
    cases e2
    rw [(q1 j hj).1, (q2 j hj).1]
  have hn : out1.normals_out = out2.normals_out := by
    refine slots_ext p.shapes _ _ (load_obj_sizes hret ht h1).2 (load_obj_sizes hret ht h2).2 ?_
    intro s sh f j hs hf hj
    obtain ⟨d1, e1, q1⟩ := load_obj_face h1 s sh f hs hf
    obtain ⟨d2, e2, q2⟩ := load_obj_face h2 s sh f hs hf
    rw [e1] at e2
    cases e2
    rw [(q1 j hj).2, (q2 j hj).2]
  rw [hout] at hv hn ⊢
  rw [hout1] at hv hn ⊢
  simp only [] at hv hn
  rw [hv, hn, hmm]

end InBounds

section WritesOnce

variable {F : Type} [LinearOrderedField F]

/-- C16: after a successful parse of a well-formed mesh (triangles only, three indices
and one material id per face, every vertex index in `[0, pool size / 3)` and, when the
normal pool is not empty, every normal index in range), `load_obj` performs no read or
write out of bounds and returns `true` with one and the same outputs whatever the
output containers held before; both buffers have `9 * N` elements, the two write
cursors end at `9 * N`, the iteration for face `f` of shape `s` starts with both cursors
at `9 * (faces before it)` and writes the nine positions and the nine normals of that
face there; and every element of the buffers lies in the range of exactly one face. -/
theorem load_obj_writes_once (sqrtf : F → F) (p : Parsed F) (scale : F)
    (hret : p.ret = true) (hwf : WellFormed p.attrib p.shapes) :
    (∀ (pool : List F) (index : Int),
      InRange3 pool index ↔ 0 ≤ index ∧ index < ((pool.length / 3 : Nat) : Int)) ∧
    (∃ out1, ∀ out, load_obj sqrtf p scale out = some (true, out1)) ∧
    (∀ out : Outputs F, ∃ m e,
      compute_maps p.shapes out.vertex_map out.material_map = some m ∧
      m.num_of_out_vertices * 3 = 9 * total_faces p.shapes ∧
      (List.range p.shapes.length).foldlM
        (emit_step sqrtf p.attrib (final_scale p.attrib.vertices scale) p.shapes)
        { vertices_out := resize out.vertices_out (m.num_of_out_vertices * 3) 0
          normals_out := resize out.normals_out (m.num_of_out_vertices * 3) 0
          vertex_dst := 0, normal_dst := 0 } = some e ∧
      e.vertices_out.length = 9 * total_faces p.shapes ∧
      e.normals_out.length = 9 * total_faces p.shapes ∧
      e.vertex_dst = e.vertices_out.length ∧ e.normal_dst = e.normals_out.length ∧
      ∀ (s : Nat) (sh : shape_t) (f : Nat), p.shapes[s]? = some sh →
        f < sh.mesh.num_face_vertices.length →
        ∃ st st1 d,
          emit_before sqrtf p.attrib (final_scale p.attrib.vertices scale) p.shapes
            { vertices_out := resize out.vertices_out (m.num_of_out_vertices * 3) 0
              normals_out := resize out.normals_out (m.num_of_out_vertices * 3) 0
              vertex_dst := 0, normal_dst := 0 } s f = some st ∧
          st.vertex_dst = 9 * (faces_before p.shapes s + f) ∧
          st.normal_dst = 9 * (faces_before p.shapes s + f) ∧
          emit_face sqrtf p.attrib (final_scale p.attrib.vertices scale) sh.mesh st f = some st1 ∧
          face_values sqrtf p.attrib (final_scale p.attrib.vertices scale) sh.mesh f = some d ∧
          d.1.length = 9 ∧ d.2.length = 9 ∧
          store st.vertices_out st.vertex_dst d.1 = some st1.vertices_out ∧
          store st.normals_out st.normal_dst d.2 = some st1.normals_out) ∧
    (∀ q, q < 9 * total_faces p.shapes →
      ∃! sf : Nat × Nat, ∃ sh, p.shapes[sf.1]? = some sh ∧
        sf.2 < sh.mesh.num_face_vertices.length ∧
        9 * (faces_before p.shapes sf.1 + sf.2) ≤ q ∧
        q < 9 * (faces_before p.shapes sf.1 + sf.2) + 9) := by
  have ht := triangles_of_wellFormed hwf
  refine ⟨inRange3_iff, ?_, ?_, ?_⟩
  · obtain ⟨out1, h1⟩ := load_obj_defined sqrtf p scale ⟨[], [], [], []⟩ hret hwf
    refine ⟨out1, fun out => ?_⟩
    obtain ⟨out2, h2⟩ := load_obj_defined sqrtf p scale out hret hwf
    rw [h2, load_obj_indep sqrtf p scale _ _ _ _ ht h1 h2]
  · intro out
    obtain ⟨out1, h1⟩ := load_obj_defined sqrtf p scale out hret hwf
    obtain ⟨m, e, hm, he, -, -⟩ := load_obj_some hret h1
    have hnum := (compute_maps_spec _ _ _ _ hm).1
    rw [verts_before_triangles _ ht, faces_before_length] at hnum
    obtain ⟨l1, l2, -⟩ := emit_spec sqrtf p.attrib _ p.shapes _ e rfl rfl he
    obtain ⟨c1, c2⟩ := emit_shapes_cursor sqrtf p.attrib _ p.shapes _ _ e he
    simp only [resize_length] at l1 l2
    rw [faces_before_length] at c1 c2
    simp only [Nat.zero_add] at c1 c2
    refine ⟨m, e, hm, by omega, he, by omega, by omega, by omega, by omega, ?_⟩
    intro s sh f hs hf
    obtain ⟨st, st1, g1, g2, g3, g4⟩ := emit_before_some sqrtf p.attrib _ p.shapes _ e he s sh f hs hf
    simp only [Nat.zero_add] at g3 g4
    obtain ⟨d, k1, k2, k3, -, -⟩ := emit_face_some g2
    obtain ⟨n1, n2⟩ := face_values_length k1
    exact ⟨st, st1, d, g1, g3, g4, g2, k1, n1, n2, k2, k3⟩
  · intro q hq
    obtain ⟨s, sh, f, hs, hf, hg⟩ := face_decompose p.shapes (q / 9) (by omega)
    have b1 : 9 * (faces_before p.shapes s + f) ≤ q := by omega
    have b2 : q < 9 * (faces_before p.shapes s + f) + 9 := by omega
    refine ⟨(s, f), ⟨sh, hs, hf, b1, b2⟩, ?_⟩
    rintro ⟨s1, f1⟩ ⟨sh1, hs1, hf1, a1, a2⟩
    simp only [] at hs1 hf1 a1 a2
    have heq : faces_before p.shapes s1 + f1 = faces_before p.shapes s + f := by omega
    obtain ⟨e1, e2⟩ := face_slot_unique p.shapes s1 s f1 f sh1 sh hs1 hs hf1 hf heq
    rw [e1, e2]

end WritesOnce

/-- C16, at a concrete input: the sample mesh of seven triangles is loaded into output
containers that were in use before and into empty ones with the same result, and every
buffer has `63` elements. -/
theorem load_obj_writes_once_witness :
    (load_obj (fun x => x) (ex_parsed ℚ) (1 : ℚ) (ex_out ℚ)).map
        (fun r => (r.1, r.2.vertices_out.length, r.2.normals_out.length)) = some (true, 63, 63) ∧
    ∃ out1, load_obj (fun x => x) (ex_parsed ℚ) (1 : ℚ) (ex_out ℚ) = some (true, out1) ∧
      load_obj (fun x => x) (ex_parsed ℚ) (1 : ℚ) ⟨[], [], [], []⟩ = some (true, out1) := by
  refine ⟨by decide, ?_⟩
  obtain ⟨out1, h1⟩ := (load_obj_writes_once (fun x => x) (ex_parsed ℚ) (1 : ℚ) rfl (by decide)).2.1
  exact ⟨out1, h1 _, h1 _⟩

end LoadObj
